import Mathlib

/-! Status formatting and checkpoint selection of `LogHelper`.

A shallow embedding of `experimental/localPriorMatch/src/runtime/Logging.cpp`.

* The value that a meter reports is a finite `double`, a rational. What
  `formatStatus` computes from such values (`value * 1000`, the processed-audio
  seconds, the measured time and their quotient) is computed in `Dbl`, with the
  rounding, the underflow, the infinities and not-a-number of IEEE 754; the
  sign of a zero is not represented.
* The conversion of the run-time timer to `int` is the 32-bit one.
* Appending to the log and performance files can fail inside `logStatus`:
  `Env.appendFails` says for which file and line.
* `std::map` / `std::unordered_map` are the lists of their entries in iteration
  order; `operator[]` inserts in key order.
* A meter is the value its `value()` reports (`value()[0]` for vector meters).
* Effects on files, the log sink, the serializer and the collective reduction
  are recorded as a list of `Event`s, in program order.
-/

namespace W2l

/-! ## Containers -/

/-- Lookup `m.find(k)`; `none` stands for `m.end()`, and for `m.at(k)` throwing. -/
def mapFind {α : Type} : List (String × α) → String → Option α
  | [], _ => none
  | (k', v) :: r, k => if k' = k then some v else mapFind r k

/-- Assignment `m[k] = v`: the entry is overwritten when present and inserted
in key order otherwise. -/
def mapAssign {α : Type} : List (String × α) → String → α → List (String × α)
  | [], k, v => [(k, v)]
  | (k', v') :: r, k, v =>
    if k' = k then (k', v) :: r
    else if k.toList < k'.toList then (k, v) :: (k', v') :: r
    else (k', v') :: mapAssign r k v

/-- Read access `m[k]` on a mutable map: a missing key is inserted with the
default-constructed value `d`. Returns the value read and the map afterwards. -/
def mapIndex {α : Type} (m : List (String × α)) (k : String) (d : α) :
    α × List (String × α) :=
  match mapFind m k with
  | some v => (v, m)
  | none => (d, mapAssign m k d)

/-- Keys of a map, in iteration order. -/
def mapKeys {α : Type} (m : List (String × α)) : List String := m.map Prod.fst

/-! ## Meter sets -/

/-- Modelled from the spec: the declaration of `SSLDatasetMeters` (Logging.h) is
not part of the sources. A dataset group maps edit-distance kinds and loss names
to averaging meters; each meter is kept as the value `value()[0]` it reports. -/
structure SSLDatasetMeters where
  edits : List (String × ℚ)
  losses : List (String × ℚ)
deriving DecidableEq

/-- Modelled from the spec: the stats vector meter, in fixed slot order
`[total input length, total target length, _, max target length, sample count]`
(64-bit integers). -/
structure SpeechStats where
  v0 : Int
  v1 : Int
  v2 : Int
  v3 : Int
  v4 : Int
deriving DecidableEq

/-- Modelled from the spec: the declaration of `SSLTrainMeters` (Logging.h) is
not part of the sources. Named timers (seconds), the stats vector, the train
group and the validation subsets by name. -/
structure SSLTrainMeters where
  timer : List (String × ℚ)
  stats : SpeechStats
  train : SSLDatasetMeters
  valid : List (String × SSLDatasetMeters)
deriving DecidableEq

/-- Identity of a meter inside a meter set (`none` is the train group). -/
inductive MeterId where
  | timer (name : String)
  | loss (subset : Option String) (name : String)
  | edit (subset : Option String) (name : String)
deriving DecidableEq

/-- Exceptions that can leave the functions of this file. -/
inductive Exn where
  | outOfRange
  | invalidArgument
  /-- The `std::runtime_error` with which `appendToLog` gives up. -/
  | runtimeError
deriving DecidableEq

deriving instance DecidableEq for Except

/-! ## Machine numbers -/

/-- A value of type `double`: a finite value, an infinity with its sign, or not
a number. The sign of a zero is not represented. -/
inductive Dbl where
  | fin (q : ℚ)
  | inf (neg : Bool)
  | nan
deriving DecidableEq

/-- The integer nearest to a rational, a tie going to the even one. -/
def roundHalfEven (x : ℚ) : Int :=
  if x - ⌊x⌋ < 1 / 2 then ⌊x⌋
  else if 1 / 2 < x - ⌊x⌋ then ⌊x⌋ + 1
  else if ⌊x⌋ % 2 = 0 then ⌊x⌋ else ⌊x⌋ + 1

/-- The `double` nearest to an exact value (IEEE 754 binary64, round to nearest,
ties to even): 53 significant bits, least exponent -1022 with gradual underflow,
and an infinity once the rounded value reaches 2^1024. -/
def roundD (q : ℚ) : Dbl :=
  if q = 0 then .fin 0
  else if (2 : ℚ) ^ (1024 : Int)
      ≤ |(roundHalfEven (q / (2 : ℚ) ^ (max (Int.log 2 |q|) (-1022) - 52)) : ℚ)
          * (2 : ℚ) ^ (max (Int.log 2 |q|) (-1022) - 52)| then
    .inf (decide (q < 0))
  else .fin ((roundHalfEven (q / (2 : ℚ) ^ (max (Int.log 2 |q|) (-1022) - 52)) : ℚ)
    * (2 : ℚ) ^ (max (Int.log 2 |q|) (-1022) - 52))

/-- The product of two values of type `double`. -/
def Dbl.mul : Dbl → Dbl → Dbl
  | .nan, _ => .nan
  | _, .nan => .nan
  | .fin a, .fin b => roundD (a * b)
  | .fin a, .inf n => if a = 0 then .nan else .inf (xor (decide (a < 0)) n)
  | .inf n, .fin b => if b = 0 then .nan else .inf (xor n (decide (b < 0)))
  | .inf n, .inf k => .inf (xor n k)

/-- The quotient of two values of type `double`. A divisor zero is +0.0, which is
what the conversion of the integer 0 gives: the quotient is then an infinity
with the sign of the dividend, and not a number for a dividend zero. -/
def Dbl.div : Dbl → Dbl → Dbl
  | .nan, _ => .nan
  | _, .nan => .nan
  | .fin a, .fin b =>
    if b = 0 then (if a = 0 then .nan else .inf (decide (a < 0))) else roundD (a / b)
  | .fin _, .inf _ => .fin 0
  | .inf n, .fin b => .inf (xor n (decide (b < 0)))
  | .inf _, .inf _ => .nan

/-- The comparison `x > 0.0` on a `double`. -/
def Dbl.gtZero : Dbl → Bool
  | .fin q => decide (0 < q)
  | .inf n => !n
  | .nan => false

/-- A `double` that is zero or above, or the positive infinity. -/
def Dbl.NonNeg : Dbl → Prop
  | .fin q => 0 ≤ q
  | .inf n => n = false
  | .nan => False

/-- A `double` that is zero or below, or the negative infinity. -/
def Dbl.NonPos : Dbl → Prop
  | .fin q => q ≤ 0
  | .inf n => n = true
  | .nan => False

/-- The value of a 64-bit signed product that overflows: the low 64 bits, as the
machine multiplication leaves them. -/
def wrap64 (n : Int) : Int := (n + 9223372036854775808) % 18446744073709551616 - 9223372036854775808

/-- Files of a run: `getRunFile` of "log", "perf", "config",
"model_" + cleanFilepath(tag) + ".bin", "prop.bin" and "prop_worker%03d.bin". -/
inductive File where
  | log
  | perf
  | config
  | model (tag : String)
  | prop
  | propWorker (worldRank : Int)
deriving DecidableEq

/-- Process-wide constants, flags and collaborators that `Logging.cpp` reads but
does not define (`Defines.h`, gflags, `common/Utils`, the reduction primitive). -/
structure Env where
  /-- Name of the designated run-time timer. -/
  kRuntime : String
  /-- Name of the per-sample timer. -/
  kTimer : String
  /-- Name of the target-unit edit-distance meter. -/
  kTarget : String
  /-- Configuration key of the epoch counter. -/
  kEpoch : String
  /-- Configuration key of the iteration counter. -/
  kIteration : String
  /-- Flag `FLAGS_itersave`. -/
  itersave : Bool
  /-- Flag `FLAGS_batchsize`. -/
  batchsize : Int
  /-- Flag `FLAGS_pow`. -/
  pow : Bool
  /-- Flag `FLAGS_mfcc`. -/
  mfcc : Bool
  /-- Flag `FLAGS_mfsc`. -/
  mfsc : Bool
  /-- Flag `FLAGS_framestridems`. -/
  framestridems : Int
  /-- Flag `FLAGS_samplerate`. -/
  samplerate : Int
  /-- Result of `fl::getWorldSize()`. -/
  worldSize : Int
  /-- Result of `getCurrentDate()`. -/
  currentDate : String
  /-- Result of `getCurrentTime()`. -/
  currentTime : String
  /-- The helper `format(fmt, x)` on a finite `double` argument. -/
  formatF : String → ℚ → String
  /-- The helper `format(fmt, x)` on an infinity or on not-a-number. -/
  formatSpecial : String → Dbl → String
  /-- Whether `appendToLog` gives up on appending the line to the file, as it
  does for a stream that could not be opened or written, and throws. -/
  appendFails : File → String → Bool
  /-- Outcome of the all-worker reduction of one scalar meter. -/
  reduce : MeterId → ℚ → ℚ
  /-- Outcome of the all-worker reduction of the stats meter. -/
  reduceStats : SpeechStats → SpeechStats

/-! ## Formatting helpers -/

/-- Modelled from the spec: the printf-style helper `format` is not part of the
sources. This is its `%d` conversion with a minimum field width, padded with
zeros after the sign (`%0<w>d`) or with blanks before it (`%<w>d`). -/
def formatD (zero : Bool) (width : Nat) (n : Int) : String :=
  let digits := Nat.repr n.natAbs
  let sign := if n < 0 then "-" else ""
  let pad := width - (sign.length + digits.length)
  if zero then sign ++ String.mk (List.replicate pad '0') ++ digits
  else String.mk (List.replicate pad ' ') ++ sign ++ digits

/-- Conversion `double → int` as in `int rt = value`: truncation toward zero. For
a value whose truncation is outside the range of the 32-bit `int` the language
leaves the conversion undefined; the value here is the one that the conversion
instruction of x86-64 returns, the least `int`. -/
def toInt (q : ℚ) : Int :=
  if -2147483648 ≤ q.num.tdiv q.den ∧ q.num.tdiv q.den ≤ 2147483647 then q.num.tdiv q.den
  else -2147483648

/-- The helper `format(fmt, x)` on a `double` argument. -/
def formatDbl (E : Env) (fmt : String) : Dbl → String
  | .fin q => E.formatF fmt q
  | d => E.formatSpecial fmt d

/-- Accumulators of `formatStatus`: the two strings of the source, and the record
of the `insertItem` calls made so far (field name, value cell). -/
structure Acc where
  header : String
  status : String
  items : List (String × String)
deriving DecidableEq

/-- The lambda `insertItem` of `formatStatus`. -/
def insertItem (verbose : Bool) (separator : String) (a : Acc) (key val : String) : Acc :=
  let val := if verbose then key ++ ": " ++ val else val
  { header := a.header ++ (if a.header.isEmpty then "" else separator) ++ key
    status := a.status ++ (if a.status.isEmpty then "" else separator) ++ val
    items := a.items ++ [(key, val)] }

/-- The lambda `insertSSLDatasetMeters` of `formatStatus`: every loss, then
every edit meter of the group. -/
def insertSSLDatasetMeters (E : Env) (verbose : Bool) (separator : String) (a : Acc)
    (meter : SSLDatasetMeters) (tag : String) : Acc :=
  let a := meter.losses.foldl
    (fun a m => insertItem verbose separator a (tag ++ "-loss-" ++ m.1)
      (E.formatF "%10.5f" m.2)) a
  meter.edits.foldl
    (fun a m => insertItem verbose separator a (tag ++ "-" ++ m.1 ++ "ER")
      (E.formatF "%5.2f" m.2)) a

/-- The value cell of an extra scalar field: empty for a header-only call,
otherwise `format("%4.6lf", logFields.at(key))`, which throws when the key is
absent. -/
def extraCell (E : Env) (logFields : List (String × ℚ)) (headerOnly : Bool)
    (key : String) : Option String :=
  if headerOnly then some "" else (mapFind logFields key).map (E.formatF "%4.6lf")

/-- The processed-audio seconds computed by `formatStatus` (lines 245-250): the
64-bit product of the total input length and the batch size, converted to
`double`, then times the frame stride over 1000.0 for a spectral front end, or
over the sample rate otherwise. -/
def audioProcSec (E : Env) (stats : SpeechStats) : Dbl :=
  let a : Dbl := roundD (wrap64 (stats.v0 * E.batchsize) : Int)
  if E.pow || E.mfcc || E.mfsc then
    Dbl.div (Dbl.mul a (roundD (E.framestridems : Int))) (.fin 1000)
  else Dbl.div a (roundD (E.samplerate : Int))

/-- The function `LogHelper::formatStatus`, returning both accumulators and the
meter set as the call leaves it. -/
def formatStatusAcc (E : Env) (logOnEpoch : Bool) (meters : SSLTrainMeters) (epoch : Int)
    (logFields : List (String × ℚ)) (verbose date : Bool) (separator : String)
    (headerOnly : Bool) : Except Exn (Acc × SSLTrainMeters) :=
  let ins := insertItem verbose separator
  let a : Acc := { header := "", status := "", items := [] }
  let a := if date then ins (ins a "date" E.currentDate) "time" E.currentTime else a
  let a := if logOnEpoch then ins a "epoch" (formatD false 8 epoch)
    else ins a "iter" (formatD false 8 epoch)
  match extraCell E logFields headerOnly "lr" with
  | none => .error .outOfRange
  | some lr =>
    let a := ins a "lr" lr
    match extraCell E logFields headerOnly "lmcrit-t" with
    | none => .error .outOfRange
    | some lmcrit =>
      let a := ins a "lmcrit-t" lmcrit
      let (rtv, timer1) := mapIndex meters.timer E.kRuntime 0
      let rt := toInt rtv
      let a := ins a E.kRuntime
        (formatD true 2 ((rt.tdiv 60).tdiv 60) ++ ":" ++ formatD true 2 ((rt.tdiv 60).tmod 60)
          ++ ":" ++ formatD true 2 (rt.tmod 60))
      let a := timer1.foldl
        (fun a m => if m.1 = E.kRuntime then a
          else ins a (m.1 ++ "(ms)") (formatDbl E "%.2f" (Dbl.mul (.fin m.2) (.fin 1000)))) a
      let a := insertSSLDatasetMeters E verbose separator a meters.train "train"
      let a := meters.valid.foldl
        (fun a v => insertSSLDatasetMeters E verbose separator a v.2 v.1) a
      let stats := meters.stats
      let numsamples := max stats.v4 1
      let isztotal := stats.v0
      let tsztotal := stats.v1
      let tszmax := stats.v3
      let a := ins a "avg-isz" (formatD true 3 (isztotal.tdiv numsamples))
      let a := ins a "avg-tsz" (formatD true 3 (tsztotal.tdiv numsamples))
      let a := ins a "max-tsz" (formatD true 3 tszmax)
      let audio := audioProcSec E stats
      let (tv, timer2) := mapIndex timer1 E.kTimer 0
      let timeTakenSec : Dbl :=
        Dbl.div (Dbl.mul (.fin tv) (roundD (numsamples : Int))) (roundD (E.worldSize : Int))
      let a := ins a "hrs" (formatDbl E "%7.2f" (Dbl.div audio (.fin 3600)))
      let a := ins a "thrpt(sec/sec)"
        (if timeTakenSec.gtZero then formatDbl E "%.2f" (Dbl.div audio timeTakenSec)
          else "n/a")
      .ok (a, { meters with timer := timer2 })

/-- The function `LogHelper::formatStatus`: the header when `headerOnly`, the
status row otherwise, with the meter set as the call leaves it. -/
def formatStatus (E : Env) (logOnEpoch : Bool) (meters : SSLTrainMeters) (epoch : Int)
    (logFields : List (String × ℚ)) (verbose date : Bool) (separator : String)
    (headerOnly : Bool) : Except Exn (String × SSLTrainMeters) :=
  match formatStatusAcc E logOnEpoch meters epoch logFields verbose date separator headerOnly with
  | .error e => .error e
  | .ok (a, m) => .ok (if headerOnly then a.header else a.status, m)

/-! ## Synchronization -/

/-- The specialization `syncMeter<SSLDatasetMeters>`: every edit meter, then
every loss meter, is reduced. -/
def syncDatasetMeters (E : Env) (subset : Option String) (meters : SSLDatasetMeters) :
    SSLDatasetMeters :=
  { edits := meters.edits.map (fun m => (m.1, E.reduce (.edit subset m.1) m.2))
    losses := meters.losses.map (fun m => (m.1, E.reduce (.loss subset m.1) m.2)) }

/-- The specialization `syncMeter<SSLTrainMeters>`: stats, every timer, the train
group, every validation subset. -/
def syncMeter (E : Env) (meters : SSLTrainMeters) : SSLTrainMeters :=
  { stats := E.reduceStats meters.stats
    timer := meters.timer.map (fun m => (m.1, E.reduce (.timer m.1) m.2))
    train := syncDatasetMeters E none meters.train
    valid := meters.valid.map (fun m => (m.1, syncDatasetMeters E (some m.1) m.2)) }

/-! ## Effects -/

/-- Observable effects, in program order. -/
inductive Event where
  /-- The collective reduction `syncMeter(mtrs)`. -/
  | sync
  /-- An `std::ofstream` is opened on the file, appending or truncating. -/
  | openFile (f : File) (app : Bool)
  /-- A line is appended to the file by `appendToLog`. -/
  | append (f : File) (line : String)
  /-- A line is passed to `LOG_MASTER(INFO)`. -/
  | info (line : String)
  /-- A caught exception is reported with `LOG(ERROR)`. -/
  | error
  /-- A file is written by the serializer (`W2lSerializer::save`, or the JSON
  archive of the configuration). -/
  | save (f : File)
deriving DecidableEq

/-- Whether an event opens, appends to or saves the log file, the performance
file or a model snapshot `model_<tag>.bin`. -/
def Event.onMasterFile : Event → Bool
  | .openFile .log _ => true
  | .openFile .perf _ => true
  | .openFile (.model _) _ => true
  | .append .log _ => true
  | .append .perf _ => true
  | .append (.model _) _ => true
  | .save .log => true
  | .save .perf => true
  | .save (.model _) => true
  | _ => false

/-- Number of snapshot requests for `model_<tag>.bin` in a trace. -/
def snapshotCount (tag : String) (trace : List Event) : Nat :=
  trace.count (Event.save (File.model tag))

/-! ## LogHelper -/

/-- The state of a `LogHelper` that its methods read or write: the master flag,
the cadence flag and the best-metric tracker `validminerrs_`. The run index and
path only select file names. -/
structure LogHelper where
  isMaster : Bool
  logOnEpoch : Bool
  validminerrs : List (String × ℚ)
deriving DecidableEq

/-- The constructor `LogHelper::LogHelper`: on the master the log and performance
files are created. -/
def LogHelper.new (isMaster logOnEpoch : Bool) : LogHelper × List Event :=
  ({ isMaster := isMaster, logOnEpoch := logOnEpoch, validminerrs := [] },
    if isMaster then [.openFile .log false, .openFile .perf false] else [])

/-- The method `LogHelper::saveConfig`. -/
def saveConfig (h : LogHelper) : List Event :=
  if !h.isMaster then [] else [.save .config]

/-- The method `LogHelper::writeHeader`. The method has no handler; a failure of
its write would leave it as an exception and is not part of this model. -/
def writeHeader (E : Env) (h : LogHelper) (meters : SSLTrainMeters) :
    Except Exn (SSLTrainMeters × List Event) :=
  if !h.isMaster then .ok (meters, [])
  else
    match formatStatus E h.logOnEpoch meters 0 [] false true "\t" true with
    | .error e => .error e
    | .ok (perfMsg, m1) =>
      .ok (m1, [.openFile .perf false, .append .perf ("# " ++ perfMsg)])

/-- The `try` block of `logStatus` (lines 80-89) on the synchronized meter set:
the meter set as the block leaves it, its effects in program order, and the
exception that leaves the block, if any. `formatStatus` raises `out_of_range`
for a missing extra field; `appendToLog` raises a `runtime_error` when it gives
up, which is also how a stream that could not be opened shows. -/
def logStatusTry (E : Env) (h : LogHelper) (m0 : SSLTrainMeters) (epoch : Int)
    (logFields : List (String × ℚ)) : SSLTrainMeters × List Event × Option Exn :=
  let opened : List Event := [.openFile .log true, .openFile .perf true]
  match formatStatus E h.logOnEpoch m0 epoch logFields true false " | " false with
  | .error e => (m0, opened, some e)
  | .ok (logMsg, m1) =>
    match formatStatus E h.logOnEpoch m1 epoch logFields false true " " false with
    | .error e => (m1, opened, some e)
    | .ok (perfMsg, m2) =>
      if E.appendFails .log logMsg then
        (m2, opened ++ [.info logMsg], some .runtimeError)
      else if E.appendFails .perf perfMsg then
        (m2, opened ++ [.info logMsg, .append .log logMsg], some .runtimeError)
      else
        (m2, opened ++ [.info logMsg, .append .log logMsg, .append .perf perfMsg], none)

/-- The method `LogHelper::logStatus`: the synchronization, then on the master
the `try` block; an exception that leaves the block is caught and reported with
`LOG(ERROR)`, and the method returns. -/
def logStatus (E : Env) (h : LogHelper) (mtrs : SSLTrainMeters) (epoch : Int)
    (logFields : List (String × ℚ)) : SSLTrainMeters × List Event :=
  let m0 := syncMeter E mtrs
  if !h.isMaster then (m0, [.sync])
  else
    match logStatusTry E h m0 epoch logFields with
    | (m, t, none) => (m, .sync :: t)
    | (m, t, some _) => (m, .sync :: t ++ [.error])

/-- The method `LogHelper::saveModel`. -/
def saveModel (h : LogHelper) (tag : String) : List Event :=
  if !h.isMaster then [] else [.save (.model tag)]

/-- The method `LogHelper::saveProposalModel`. -/
def saveProposalModel (h : LogHelper) : List Event :=
  if !h.isMaster then [] else [.save .prop]

/-- The method `LogHelper::saveWorkerProposalModel`: not gated on the master. -/
def saveWorkerProposalModel (worldRank : Int) : List Event :=
  [.save (.propWorker worldRank)]

/-- The predicate `isspace` of the C locale. -/
def isSpace (c : Char) : Bool := c.toNat = 32 || (9 ≤ c.toNat && c.toNat ≤ 13)

/-- Value of a run of decimal digits. -/
def digitsValue (ds : List Char) : Nat := ds.foldl (fun n c => 10 * n + (c.toNat - 48)) 0

/-- The standard function `std::stoi` in base 10: leading white space, an
optional sign, then the longest run of digits; no digit is `invalid_argument`, a
value outside `int` is `out_of_range`. -/
def stoi (s : String) : Except Exn Int :=
  let cs := s.toList.dropWhile isSpace
  let neg := cs.head? = some '-'
  let cs := match cs with
    | '-' :: r => r
    | '+' :: r => r
    | _ => cs
  let ds := cs.takeWhile Char.isDigit
  if ds.isEmpty then .error .invalidArgument
  else
    let v : Int := if neg then -(digitsValue ds : Int) else (digitsValue ds : Int)
    if -2147483648 ≤ v ∧ v ≤ 2147483647 then .ok v else .error .outOfRange

/-- The step number read by `logAndSaveModel` (lines 154-155). -/
def stepNumber (E : Env) (logOnEpoch : Bool) (config : List (String × String)) :
    Except Exn Int :=
  match mapFind config (if logOnEpoch then E.kEpoch else E.kIteration) with
  | none => .error .outOfRange
  | some s => stoi s

/-- The tag of the rolling snapshot (lines 156-159). -/
def rollingTag (E : Env) (logOnEpoch : Bool) (iter : Int) : String :=
  if E.itersave then
    (if logOnEpoch then "epoch_" ++ formatD true 4 iter else "iter_" ++ formatD true 8 iter)
  else "last"

/-- State threaded through the loop over `meters.valid` (lines 164-171). -/
structure LoopState where
  validminerrs : List (String × ℚ)
  valid : List (String × SSLDatasetMeters)
  trace : List Event
deriving DecidableEq

/-- The test `sit == validminerrs_.end() || sit->second > verr`. -/
def improves (validminerrs : List (String × ℚ)) (name : String) (verr : ℚ) : Bool :=
  match mapFind validminerrs name with
  | none => true
  | some best => decide (best > verr)

/-- One iteration of the loop over `meters.valid`. -/
def bestStep (E : Env) (h : LogHelper) (st : LoopState) (s : String × SSLDatasetMeters) :
    LoopState :=
  let (verr, edits1) := mapIndex s.2.edits E.kTarget 0
  let s1 : String × SSLDatasetMeters := (s.1, { s.2 with edits := edits1 })
  if improves st.validminerrs s.1 verr then
    { validminerrs := mapAssign st.validminerrs s.1 verr
      valid := st.valid ++ [s1]
      trace := st.trace ++ saveModel h s.1 }
  else { st with valid := st.valid ++ [s1] }

/-- The body of `logAndSaveModel` once the step number is known
(lines 156-171). -/
def logAndSaveModelAt (E : Env) (h : LogHelper) (meters : SSLTrainMeters) (iter : Int)
    (logFields : List (String × ℚ)) : LogHelper × SSLTrainMeters × List Event :=
  let tag := rollingTag E h.logOnEpoch iter
  let (m1, t1) := logStatus E h meters iter logFields
  let t2 := saveModel h tag
  let st := m1.valid.foldl (bestStep E h)
    { validminerrs := h.validminerrs, valid := [], trace := t1 ++ t2 }
  ({ h with validminerrs := st.validminerrs }, { m1 with valid := st.valid }, st.trace)

/-- The method `LogHelper::logAndSaveModel`. -/
def logAndSaveModel (E : Env) (h : LogHelper) (meters : SSLTrainMeters)
    (config : List (String × String)) (logFields : List (String × ℚ)) :
    Except Exn (LogHelper × SSLTrainMeters × List Event) :=
  match stepNumber E h.logOnEpoch config with
  | .error e => .error e
  | .ok iter => .ok (logAndSaveModelAt E h meters iter logFields)

/-! ## Vocabulary of the proofs -/

/-- A field as `insertItem` records it. -/
def cellOf (verbose : Bool) (key val : String) : String × String :=
  (key, if verbose then key ++ ": " ++ val else val)

/-- Fields of one dataset group. -/
def datasetFields (E : Env) (verbose : Bool) (meter : SSLDatasetMeters) (tag : String) :
    List (String × String) :=
  meter.losses.map (fun m => cellOf verbose (tag ++ "-loss-" ++ m.1) (E.formatF "%10.5f" m.2))
    ++ meter.edits.map (fun m => cellOf verbose (tag ++ "-" ++ m.1 ++ "ER") (E.formatF "%5.2f" m.2))

/-- The timer map as one call of `formatStatus` leaves it. -/
def timersAfter (E : Env) (timer : List (String × ℚ)) : List (String × ℚ) :=
  (mapIndex (mapIndex timer E.kRuntime 0).2 E.kTimer 0).2

/-- The value cell of the run-time field for a timer value. -/
def runtimeCell (rtv : ℚ) : String :=
  formatD true 2 (((toInt rtv).tdiv 60).tdiv 60) ++ ":"
    ++ formatD true 2 (((toInt rtv).tdiv 60).tmod 60) ++ ":" ++ formatD true 2 ((toInt rtv).tmod 60)

/-- The measured time `timeTakenSec` for a per-sample timer value. -/
def timeTakenSec (E : Env) (stats : SpeechStats) (tv : ℚ) : Dbl :=
  Dbl.div (Dbl.mul (.fin tv) (roundD (max stats.v4 1 : Int))) (roundD (E.worldSize : Int))

/-- The value cell of the throughput field for a per-sample timer value. -/
def thrptCell (E : Env) (stats : SpeechStats) (tv : ℚ) : String :=
  if (timeTakenSec E stats tv).gtZero then
    formatDbl E "%.2f" (Dbl.div (audioProcSec E stats) (timeTakenSec E stats tv)) else "n/a"

/-- The fields of one `formatStatus` call, in the order of its `insertItem` calls. -/
def statusFields (E : Env) (logOnEpoch : Bool) (meters : SSLTrainMeters) (epoch : Int)
    (lr lmcrit : String) (verbose date : Bool) : List (String × String) :=
  (if date then [cellOf verbose "date" E.currentDate, cellOf verbose "time" E.currentTime]
    else [])
  ++ [cellOf verbose (if logOnEpoch then "epoch" else "iter") (formatD false 8 epoch),
      cellOf verbose "lr" lr, cellOf verbose "lmcrit-t" lmcrit,
      cellOf verbose E.kRuntime (runtimeCell (mapIndex meters.timer E.kRuntime 0).1)]
  ++ (((mapIndex meters.timer E.kRuntime 0).2.filter (fun m => ¬ m.1 = E.kRuntime)).map
      (fun m => cellOf verbose (m.1 ++ "(ms)")
        (formatDbl E "%.2f" (Dbl.mul (.fin m.2) (.fin 1000)))))
  ++ datasetFields E verbose meters.train "train"
  ++ (meters.valid.map (fun x => datasetFields E verbose x.2 x.1)).flatten
  ++ [cellOf verbose "avg-isz" (formatD true 3 (meters.stats.v0.tdiv (max meters.stats.v4 1))),
      cellOf verbose "avg-tsz" (formatD true 3 (meters.stats.v1.tdiv (max meters.stats.v4 1))),
      cellOf verbose "max-tsz" (formatD true 3 meters.stats.v3),
      cellOf verbose "hrs" (formatDbl E "%7.2f" (Dbl.div (audioProcSec E meters.stats) (.fin 3600))),
      cellOf verbose "thrpt(sec/sec)" (thrptCell E meters.stats
        (mapIndex (mapIndex meters.timer E.kRuntime 0).2 E.kTimer 0).1)]

/-- The target-unit error value that the loop reads for a dataset group. -/
def targetErr (E : Env) (dm : SSLDatasetMeters) : ℚ := (mapIndex dm.edits E.kTarget 0).1

/-- A non-empty string that is the list of fields joined by the separator. -/
def Joined (sep s : String) (l : List String) : Prop := s ≠ "" ∧ s = sep.intercalate l

/-- The header accumulated so far is the field names joined by the separator. -/
def HeaderOk (sep : String) (a : Acc) : Prop := Joined sep a.header (a.items.map Prod.fst)

/-- The status accumulated so far is the value cells joined by the separator. -/
def StatusOk (sep : String) (a : Acc) : Prop := Joined sep a.status (a.items.map Prod.snd)

/-! ## A concrete environment -/

/-- A sample environment: names for the constants of `Defines.h`, flags of a
filterbank front end, a single worker, reductions that leave every meter as it
is, a `format` that renders every `double` as "x", and files that can always be
appended to. -/
def env0 : Env :=
  { kRuntime := "runtime", kTimer := "bch", kTarget := "tkn", kEpoch := "epoch",
    kIteration := "iteration", itersave := false, batchsize := 4, pow := false,
    mfcc := false, mfsc := true, framestridems := 10, samplerate := 16000,
    worldSize := 1, currentDate := "2020-01-01", currentTime := "00:00:00",
    formatF := fun _ _ => "x", formatSpecial := fun _ _ => "x",
    appendFails := fun _ _ => false, reduce := fun _ x => x, reduceStats := fun s => s }

/-- The environment `env0` with the flag `itersave` set. -/
def env1 : Env := { env0 with itersave := true }

/-- A meter set with no timers, no samples and one validation subset holding a
single target-unit error value. -/
def metersOf (subset : String) (verr : ℚ) : SSLTrainMeters :=
  { timer := [], stats := ⟨0, 0, 0, 0, 0⟩, train := ⟨[], []⟩,
    valid := [(subset, ⟨[("tkn", verr)], []⟩)] }

/-- A meter set with a run-time timer of 125 s, a per-sample timer, one loss and
one edit meter per group and statistics of three samples. -/
def meters125 : SSLTrainMeters :=
  { timer := [("bch", 2), ("runtime", 125)], stats := ⟨300, 30, 0, 12, 3⟩,
    train := ⟨[("tkn", 7)], [("ctc", 1)]⟩,
    valid := [("dev", ⟨[("tkn", 5)], [("ctc", 2)]⟩)] }

/-- The first of four calls on the master in which the subset "dev-clean" reports
10, 8, 9 and 7.5: the result of the call with the value 10 on an empty tracker. -/
def devCleanRun1 : LogHelper × SSLTrainMeters × List Event :=
  logAndSaveModelAt env0 ⟨true, true, []⟩ (metersOf "dev-clean" 10) 1 []

/-- The result of the second call, with the value 8. -/
def devCleanRun2 : LogHelper × SSLTrainMeters × List Event :=
  logAndSaveModelAt env0 devCleanRun1.1 (metersOf "dev-clean" 8) 2 []

/-- The result of the third call, with the value 9. -/
def devCleanRun3 : LogHelper × SSLTrainMeters × List Event :=
  logAndSaveModelAt env0 devCleanRun2.1 (metersOf "dev-clean" 9) 3 []

/-- The result of the fourth call, with the value 7.5. -/
def devCleanRun4 : LogHelper × SSLTrainMeters × List Event :=
  logAndSaveModelAt env0 devCleanRun3.1 (metersOf "dev-clean" 7.5) 4 []

/-- The field names of one dataset group as the specification lists them: every
loss as "<tag>-loss-<name>", then every edit meter as "<tag>-<name>ER". -/
def specGroupNames (tag : String) (g : SSLDatasetMeters) : List String :=
  g.losses.map (fun m => tag ++ "-loss-" ++ m.1) ++ g.edits.map (fun m => tag ++ "-" ++ m.1 ++ "ER")

/-- The field names in the order of the specification, as the claim words it:
"date" and "time" when the date is requested; "epoch" or "iter"; the extra
scalar fields, one for every key of the map that is passed; the run-time timer;
every other timer in map order with the suffix "(ms)"; the train group and then
each validation subset in map order; the five closing fields. -/
def specFieldNames (E : Env) (logOnEpoch : Bool) (meters : SSLTrainMeters)
    (logFields : List (String × ℚ)) (date : Bool) : List String :=
  (if date then ["date", "time"] else [])
    ++ [if logOnEpoch then "epoch" else "iter"]
    ++ mapKeys logFields
    ++ [E.kRuntime]
    ++ (meters.timer.filter (fun m => ¬ m.1 = E.kRuntime)).map (fun m => m.1 ++ "(ms)")
    ++ specGroupNames "train" meters.train
    ++ (meters.valid.map (fun v => specGroupNames v.1 v.2)).flatten
    ++ ["avg-isz", "avg-tsz", "max-tsz", "hrs", "thrpt(sec/sec)"]

/-- The field names of a call of `formatStatus` on a meter set: those of the
specification with the two fixed fields "lr" and "lmcrit-t", which lines 215-217
name, in the place of the keys of the map. -/
def fieldNames (E : Env) (logOnEpoch : Bool) (meters : SSLTrainMeters) (date : Bool) :
    List String :=
  (if date then ["date", "time"] else [])
    ++ [if logOnEpoch then "epoch" else "iter"]
    ++ ["lr", "lmcrit-t"]
    ++ [E.kRuntime]
    ++ (meters.timer.filter (fun m => ¬ m.1 = E.kRuntime)).map (fun m => m.1 ++ "(ms)")
    ++ specGroupNames "train" meters.train
    ++ (meters.valid.map (fun v => specGroupNames v.1 v.2)).flatten
    ++ ["avg-isz", "avg-tsz", "max-tsz", "hrs", "thrpt(sec/sec)"]

/-- A call of `syncMeter` on a single meter: the stats meter or a meter with an
identity inside the set. -/
inductive SyncCall where
  | stats
  | meter (id : MeterId)
deriving DecidableEq

/-- The calls on single meters that `syncMeter<SSLDatasetMeters>` makes, in
order: one in every iteration of the loop over the edit meters, then one in every
iteration of the loop over the losses. -/
def syncDatasetMetersCalls (subset : Option String) (meters : SSLDatasetMeters) :
    List SyncCall :=
  meters.edits.map (fun m => SyncCall.meter (.edit subset m.1))
    ++ meters.losses.map (fun m => SyncCall.meter (.loss subset m.1))

/-- The calls on single meters that `syncMeter<SSLTrainMeters>` makes, in order:
the stats meter, one call in every iteration of the loop over the timers, the
calls for the train group, the calls for every validation subset. -/
def syncMeterCalls (meters : SSLTrainMeters) : List SyncCall :=
  [SyncCall.stats]
    ++ meters.timer.map (fun m => SyncCall.meter (.timer m.1))
    ++ syncDatasetMetersCalls none meters.train
    ++ (meters.valid.map (fun m => syncDatasetMetersCalls (some m.1) m.2)).flatten

/-- The meters reachable in a meter set, as the specification lists them: the
stats meter, every timer, every loss and every edit meter of the train group,
and every loss and every edit meter of every validation subset. -/
def specReachable (meters : SSLTrainMeters) (c : SyncCall) : Prop :=
  c = SyncCall.stats
    ∨ (∃ x ∈ meters.timer, c = SyncCall.meter (.timer x.1))
    ∨ (∃ x ∈ meters.train.losses, c = SyncCall.meter (.loss none x.1))
    ∨ (∃ x ∈ meters.train.edits, c = SyncCall.meter (.edit none x.1))
    ∨ (∃ v ∈ meters.valid, ∃ x ∈ v.2.losses, c = SyncCall.meter (.loss (some v.1) x.1))
    ∨ (∃ v ∈ meters.valid, ∃ x ∈ v.2.edits, c = SyncCall.meter (.edit (some v.1) x.1))

/-- The guarantee of `std::map`: no key occurs twice in a map of the meter set. -/
def UniqueKeys (meters : SSLTrainMeters) : Prop :=
  (mapKeys meters.timer).Nodup
    ∧ (mapKeys meters.train.edits).Nodup ∧ (mapKeys meters.train.losses).Nodup
    ∧ (mapKeys meters.valid).Nodup
    ∧ ∀ v ∈ meters.valid, (mapKeys v.2.edits).Nodup ∧ (mapKeys v.2.losses).Nodup

instance (meters : SSLTrainMeters) : Decidable (UniqueKeys meters) :=
  inferInstanceAs (Decidable ((mapKeys meters.timer).Nodup
    ∧ (mapKeys meters.train.edits).Nodup ∧ (mapKeys meters.train.losses).Nodup
    ∧ (mapKeys meters.valid).Nodup
    ∧ ∀ v ∈ meters.valid, (mapKeys v.2.edits).Nodup ∧ (mapKeys v.2.losses).Nodup))

/-- The arguments of one call of `logAndSaveModel` that the model reads. -/
structure Call where
  meters : SSLTrainMeters
  config : List (String × String)
  logFields : List (String × ℚ)
deriving DecidableEq

/-- A sequence of calls of `logAndSaveModel` on one `LogHelper`: the state of the
helper after the last call and the effects of all calls. A call that raises
returns no state and no effect, and the next call finds the helper as it was. -/
def runCalls (E : Env) : LogHelper → List Call → LogHelper × List Event
  | h, [] => (h, [])
  | h, c :: r =>
    match logAndSaveModel E h c.meters c.config c.logFields with
    | .error _ => runCalls E h r
    | .ok res => ((runCalls E res.1 r).1, res.2.2 ++ (runCalls E res.1 r).2)

/-- The target-unit error value that a call observes for a validation subset:
none when the call raises or when its meter set has no such subset. -/
def callValue (E : Env) (logOnEpoch : Bool) (s : String) (c : Call) : Option ℚ :=
  match stepNumber E logOnEpoch c.config with
  | .error _ => none
  | .ok _ => (mapFind (syncMeter E c.meters).valid s).map (targetErr E)

/-- The sequence of values observed for a validation subset in a sequence of calls. -/
def observed (E : Env) (logOnEpoch : Bool) (s : String) (calls : List Call) : List ℚ :=
  calls.filterMap (callValue E logOnEpoch s)

/-- The minimum of a sequence of values, none for the empty sequence. -/
def specMinimum : List ℚ → Option ℚ
  | [] => none
  | v :: r => some (r.foldl min v)

/-- The number of strict new minima of a sequence of values that follows the
values `seen`: a value counts when it is strictly lower than every value before
it, so that a first value counts as one. -/
def specNewMinima (seen : List ℚ) : List ℚ → Nat
  | [] => 0
  | v :: r => (if ∀ u ∈ seen, v < u then 1 else 0) + specNewMinima (seen ++ [v]) r

/-- The decimal digits that a text begins with, after leading white space and an
optional sign: the digits that `std::stoi` converts. -/
def leadingDigits (s : String) : List Char :=
  let cs := s.toList.dropWhile isSpace
  (match cs with
    | '-' :: r => r
    | '+' :: r => r
    | _ => cs).takeWhile Char.isDigit

/-- The signed value of the digits that a text begins with. -/
def leadingValue (s : String) : Int :=
  if (s.toList.dropWhile isSpace).head? = some '-' then -(digitsValue (leadingDigits s) : Int)
  else (digitsValue (leadingDigits s) : Int)

/-- The environment `env0` on two workers. -/
def env2 : Env := { env0 with worldSize := 2 }

/-- A meter set of one sample whose per-sample timer reads the least positive
`double`, 2^-1074 s. -/
def metersTiny : SSLTrainMeters :=
  { timer := [("bch", (2 : ℚ) ^ (-1074 : Int)), ("runtime", 125)], stats := ⟨300, 30, 0, 12, 1⟩,
    train := ⟨[], []⟩, valid := [] }

/-- A meter set whose run-time timer reads 3 000 000 000 s, more than an `int`
holds. -/
def metersLong : SSLTrainMeters :=
  { timer := [("bch", 2), ("runtime", 3000000000)], stats := ⟨300, 30, 0, 12, 3⟩,
    train := ⟨[], []⟩, valid := [] }

/-- The environment `env0` with a performance file that cannot be appended to. -/
def envPerfFails : Env := { env0 with appendFails := fun f _ => decide (f = File.perf) }

/-- The environment `env0` with a log file that cannot be appended to. -/
def envLogFails : Env := { env0 with appendFails := fun f _ => decide (f = File.log) }

/-! ## Lemmas on the containers and on the accumulators -/

/-- Each `insertItem` call records one field. -/
theorem insertItem_items (v : Bool) (sep : String) (a : Acc) (k x : String) :
    (insertItem v sep a k x).items = a.items ++ [cellOf v k x] := rfl

/-- A loop of `insertItem` calls records one field per element, in order. -/
theorem foldl_insertItem_items {β : Type} (v : Bool) (sep : String) (f g : β → String)
    (l : List β) (a : Acc) :
    (l.foldl (fun a m => insertItem v sep a (f m) (g m)) a).items
      = a.items ++ l.map (fun m => cellOf v (f m) (g m)) := by
  induction l generalizing a with
  | nil => simp
  | cons x r ih => simp [List.foldl_cons, ih, insertItem_items]

/-- A loop that skips some elements records one field per element kept. -/
theorem foldl_skip_items {β : Type} (v : Bool) (sep : String) (p : β → Prop) [DecidablePred p]
    (f g : β → String) (l : List β) (a : Acc) :
    (l.foldl (fun a m => if p m then a else insertItem v sep a (f m) (g m)) a).items
      = a.items ++ (l.filter (fun m => ¬ p m)).map (fun m => cellOf v (f m) (g m)) := by
  induction l generalizing a with
  | nil => simp
  | cons x r ih =>
    by_cases hx : p x <;> simp [List.foldl_cons, ih, insertItem_items, hx]

/-- The fields that `insertSSLDatasetMeters` records. -/
theorem insertSSLDatasetMeters_items (E : Env) (v : Bool) (sep : String) (a : Acc)
    (meter : SSLDatasetMeters) (tag : String) :
    (insertSSLDatasetMeters E v sep a meter tag).items = a.items ++ datasetFields E v meter tag := by
  simp [insertSSLDatasetMeters, datasetFields, foldl_insertItem_items]

/-- The fields recorded by the loop over the validation subsets. -/
theorem foldl_dataset_items (E : Env) (v : Bool) (sep : String)
    (l : List (String × SSLDatasetMeters)) (a : Acc) :
    (l.foldl (fun a x => insertSSLDatasetMeters E v sep a x.2 x.1) a).items
      = a.items ++ (l.map (fun x => datasetFields E v x.2 x.1)).flatten := by
  induction l generalizing a with
  | nil => simp
  | cons x r ih => simp [List.foldl_cons, ih, insertSSLDatasetMeters_items]

/-- When both extra cells are available, `formatStatusAcc` returns, leaves the timers as `timersAfter` says and records the fields `statusFields`. -/
theorem formatStatusAcc_ok (E : Env) (logOnEpoch : Bool) (meters : SSLTrainMeters) (epoch : Int)
    (logFields : List (String × ℚ)) (verbose date : Bool) (separator : String)
    (headerOnly : Bool) (lr lmcrit : String)
    (hlr : extraCell E logFields headerOnly "lr" = some lr)
    (hlm : extraCell E logFields headerOnly "lmcrit-t" = some lmcrit) :
    ∃ a, formatStatusAcc E logOnEpoch meters epoch logFields verbose date separator headerOnly
        = .ok (a, { meters with timer := timersAfter E meters.timer })
      ∧ a.items = statusFields E logOnEpoch meters epoch lr lmcrit verbose date := by
  unfold formatStatusAcc
  simp only [hlr, hlm]
  refine ⟨_, rfl, ?_⟩
  simp only [insertItem_items, foldl_insertItem_items, foldl_skip_items,
    insertSSLDatasetMeters_items, foldl_dataset_items, statusFields, thrptCell, timeTakenSec,
    runtimeCell]
  cases date <;> cases logOnEpoch <;> simp [insertItem_items]

/-- When an extra cell is missing, `formatStatusAcc` raises `out_of_range`. -/
theorem formatStatusAcc_error (E : Env) (logOnEpoch : Bool) (meters : SSLTrainMeters) (epoch : Int)
    (logFields : List (String × ℚ)) (verbose date : Bool) (separator : String)
    (headerOnly : Bool)
    (h : extraCell E logFields headerOnly "lr" = none
      ∨ extraCell E logFields headerOnly "lmcrit-t" = none) :
    formatStatusAcc E logOnEpoch meters epoch logFields verbose date separator headerOnly
        = .error .outOfRange := by
  unfold formatStatusAcc
  rcases h with h | h
  · simp only [h]
  · cases h1 : extraCell E logFields headerOnly "lr" <;> simp only [h]

/-- Lookup after an assignment. -/
theorem mapFind_mapAssign {α : Type} (m : List (String × α)) (k k' : String) (v : α) :
    mapFind (mapAssign m k v) k' = if k' = k then some v else mapFind m k' := by
  induction m with
  | nil =>
    by_cases h : k' = k
    · simp [mapAssign, mapFind, h]
    · have h2 : ¬ k = k' := fun e => h e.symm
      simp [mapAssign, mapFind, h, h2]
  | cons x r ih =>
    obtain ⟨k1, v1⟩ := x
    unfold mapAssign
    by_cases h1 : k1 = k
    · rw [if_pos h1]
      subst h1
      by_cases h : k' = k1
      · subst h; simp [mapFind]
      · have h2 : ¬ k1 = k' := fun e => h e.symm
        simp [mapFind, h, h2]
    · rw [if_neg h1]
      by_cases hlt : k.toList < k1.toList
      · rw [if_pos hlt]
        by_cases h : k' = k
        · subst h; simp [mapFind]
        · have h2 : ¬ k = k' := fun e => h e.symm
          simp [mapFind, h, h2]
      · rw [if_neg hlt]
        by_cases h : k' = k
        · subst h; simp [mapFind, h1, ih]
        · simp [mapFind, ih, h]

/-- Snapshot requests of a concatenated trace. -/
theorem snapshotCount_append (s : String) (t u : List Event) :
    snapshotCount s (t ++ u) = snapshotCount s t + snapshotCount s u := by
  simp [snapshotCount]

/-- Snapshot requests made by one `saveModel` call. -/
theorem snapshotCount_saveModel (h : LogHelper) (s tag : String) :
    snapshotCount s (saveModel h tag) = if h.isMaster = true ∧ tag = s then 1 else 0 := by
  unfold snapshotCount saveModel
  cases hm : h.isMaster
  · simp
  · by_cases e : tag = s
    · subst e; simp
    · simp [e, List.count_cons]

/-- An iteration of the loop leaves the tracker entry and the snapshot count of every other subset as they were. -/
theorem bestStep_other (E : Env) (h : LogHelper) (st : LoopState) (x : String × SSLDatasetMeters)
    (s : String) (hne : x.1 ≠ s) :
    mapFind (bestStep E h st x).validminerrs s = mapFind st.validminerrs s
      ∧ snapshotCount s (bestStep E h st x).trace = snapshotCount s st.trace := by
  have hne2 : ¬ s = x.1 := fun e => hne e.symm
  unfold bestStep
  simp only
  split
  · simp [mapFind_mapAssign, hne2, snapshotCount_append, snapshotCount_saveModel, hne]
  · simp

/-- What an iteration of the loop does for its own subset. -/
theorem bestStep_self (E : Env) (h : LogHelper) (st : LoopState) (x : String × SSLDatasetMeters) :
    mapFind (bestStep E h st x).validminerrs x.1
        = (if improves st.validminerrs x.1 (targetErr E x.2) = true then some (targetErr E x.2)
            else mapFind st.validminerrs x.1)
      ∧ snapshotCount x.1 (bestStep E h st x).trace = snapshotCount x.1 st.trace
          + (if improves st.validminerrs x.1 (targetErr E x.2) = true ∧ h.isMaster = true
              then 1 else 0) := by
  unfold bestStep targetErr
  simp only
  split
  · rename_i hi
    simp [mapFind_mapAssign, snapshotCount_append, snapshotCount_saveModel, hi]
  · rename_i hi
    simp [hi]

/-- The loop leaves alone a name that is not among the subsets. -/
theorem foldl_bestStep_other (E : Env) (h : LogHelper) (l : List (String × SSLDatasetMeters))
    (st : LoopState) (s : String) (hs : s ∉ l.map Prod.fst) :
    mapFind (l.foldl (bestStep E h) st).validminerrs s = mapFind st.validminerrs s
      ∧ snapshotCount s (l.foldl (bestStep E h) st).trace = snapshotCount s st.trace := by
  induction l generalizing st with
  | nil => simp
  | cons x r ih =>
    simp only [List.map_cons, List.mem_cons, not_or] at hs
    have h1 := bestStep_other E h st x s (fun e => hs.1 e.symm)
    have h2 := ih (bestStep E h st x) hs.2
    simp only [List.foldl_cons]
    exact ⟨h2.1.trans h1.1, h2.2.trans h1.2⟩

/-- What the loop does for a subset of a meter set with distinct subset names. -/
theorem foldl_bestStep_mem (E : Env) (h : LogHelper) (l : List (String × SSLDatasetMeters))
    (st : LoopState) (s : String) (dm : SSLDatasetMeters) (hnd : (l.map Prod.fst).Nodup)
    (hmem : (s, dm) ∈ l) :
    mapFind (l.foldl (bestStep E h) st).validminerrs s
        = (if improves st.validminerrs s (targetErr E dm) = true then some (targetErr E dm)
            else mapFind st.validminerrs s)
      ∧ snapshotCount s (l.foldl (bestStep E h) st).trace = snapshotCount s st.trace
          + (if improves st.validminerrs s (targetErr E dm) = true ∧ h.isMaster = true
              then 1 else 0) := by
  induction l generalizing st with
  | nil => simp at hmem
  | cons x r ih =>
    simp only [List.map_cons, List.nodup_cons] at hnd
    simp only [List.foldl_cons]
    rcases List.mem_cons.mp hmem with e | hr
    · subst e
      have h1 := bestStep_self E h st (s, dm)
      have h2 := foldl_bestStep_other E h r (bestStep E h st (s, dm)) s hnd.1
      exact ⟨h2.1.trans h1.1, h2.2.trans h1.2⟩
    · have hne : x.1 ≠ s := by
        intro e
        apply hnd.1
        rw [e]
        exact List.mem_map_of_mem Prod.fst hr
      have h1 := bestStep_other E h st x s hne
      have h2 := ih (bestStep E h st x) hnd.2 hr
      have hi : improves (bestStep E h st x).validminerrs s (targetErr E dm)
          = improves st.validminerrs s (targetErr E dm) := by
        unfold improves
        rw [h1.1]
      rw [hi, h1.1, h1.2] at h2
      exact h2

/-! ## Lemmas on formatStatus and logStatus -/


theorem extraCell_header (E : Env) (lf : List (String × ℚ)) (k : String) :
    extraCell E lf true k = some "" := rfl

/-- The lemma `formatStatusAcc_ok` for `formatStatus`. -/
theorem formatStatus_ok (E : Env) (logOnEpoch : Bool) (meters : SSLTrainMeters) (epoch : Int)
    (logFields : List (String × ℚ)) (verbose date : Bool) (separator : String)
    (headerOnly : Bool) (lr lmcrit : String)
    (hlr : extraCell E logFields headerOnly "lr" = some lr)
    (hlm : extraCell E logFields headerOnly "lmcrit-t" = some lmcrit) :
    ∃ a, formatStatusAcc E logOnEpoch meters epoch logFields verbose date separator headerOnly
        = .ok (a, { meters with timer := timersAfter E meters.timer })
      ∧ formatStatus E logOnEpoch meters epoch logFields verbose date separator headerOnly
        = .ok (if headerOnly then a.header else a.status,
            { meters with timer := timersAfter E meters.timer })
      ∧ a.items = statusFields E logOnEpoch meters epoch lr lmcrit verbose date := by
  obtain ⟨a, h1, h2⟩ := formatStatusAcc_ok E logOnEpoch meters epoch logFields verbose date
    separator headerOnly lr lmcrit hlr hlm
  refine ⟨a, h1, ?_, h2⟩
  unfold formatStatus
  rw [h1]

/-- The lemma `formatStatusAcc_error` for `formatStatus`. -/
theorem formatStatus_error (E : Env) (logOnEpoch : Bool) (meters : SSLTrainMeters) (epoch : Int)
    (logFields : List (String × ℚ)) (verbose date : Bool) (separator : String)
    (headerOnly : Bool)
    (h : extraCell E logFields headerOnly "lr" = none
      ∨ extraCell E logFields headerOnly "lmcrit-t" = none) :
    formatStatus E logOnEpoch meters epoch logFields verbose date separator headerOnly
        = .error .outOfRange := by
  unfold formatStatus
  rw [formatStatusAcc_error E logOnEpoch meters epoch logFields verbose date separator
    headerOnly h]

theorem extraCell_row_none (E : Env) (lf : List (String × ℚ)) (k : String)
    (h : mapFind lf k = none) : extraCell E lf false k = none := by
  simp [extraCell, h]

theorem extraCell_row_some (E : Env) (lf : List (String × ℚ)) (k : String) (x : ℚ)
    (h : mapFind lf k = some x) : extraCell E lf false k = some (E.formatF "%4.6lf" x) := by
  simp [extraCell, h]

/-- A worker that is not the master only synchronizes. -/
theorem logStatus_worker (E : Env) (h : LogHelper) (m : SSLTrainMeters) (epoch : Int)
    (lf : List (String × ℚ)) (hm : h.isMaster = false) :
    logStatus E h m epoch lf = (syncMeter E m, [Event.sync]) := by
  simp [logStatus, hm]

/-- A missing extra field makes the `try` block raise `out_of_range` after the files are opened. -/
theorem logStatusTry_fail (E : Env) (h : LogHelper) (m0 : SSLTrainMeters) (epoch : Int)
    (lf : List (String × ℚ))
    (hf : mapFind lf "lr" = none ∨ mapFind lf "lmcrit-t" = none) :
    logStatusTry E h m0 epoch lf
      = (m0, [Event.openFile File.log true, Event.openFile File.perf true],
          some Exn.outOfRange) := by
  have hf2 : extraCell E lf false "lr" = none ∨ extraCell E lf false "lmcrit-t" = none :=
    hf.imp (extraCell_row_none E lf _) (extraCell_row_none E lf _)
  simp [logStatusTry, formatStatus_error E h.logOnEpoch m0 epoch lf true false " | " false hf2]

/-- With both extra fields the `try` block formats the log line and the
performance row, passes the line to the log sink and appends to the two files;
it is left by a `runtime_error` at the first append that fails. -/
theorem logStatusTry_ok (E : Env) (h : LogHelper) (m0 : SSLTrainMeters) (epoch : Int)
    (lf : List (String × ℚ)) (x y : ℚ)
    (hlr : mapFind lf "lr" = some x) (hlm : mapFind lf "lmcrit-t" = some y) :
    ∃ a b : Acc,
      formatStatusAcc E h.logOnEpoch m0 epoch lf true false " | " false
        = .ok (a, { m0 with timer := timersAfter E m0.timer })
      ∧ formatStatusAcc E h.logOnEpoch { m0 with timer := timersAfter E m0.timer } epoch lf
          false true " " false
        = .ok (b, { m0 with timer := timersAfter E (timersAfter E m0.timer) })
      ∧ b.items = statusFields E h.logOnEpoch { m0 with timer := timersAfter E m0.timer } epoch
          (E.formatF "%4.6lf" x) (E.formatF "%4.6lf" y) false true
      ∧ logStatusTry E h m0 epoch lf
        = ({ m0 with timer := timersAfter E (timersAfter E m0.timer) },
            [Event.openFile File.log true, Event.openFile File.perf true, Event.info a.status]
              ++ (if E.appendFails File.log a.status = true then []
                else if E.appendFails File.perf b.status = true then
                  [Event.append File.log a.status]
                else [Event.append File.log a.status, Event.append File.perf b.status]),
            if E.appendFails File.log a.status = true ∨ E.appendFails File.perf b.status = true
              then some Exn.runtimeError else none) := by
  have h1 := extraCell_row_some E lf _ x hlr
  have h2 := extraCell_row_some E lf _ y hlm
  obtain ⟨a, ha0, ha, -⟩ := formatStatus_ok E h.logOnEpoch m0 epoch lf true false
    " | " false _ _ h1 h2
  obtain ⟨b, hb0, hb, hb2⟩ := formatStatus_ok E h.logOnEpoch
    { m0 with timer := timersAfter E m0.timer } epoch lf false true " " false _ _ h1 h2
  refine ⟨a, b, ha0, hb0, hb2, ?_⟩
  simp only [Bool.false_eq_true, if_false] at ha hb
  simp only [logStatusTry, ha, hb]
  by_cases c1 : E.appendFails File.log a.status = true
  · simp [c1]
  · by_cases c2 : E.appendFails File.perf b.status = true
    · simp [c1, c2]
    · simp [c1, c2]

/-- On the master `logStatus` is the synchronization, the `try` block and, for an
exception that leaves the block, the report of the handler. -/
theorem logStatus_master (E : Env) (h : LogHelper) (m : SSLTrainMeters) (epoch : Int)
    (lf : List (String × ℚ)) (hm : h.isMaster = true) :
    logStatus E h m epoch lf
      = ((logStatusTry E h (syncMeter E m) epoch lf).1,
          Event.sync :: (logStatusTry E h (syncMeter E m) epoch lf).2.1
            ++ (if (logStatusTry E h (syncMeter E m) epoch lf).2.2 = none then []
                else [Event.error])) := by
  unfold logStatus
  simp only [hm, Bool.not_true, Bool.false_eq_true, if_false]
  rcases hx : logStatusTry E h (syncMeter E m) epoch lf with ⟨m1, t, _ | e⟩ <;> simp

/-- On the master, a missing extra field makes `logStatus` report an error and append nothing. -/
theorem logStatus_master_fail (E : Env) (h : LogHelper) (m : SSLTrainMeters) (epoch : Int)
    (lf : List (String × ℚ)) (hm : h.isMaster = true)
    (hf : mapFind lf "lr" = none ∨ mapFind lf "lmcrit-t" = none) :
    logStatus E h m epoch lf
      = (syncMeter E m, [Event.sync, Event.openFile File.log true,
          Event.openFile File.perf true, Event.error]) := by
  rw [logStatus_master E h m epoch lf hm, logStatusTry_fail E h _ epoch lf hf]
  rfl

/-- On the master, with both extra fields and files that can be appended to,
`logStatus` appends the log line and the performance row. -/
theorem logStatus_master_ok (E : Env) (h : LogHelper) (m : SSLTrainMeters) (epoch : Int)
    (lf : List (String × ℚ)) (hm : h.isMaster = true) (x y : ℚ)
    (hlr : mapFind lf "lr" = some x) (hlm : mapFind lf "lmcrit-t" = some y)
    (hio : ∀ f l, E.appendFails f l = false) :
    ∃ logMsg perfMsg, logStatus E h m epoch lf
      = ({ syncMeter E m with
            timer := timersAfter E (timersAfter E (syncMeter E m).timer) },
          [Event.sync, Event.openFile File.log true, Event.openFile File.perf true,
            Event.info logMsg, Event.append File.log logMsg, Event.append File.perf perfMsg]) := by
  obtain ⟨a, b, -, -, -, e⟩ := logStatusTry_ok E h (syncMeter E m) epoch lf x y hlr hlm
  refine ⟨a.status, b.status, ?_⟩
  rw [logStatus_master E h m epoch lf hm, e]
  simp [hio]

/-- The call `logStatus` changes the timers only, requests no snapshot and synchronizes. -/
theorem logStatus_frame (E : Env) (h : LogHelper) (m : SSLTrainMeters) (epoch : Int)
    (lf : List (String × ℚ)) :
    (logStatus E h m epoch lf).1.valid = (syncMeter E m).valid
      ∧ (logStatus E h m epoch lf).1.train = (syncMeter E m).train
      ∧ (logStatus E h m epoch lf).1.stats = (syncMeter E m).stats
      ∧ (∀ s, snapshotCount s (logStatus E h m epoch lf).2 = 0)
      ∧ Event.sync ∈ (logStatus E h m epoch lf).2 := by
  cases hm : h.isMaster
  · rw [logStatus_worker E h m epoch lf hm]
    simp [snapshotCount]
  · cases hlr : mapFind lf "lr" with
    | none =>
      rw [logStatus_master_fail E h m epoch lf hm (Or.inl hlr)]
      simp [snapshotCount]
    | some x =>
      cases hlm : mapFind lf "lmcrit-t" with
      | none =>
        rw [logStatus_master_fail E h m epoch lf hm (Or.inr hlm)]
        simp [snapshotCount]
      | some y =>
        obtain ⟨a, b, -, -, -, e⟩ := logStatusTry_ok E h (syncMeter E m) epoch lf x y hlr hlm
        rw [logStatus_master E h m epoch lf hm, e]
        by_cases c1 : E.appendFails File.log a.status = true
        · simp [snapshotCount, c1]
        · by_cases c2 : E.appendFails File.perf b.status = true
          · simp [snapshotCount, c1, c2]
          · simp [snapshotCount, c1, c2]


/-! ## Lemmas on logAndSaveModel -/


/-- Synchronization keeps the names of the validation subsets. -/
theorem syncMeter_valid_keys (E : Env) (m : SSLTrainMeters) :
    mapKeys (syncMeter E m).valid = mapKeys m.valid := by
  simp [mapKeys, syncMeter, List.map_map, Function.comp_def]

/-- The test of the loop, as a proposition. -/
theorem improves_iff (errs : List (String × ℚ)) (s : String) (v : ℚ) :
    improves errs s v = true
      ↔ (mapFind errs s = none ∨ ∃ b, mapFind errs s = some b ∧ b > v) := by
  unfold improves
  cases h : mapFind errs s <;> simp

/-- Tracker entry and snapshot count of a validation subset after one call. -/
theorem logAndSaveModelAt_subset (E : Env) (h : LogHelper) (meters : SSLTrainMeters)
    (iter : Int) (lf : List (String × ℚ)) (s : String) (dm : SSLDatasetMeters)
    (hnd : (mapKeys meters.valid).Nodup) (hmem : (s, dm) ∈ (syncMeter E meters).valid) :
    mapFind (logAndSaveModelAt E h meters iter lf).1.validminerrs s
        = (if improves h.validminerrs s (targetErr E dm) = true then some (targetErr E dm)
            else mapFind h.validminerrs s)
      ∧ snapshotCount s (logAndSaveModelAt E h meters iter lf).2.2
        = (if h.isMaster = true ∧ rollingTag E h.logOnEpoch iter = s then 1 else 0)
          + (if improves h.validminerrs s (targetErr E dm) = true ∧ h.isMaster = true
              then 1 else 0) := by
  obtain ⟨hv, -, -, hc, -⟩ := logStatus_frame E h meters iter lf
  rw [← syncMeter_valid_keys E meters, ← hv] at hnd
  rw [← hv] at hmem
  have key := foldl_bestStep_mem E h (logStatus E h meters iter lf).1.valid
    { validminerrs := h.validminerrs, valid := [],
      trace := (logStatus E h meters iter lf).2 ++ saveModel h (rollingTag E h.logOnEpoch iter) }
    s dm hnd hmem
  simp only [snapshotCount_append, hc, snapshotCount_saveModel, zero_add] at key
  exact key

/-- Tracker entry and snapshot count of a name that is no validation subset after one call. -/
theorem logAndSaveModelAt_other (E : Env) (h : LogHelper) (meters : SSLTrainMeters)
    (iter : Int) (lf : List (String × ℚ)) (s : String) (hs : s ∉ mapKeys meters.valid) :
    mapFind (logAndSaveModelAt E h meters iter lf).1.validminerrs s = mapFind h.validminerrs s
      ∧ snapshotCount s (logAndSaveModelAt E h meters iter lf).2.2
        = (if h.isMaster = true ∧ rollingTag E h.logOnEpoch iter = s then 1 else 0) := by
  obtain ⟨hv, -, -, hc, -⟩ := logStatus_frame E h meters iter lf
  rw [← syncMeter_valid_keys E meters, ← hv] at hs
  have key := foldl_bestStep_other E h (logStatus E h meters iter lf).1.valid
    { validminerrs := h.validminerrs, valid := [],
      trace := (logStatus E h meters iter lf).2 ++ saveModel h (rollingTag E h.logOnEpoch iter) }
    s hs
  simp only [snapshotCount_append, hc, snapshotCount_saveModel, zero_add] at key
  exact key

/-- With a readable step number `logAndSaveModel` returns the result of `logAndSaveModelAt`. -/
theorem logAndSaveModel_ok (E : Env) (h : LogHelper) (meters : SSLTrainMeters)
    (config : List (String × String)) (lf : List (String × ℚ)) (iter : Int)
    (hstep : stepNumber E h.logOnEpoch config = .ok iter) :
    logAndSaveModel E h meters config lf = .ok (logAndSaveModelAt E h meters iter lf) := by
  simp [logAndSaveModel, hstep]

/-- The rolling tag differs from every name that starts with a letter other than l, e and i. -/
theorem rollingTag_ne_of_head (E : Env) (b : Bool) (iter : Int) (s : String) (c : Char)
    (r : List Char) (hs : s.data = c :: r) (hl : c ≠ 'l') (he : c ≠ 'e') (hi : c ≠ 'i') :
    rollingTag E b iter ≠ s := by
  intro e
  have e2 := congrArg String.data e
  rw [hs] at e2
  unfold rollingTag at e2
  split_ifs at e2
  · simp [String.data_append] at e2
    exact he e2.1.symm
  · simp [String.data_append] at e2
    exact hi e2.1.symm
  · simp at e2
    exact hl e2.1.symm


/-! ## Header and status as joined fields -/

/-- Joining one more field appends the separator and the field. -/
theorem intercalate_go_snoc (sep k : String) (l : List String) (acc : String) :
    String.intercalate.go acc sep (l ++ [k]) = String.intercalate.go acc sep l ++ sep ++ k := by
  induction l generalizing acc with
  | nil => simp [String.intercalate.go]
  | cons x r ih => simp [String.intercalate.go, ih]

theorem append_ne_empty (s t : String) (h : s ≠ "") : s ++ t ≠ "" := by
  intro e
  apply h
  have e2 := congrArg String.data e
  simp [String.data_append] at e2
  exact String.ext e2.1

theorem isEmpty_false_of_ne (s : String) (h : s ≠ "") : s.isEmpty = false := by
  cases e : s.isEmpty
  · rfl
  · exact absurd ((String.isEmpty_iff s).mp e) h

theorem joined_snoc (sep s k : String) (l : List String) (h : Joined sep s l) :
    Joined sep (s ++ (if s.isEmpty then "" else sep) ++ k) (l ++ [k]) := by
  obtain ⟨h1, h2⟩ := h
  refine ⟨?_, ?_⟩
  · rw [String.append_assoc]
    exact append_ne_empty _ _ h1
  · rw [isEmpty_false_of_ne s h1]
    cases l with
    | nil => exact absurd h2 h1
    | cons x r =>
      simp only [Bool.false_eq_true, if_false, List.cons_append, String.intercalate]
      rw [intercalate_go_snoc, h2]
      simp [String.intercalate]

theorem joined_first (sep k : String) (h : k ≠ "") :
    Joined sep ("" ++ (if "".isEmpty then "" else sep) ++ k) ([] ++ [k]) := by
  refine ⟨?_, ?_⟩
  · simpa using h
  · have e : "".isEmpty = true := by decide
    simp [String.intercalate, String.intercalate.go, e]

/-- The `%d` conversion fills its minimum width. -/
theorem formatD_length (z : Bool) (w : Nat) (n : Int) : w ≤ (formatD z w n).length := by
  unfold formatD
  cases z <;> simp [String.length_append] <;> omega

theorem formatD_ne_empty (z : Bool) (w : Nat) (n : Int) (hw : 0 < w) : formatD z w n ≠ "" := by
  intro e
  have h := formatD_length z w n
  rw [e] at h
  simp at h
  omega

theorem insertItem_headerOk (v : Bool) (sep : String) (a : Acc) (k x : String)
    (h : HeaderOk sep a) : HeaderOk sep (insertItem v sep a k x) := by
  unfold HeaderOk insertItem
  simp only [List.map_append, List.map_cons, List.map_nil]
  exact joined_snoc sep a.header k _ h

theorem insertItem_statusOk (v : Bool) (sep : String) (a : Acc) (k x : String)
    (h : StatusOk sep a) : StatusOk sep (insertItem v sep a k x) := by
  unfold StatusOk insertItem
  simp only [List.map_append, List.map_cons, List.map_nil]
  exact joined_snoc sep a.status _ _ h

theorem foldl_preserves {β : Type} (P : Acc → Prop) (f : Acc → β → Acc)
    (hf : ∀ a x, P a → P (f a x)) (l : List β) (a : Acc) (ha : P a) : P (l.foldl f a) := by
  induction l generalizing a with
  | nil => exact ha
  | cons x r ih => exact ih _ (hf a x ha)

theorem insertSSLDatasetMeters_preserves (P : Acc → Prop) (E : Env) (v : Bool) (sep : String)
    (hP : ∀ a k x, P a → P (insertItem v sep a k x)) (a : Acc) (meter : SSLDatasetMeters)
    (tag : String) (ha : P a) : P (insertSSLDatasetMeters E v sep a meter tag) := by
  unfold insertSSLDatasetMeters
  apply foldl_preserves P _ (fun a x h => hP a _ _ h)
  apply foldl_preserves P _ (fun a x h => hP a _ _ h)
  exact ha

/-- An invariant of the accumulators that holds after the first field and is kept by `insertItem` holds for the result of `formatStatusAcc`. -/
theorem formatStatusAcc_preserves (P : Acc → Prop) (E : Env) (logOnEpoch : Bool)
    (meters : SSLTrainMeters) (epoch : Int) (logFields : List (String × ℚ)) (verbose date : Bool)
    (separator : String) (headerOnly : Bool) (a : Acc) (m : SSLTrainMeters)
    (hP : ∀ a k x, P a → P (insertItem verbose separator a k x))
    (h0 : P (if date then insertItem verbose separator
        (insertItem verbose separator { header := "", status := "", items := [] }
          "date" E.currentDate) "time" E.currentTime
      else insertItem verbose separator { header := "", status := "", items := [] }
        (if logOnEpoch then "epoch" else "iter") (formatD false 8 epoch)))
    (h : formatStatusAcc E logOnEpoch meters epoch logFields verbose date separator headerOnly
      = .ok (a, m)) : P a := by
  unfold formatStatusAcc at h
  cases hlr : extraCell E logFields headerOnly "lr" with
  | none => simp [hlr] at h
  | some lr =>
    cases hlm : extraCell E logFields headerOnly "lmcrit-t" with
    | none => simp [hlr, hlm] at h
    | some lm =>
      simp only [hlr, hlm] at h
      injection h with h
      injection h with h1 h2
      subst h1
      apply hP
      apply hP
      apply hP
      apply hP
      apply hP
      apply foldl_preserves P _
        (fun a x h => insertSSLDatasetMeters_preserves P E verbose separator hP a _ _ h)
      apply insertSSLDatasetMeters_preserves P E verbose separator hP
      apply foldl_preserves P
      · intro a x h
        split
        · exact h
        · exact hP _ _ _ h
      apply hP
      apply hP
      apply hP
      cases date
      · cases logOnEpoch <;> simpa using h0
      · cases logOnEpoch
        · simp only [if_true] at h0
          simp only [if_true, Bool.false_eq_true, if_false]
          exact hP _ _ _ h0
        · simp only [if_true] at h0
          simp only [if_true]
          exact hP _ _ _ h0

/-- The header is the field names joined by the separator. -/
theorem formatStatusAcc_header (E : Env) (logOnEpoch : Bool)
    (meters : SSLTrainMeters) (epoch : Int) (logFields : List (String × ℚ)) (verbose date : Bool)
    (separator : String) (headerOnly : Bool) (a : Acc) (m : SSLTrainMeters)
    (h : formatStatusAcc E logOnEpoch meters epoch logFields verbose date separator headerOnly
      = .ok (a, m)) : a.header = separator.intercalate (a.items.map Prod.fst) := by
  have key := formatStatusAcc_preserves (HeaderOk separator) E logOnEpoch meters epoch logFields
    verbose date separator headerOnly a m (insertItem_headerOk verbose separator) ?_ h
  · exact key.2
  · cases date
    · simp only [Bool.false_eq_true, if_false]
      exact joined_first separator _ (by cases logOnEpoch <;> decide)
    · simp only [if_true]
      apply insertItem_headerOk
      exact joined_first separator _ (by decide)

/-- The status row is the value cells joined by the separator, provided the first cell is not empty. -/
theorem formatStatusAcc_status (E : Env) (logOnEpoch : Bool)
    (meters : SSLTrainMeters) (epoch : Int) (logFields : List (String × ℚ)) (verbose date : Bool)
    (separator : String) (headerOnly : Bool) (a : Acc) (m : SSLTrainMeters)
    (hd : date = true → verbose = false → E.currentDate ≠ "")
    (h : formatStatusAcc E logOnEpoch meters epoch logFields verbose date separator headerOnly
      = .ok (a, m)) : a.status = separator.intercalate (a.items.map Prod.snd) := by
  have key := formatStatusAcc_preserves (StatusOk separator) E logOnEpoch meters epoch logFields
    verbose date separator headerOnly a m (insertItem_statusOk verbose separator) ?_ h
  · exact key.2
  · cases date
    · simp only [Bool.false_eq_true, if_false]
      refine joined_first separator _ ?_
      cases verbose
      · exact formatD_ne_empty false 8 epoch (by decide)
      · simp only [if_true]
        rw [String.append_assoc]
        exact append_ne_empty _ _ (by cases logOnEpoch <;> decide)
    · simp only [if_true]
      apply insertItem_statusOk
      refine joined_first separator _ ?_
      cases verbose
      · exact hd rfl rfl
      · simp only [if_true]
        rw [String.append_assoc]
        exact append_ne_empty _ _ (by decide)

/-! ## Further lemmas on the tracker and the rolling tag -/

/-- On the master, for a subset that does not bear the rolling tag, one call requests its snapshot exactly when the value improves. -/
theorem logAndSaveModelAt_master (E : Env) (h : LogHelper) (meters : SSLTrainMeters)
    (iter : Int) (lf : List (String × ℚ)) (s : String) (dm : SSLDatasetMeters)
    (hm : h.isMaster = true) (htag : rollingTag E h.logOnEpoch iter ≠ s)
    (hnd : (mapKeys meters.valid).Nodup) (hmem : (s, dm) ∈ (syncMeter E meters).valid) :
    mapFind (logAndSaveModelAt E h meters iter lf).1.validminerrs s
        = (if improves h.validminerrs s (targetErr E dm) = true then some (targetErr E dm)
            else mapFind h.validminerrs s)
      ∧ snapshotCount s (logAndSaveModelAt E h meters iter lf).2.2
        = (if improves h.validminerrs s (targetErr E dm) = true then 1 else 0) := by
  obtain ⟨k1, k2⟩ := logAndSaveModelAt_subset E h meters iter lf s dm hnd hmem
  refine ⟨k1, k2.trans ?_⟩
  simp [hm, htag]

theorem rollingTag_last (E : Env) (b : Bool) (iter : Int) (h : E.itersave = false) :
    rollingTag E b iter = "last" := by
  simp [rollingTag, h]

theorem rollingTag_ne_last (E : Env) (b : Bool) (iter : Int) (h : E.itersave = true) :
    rollingTag E b iter ≠ "last" := by
  intro e
  have e2 := congrArg String.data e
  unfold rollingTag at e2
  rw [if_pos h] at e2
  cases b <;> simp [String.data_append] at e2

/-! ## Read access and the timers after a call -/

/-- The value that `m[k]` reads. -/
theorem mapIndex_fst {α : Type} (m : List (String × α)) (k : String) (d : α) :
    (mapIndex m k d).1 = (mapFind m k).getD d := by
  unfold mapIndex
  cases mapFind m k <;> rfl

/-- Lookup after a read access `m[k]`. -/
theorem mapFind_mapIndex {α : Type} (m : List (String × α)) (k k' : String) (d : α) :
    mapFind (mapIndex m k d).2 k'
      = if k' = k ∧ (mapFind m k).isNone = true then some d else mapFind m k' := by
  unfold mapIndex
  cases h : mapFind m k with
  | none =>
    simp only [mapFind_mapAssign, Option.isNone_none, and_true]
  | some v => simp

/-- Reading a key that is present leaves the map as it was. -/
theorem mapIndex_present {α : Type} (m : List (String × α)) (k : String) (d : α)
    (h : mapFind m k ≠ none) : (mapIndex m k d).2 = m := by
  unfold mapIndex
  cases e : mapFind m k with
  | none => exact absurd e h
  | some v => rfl

/-- Lookup in the timer map that `formatStatus` leaves. -/
theorem mapFind_timersAfter (E : Env) (t : List (String × ℚ)) (k : String) :
    mapFind (timersAfter E t) k
      = if mapFind t k = none ∧ (k = E.kRuntime ∨ k = E.kTimer) then some 0 else mapFind t k := by
  unfold timersAfter
  rw [mapFind_mapIndex, mapFind_mapIndex, mapFind_mapIndex]
  by_cases h1 : k = E.kRuntime <;> by_cases h2 : k = E.kTimer <;> cases h3 : mapFind t k <;>
    cases h4 : mapFind t E.kRuntime <;> cases h5 : mapFind t E.kTimer <;> simp_all

/-- A timer map that holds both timers is left as it was. -/
theorem timersAfter_present (E : Env) (t : List (String × ℚ))
    (h1 : mapFind t E.kRuntime ≠ none) (h2 : mapFind t E.kTimer ≠ none) :
    timersAfter E t = t := by
  unfold timersAfter
  rw [mapIndex_present t E.kRuntime 0 h1, mapIndex_present t E.kTimer 0 h2]

/-- The field names depend on neither the step number, the extra values nor the verbose flag. -/
theorem statusFields_names (E : Env) (b : Bool) (m : SSLTrainMeters) (e1 e2 : Int)
    (lr1 lm1 lr2 lm2 : String) (v1 v2 d : Bool) :
    (statusFields E b m e1 lr1 lm1 v1 d).map Prod.fst
      = (statusFields E b m e2 lr2 lm2 v2 d).map Prod.fst := by
  cases d <;>
    simp [statusFields, cellOf, datasetFields, List.map_flatten, List.map_map,
      Function.comp_def]

/-- The two extra fields follow the step counter. -/
theorem statusFields_extra (E : Env) (b : Bool) (m : SSLTrainMeters) (e : Int)
    (lr lm : String) (v d : Bool) :
    ((statusFields E b m e lr lm v d).drop (if d then 3 else 1)).take 2
      = [cellOf v "lr" lr, cellOf v "lmcrit-t" lm] := by
  cases d <;> simp [statusFields]

/-! ## Workers that are not the master -/

/-- On a worker that is not the master the loop adds nothing to the trace. -/
theorem foldl_bestStep_worker (E : Env) (h : LogHelper) (hm : h.isMaster = false)
    (l : List (String × SSLDatasetMeters)) (st : LoopState) :
    (l.foldl (bestStep E h) st).trace = st.trace := by
  induction l generalizing st with
  | nil => rfl
  | cons x r ih =>
    simp only [List.foldl_cons]
    rw [ih]
    unfold bestStep
    simp only
    split <;> simp [saveModel, hm]

/-- On a worker that is not the master the trace of a call is the synchronization. -/
theorem logAndSaveModelAt_worker (E : Env) (h : LogHelper) (hm : h.isMaster = false)
    (meters : SSLTrainMeters) (iter : Int) (lf : List (String × ℚ)) :
    (logAndSaveModelAt E h meters iter lf).2.2 = [Event.sync] := by
  unfold logAndSaveModelAt
  simp only [foldl_bestStep_worker E h hm, logStatus_worker E h meters iter lf hm]
  simp [saveModel, hm]

/-- A step number that cannot be read makes `logAndSaveModel` raise before any effect. -/
theorem logAndSaveModel_error (E : Env) (h : LogHelper) (meters : SSLTrainMeters)
    (config : List (String × String)) (lf : List (String × ℚ)) (e : Exn)
    (hstep : stepNumber E h.logOnEpoch config = .error e) :
    logAndSaveModel E h meters config lf = .error e := by
  simp [logAndSaveModel, hstep]

/-! ## The arithmetic of doubles -/

/-- Rounding to an integer keeps the sign. -/
theorem roundHalfEven_nonneg (x : ℚ) (h : 0 ≤ x) : 0 ≤ roundHalfEven x := by
  have hf : 0 ≤ ⌊x⌋ := Int.floor_nonneg.mpr h
  unfold roundHalfEven
  split_ifs <;> omega

/-- Rounding to an integer keeps the sign. -/
theorem roundHalfEven_nonpos (x : ℚ) (h : x ≤ 0) : roundHalfEven x ≤ 0 := by
  unfold roundHalfEven
  rcases eq_or_lt_of_le h with h0 | h0
  · subst h0
    simp
  · have hf : ⌊x⌋ ≤ -1 := by
      have : ⌊x⌋ < 0 := Int.floor_lt.mpr (by exact_mod_cast h0)
      omega
    split_ifs <;> omega

/-- Rounding keeps a value that is not negative from becoming negative. -/
theorem roundD_nonneg (q : ℚ) (h : 0 ≤ q) : (roundD q).NonNeg := by
  unfold roundD
  have hp : (0 : ℚ) < (2 : ℚ) ^ (max (Int.log 2 |q|) (-1022) - 52) := by positivity
  have hr : 0 ≤ roundHalfEven (q / (2 : ℚ) ^ (max (Int.log 2 |q|) (-1022) - 52)) :=
    roundHalfEven_nonneg _ (div_nonneg h hp.le)
  split_ifs with h1 h2
  · simp [Dbl.NonNeg]
  · simp [Dbl.NonNeg, not_lt.mpr h]
  · simp only [Dbl.NonNeg]
    exact mul_nonneg (by exact_mod_cast hr) hp.le

/-- Rounding keeps a value that is not positive from becoming positive. -/
theorem roundD_nonpos (q : ℚ) (h : q ≤ 0) : (roundD q).NonPos := by
  unfold roundD
  have hp : (0 : ℚ) < (2 : ℚ) ^ (max (Int.log 2 |q|) (-1022) - 52) := by positivity
  have hr : roundHalfEven (q / (2 : ℚ) ^ (max (Int.log 2 |q|) (-1022) - 52)) ≤ 0 :=
    roundHalfEven_nonpos _ (div_nonpos_of_nonpos_of_nonneg h hp.le)
  split_ifs with h1 h2
  · simp [Dbl.NonPos]
  · simp only [Dbl.NonPos, decide_eq_true_eq]
    exact lt_of_le_of_ne h h1
  · simp only [Dbl.NonPos]
    exact mul_nonpos_of_nonpos_of_nonneg (by exact_mod_cast hr) hp.le

/-- A value that is not positive times one that is not negative is not above zero. -/
theorem Dbl.mul_not_gtZero (a : ℚ) (d : Dbl) (ha : a ≤ 0) (hd : d.NonNeg) :
    (Dbl.mul (.fin a) d).NonPos ∨ Dbl.mul (.fin a) d = .nan := by
  cases d with
  | fin b =>
    left
    exact roundD_nonpos _ (mul_nonpos_of_nonpos_of_nonneg ha hd)
  | inf n =>
    simp only [Dbl.NonNeg] at hd
    subst hd
    by_cases h0 : a = 0
    · right
      simp [Dbl.mul, h0]
    · left
      simp only [Dbl.mul, if_neg h0, Dbl.NonPos]
      simp [lt_of_le_of_ne ha h0]
  | nan => exact absurd hd (by simp [Dbl.NonNeg])

/-- A value that is not above zero over one that is not negative is not above zero. -/
theorem Dbl.div_not_gtZero (p d : Dbl) (hp : p.NonPos ∨ p = .nan) (hd : d.NonNeg) :
    (Dbl.div p d).gtZero = false := by
  rcases hp with hp | rfl
  · cases p with
    | fin a =>
      cases d with
      | fin b =>
        simp only [Dbl.NonPos] at hp
        simp only [Dbl.NonNeg] at hd
        simp only [Dbl.div]
        by_cases hb : b = 0
        · rw [if_pos hb]
          by_cases h0 : a = 0
          · simp [h0, Dbl.gtZero]
          · simp [h0, Dbl.gtZero, lt_of_le_of_ne hp h0]
        · rw [if_neg hb]
          have := roundD_nonpos (a / b) (div_nonpos_of_nonpos_of_nonneg hp hd)
          cases hr : roundD (a / b) with
          | fin r =>
            rw [hr] at this
            simp only [Dbl.NonPos] at this
            simp [Dbl.gtZero, not_lt.mpr this]
          | inf n =>
            rw [hr] at this
            simp only [Dbl.NonPos] at this
            simp [Dbl.gtZero, this]
          | nan => rfl
      | inf n => simp [Dbl.div, Dbl.gtZero]
      | nan => exact absurd hd (by simp [Dbl.NonNeg])
    | inf k =>
      simp only [Dbl.NonPos] at hp
      subst hp
      cases d with
      | fin b =>
        simp only [Dbl.NonNeg] at hd
        simp [Dbl.div, Dbl.gtZero, not_lt.mpr hd]
      | inf n => rfl
      | nan => exact absurd hd (by simp [Dbl.NonNeg])
    | nan => exact absurd hp (by simp [Dbl.NonPos])
  · cases d <;> rfl

/-- An integer rounds to itself. -/
theorem roundHalfEven_intCast (n : Int) : roundHalfEven (n : ℚ) = n := by
  simp [roundHalfEven]

/-- A power of two between the least subnormal and the greatest exponent is a `double`. -/
theorem roundD_two_zpow (k : Int) (h1 : -1074 ≤ k) (h2 : k ≤ 1023) :
    roundD ((2 : ℚ) ^ k) = .fin ((2 : ℚ) ^ k) := by
  have hpos : (0 : ℚ) < (2 : ℚ) ^ k := by positivity
  have hlog : Int.log 2 |(2 : ℚ) ^ k| = k := by
    rw [abs_of_pos hpos]
    exact_mod_cast Int.log_zpow (R := ℚ) (b := 2) (by norm_num) k
  have hquot : ∃ j : ℕ, (2 : ℚ) ^ k / (2 : ℚ) ^ (max k (-1022) - 52) = ((2 ^ j : ℕ) : ℤ) := by
    refine ⟨(k - (max k (-1022) - 52)).toNat, ?_⟩
    rw [← zpow_sub₀ (by norm_num : (2 : ℚ) ≠ 0)]
    have hj : 0 ≤ k - (max k (-1022) - 52) := by omega
    obtain ⟨j, hj2⟩ := Int.eq_ofNat_of_zero_le hj
    rw [hj2]
    simp
  obtain ⟨j, hj⟩ := hquot
  have hval : (roundHalfEven ((2 : ℚ) ^ k / (2 : ℚ) ^ (max k (-1022) - 52)) : ℚ)
      * (2 : ℚ) ^ (max k (-1022) - 52) = (2 : ℚ) ^ k := by
    rw [hj, roundHalfEven_intCast, ← hj]
    field_simp
  unfold roundD
  rw [hlog, hval, if_neg hpos.ne', abs_of_pos hpos, if_neg]
  rw [not_le]
  exact zpow_lt_zpow_right₀ (by norm_num) (by omega)

/-- Half the least subnormal is a tie between it and zero and rounds to zero. -/
theorem roundD_underflow : roundD ((2 : ℚ) ^ (-1075 : Int)) = .fin 0 := by
  have hpos : (0 : ℚ) < (2 : ℚ) ^ (-1075 : Int) := by positivity
  have hlog : Int.log 2 |(2 : ℚ) ^ (-1075 : Int)| = -1075 := by
    rw [abs_of_pos hpos]
    exact_mod_cast Int.log_zpow (R := ℚ) (b := 2) (by norm_num) (-1075)
  have hquot : (2 : ℚ) ^ (-1075 : Int) / (2 : ℚ) ^ (max (-1075 : Int) (-1022) - 52) = 1 / 2 := by
    rw [← zpow_sub₀ (by norm_num : (2 : ℚ) ≠ 0)]
    norm_num
  have hr : roundHalfEven (1 / 2 : ℚ) = 0 := by
    have hf : ⌊(1 / 2 : ℚ)⌋ = 0 := by
      rw [Int.floor_eq_iff]
      norm_num
    unfold roundHalfEven
    rw [hf]
    norm_num
  unfold roundD
  rw [hlog, hquot, hr, if_neg hpos.ne']
  norm_num

/-- An integer below 2^53 in absolute value is a `double`. -/
theorem roundD_intCast (n : Int) (h : |n| < 2 ^ 53) : roundD (n : ℚ) = .fin (n : ℚ) := by
  by_cases h0 : n = 0
  · subst h0
    simp [roundD]
  have hq0 : (n : ℚ) ≠ 0 := by exact_mod_cast h0
  have habs : (1 : ℚ) ≤ |(n : ℚ)| := by
    have : (1 : Int) ≤ |n| := Int.one_le_abs h0
    exact_mod_cast this
  have hlt : |(n : ℚ)| < (2 : ℚ) ^ (53 : Int) := by
    have : ((|n| : Int) : ℚ) < ((2 ^ 53 : Int) : ℚ) := by exact_mod_cast h
    rw [Int.cast_abs] at this
    calc |(n : ℚ)| < ((2 ^ 53 : Int) : ℚ) := this
      _ = (2 : ℚ) ^ (53 : Int) := by norm_num
  have hl0 : 0 ≤ Int.log 2 |(n : ℚ)| := by
    rw [Int.log_of_one_le_right 2 habs]
    exact Int.natCast_nonneg _
  have hl1 : Int.log 2 |(n : ℚ)| < 53 := by
    have := (Int.lt_zpow_iff_log_lt (R := ℚ) (b := 2) (by norm_num) (lt_of_lt_of_le one_pos habs)
      (x := 53)).mp (by exact_mod_cast hlt)
    exact this
  have hmax : max (Int.log 2 |(n : ℚ)|) (-1022) = Int.log 2 |(n : ℚ)| := max_eq_left (by omega)
  obtain ⟨j, hj⟩ := Int.eq_ofNat_of_zero_le (by omega : 0 ≤ 52 - Int.log 2 |(n : ℚ)|)
  have hulp : (2 : ℚ) ^ (Int.log 2 |(n : ℚ)| - 52) = 1 / (2 : ℚ) ^ j := by
    have : Int.log 2 |(n : ℚ)| - 52 = -(j : Int) := by omega
    rw [this, zpow_neg, zpow_natCast]
    simp
  have hquot : (n : ℚ) / (2 : ℚ) ^ (Int.log 2 |(n : ℚ)| - 52) = ((n * 2 ^ j : Int) : ℚ) := by
    rw [hulp]
    push_cast
    field_simp
  have hval : (roundHalfEven ((n : ℚ) / (2 : ℚ) ^ (Int.log 2 |(n : ℚ)| - 52)) : ℚ)
      * (2 : ℚ) ^ (Int.log 2 |(n : ℚ)| - 52) = (n : ℚ) := by
    rw [hquot, roundHalfEven_intCast, hulp]
    push_cast
    field_simp
  unfold roundD
  rw [hmax, hval, if_neg hq0, if_neg]
  rw [not_le]
  exact lt_trans hlt (zpow_lt_zpow_right₀ (by norm_num) (by norm_num))

/-! ## Run-time and throughput fields -/

/-- Truncation of a non-negative value below 2^31 is its floor. -/
theorem toInt_of_nonneg (v : ℚ) (h : 0 ≤ v) (hb : v < 2147483648) : toInt v = ⌊v⌋ := by
  have e : v.num.tdiv v.den = ⌊v⌋ := by
    rw [Rat.floor_def]
    exact Int.tdiv_eq_ediv (Rat.num_nonneg.mpr h) (Int.ofNat_nonneg _)
  have h0 : 0 ≤ ⌊v⌋ := Int.floor_nonneg.mpr h
  have h1 : ⌊v⌋ < 2147483648 := Int.floor_lt.mpr (by exact_mod_cast hb)
  unfold toInt
  rw [e, if_pos ⟨by omega, by omega⟩]

/-- A truncation outside the range of `int` gives the least `int`. -/
theorem toInt_of_large (v : ℚ) (hb : 2147483648 ≤ v) : toInt v = -2147483648 := by
  have h : 0 ≤ v := le_trans (by norm_num) hb
  have e : v.num.tdiv v.den = ⌊v⌋ := by
    rw [Rat.floor_def]
    exact Int.tdiv_eq_ediv (Rat.num_nonneg.mpr h) (Int.ofNat_nonneg _)
  have h1 : (2147483648 : Int) ≤ ⌊v⌋ := Int.le_floor.mpr (by exact_mod_cast hb)
  unfold toInt
  rw [e, if_neg (fun hh => by omega)]

/-- A value below 60 printed with `%02d` takes two characters. -/
theorem formatD_two_digits (n : Int) (h0 : 0 ≤ n) (h1 : n < 60) :
    (formatD true 2 n).length = 2 := by
  interval_cases n <;> decide

/-- The place and content of the run-time field. -/
theorem statusFields_runtime (E : Env) (b : Bool) (m : SSLTrainMeters) (e : Int)
    (lr lm : String) (v d : Bool) :
    (statusFields E b m e lr lm v d)[if d then 5 else 3]?
      = some (cellOf v E.kRuntime (runtimeCell ((mapFind m.timer E.kRuntime).getD 0))) := by
  cases d <;> simp [statusFields, mapIndex_fst]

/-- The value that `formatStatus` reads for the per-sample timer. -/
theorem timer_read (E : Env) (t : List (String × ℚ)) :
    (mapIndex (mapIndex t E.kRuntime 0).2 E.kTimer 0).1 = (mapFind t E.kTimer).getD 0 := by
  rw [mapIndex_fst, mapFind_mapIndex]
  by_cases h : E.kTimer = E.kRuntime
  · cases e : mapFind t E.kRuntime with
    | none =>
      have e2 : mapFind t E.kTimer = none := by rw [h]; exact e
      simp [h, e, e2]
    | some v => simp [e]
  · simp [h]

/-- The last field is the throughput. -/
theorem statusFields_last (E : Env) (b : Bool) (m : SSLTrainMeters) (e : Int)
    (lr lm : String) (v d : Bool) :
    (statusFields E b m e lr lm v d).getLast?
      = some (cellOf v "thrpt(sec/sec)"
          (thrptCell E m.stats ((mapFind m.timer E.kTimer).getD 0))) := by
  unfold statusFields
  rw [timer_read]
  simp only [List.getLast?_append, List.getLast?_cons_cons, List.getLast?_singleton,
    Option.or_some]

/-- With a world size of at least 1 the measured time is not above zero for a
timer value that is not positive. -/
theorem timeTakenSec_not_gtZero (E : Env) (stats : SpeechStats) (tv : ℚ) (hw : 1 ≤ E.worldSize)
    (h : ¬ 0 < tv) : (timeTakenSec E stats tv).gtZero = false := by
  unfold timeTakenSec
  have h1 : (0 : ℚ) ≤ ((max stats.v4 1 : Int) : ℚ) := by
    have : (1 : Int) ≤ max stats.v4 1 := le_max_right _ _
    exact_mod_cast (by omega : (0 : Int) ≤ max stats.v4 1)
  have h2 : (0 : ℚ) ≤ (E.worldSize : ℚ) := by exact_mod_cast (by omega : (0 : Int) ≤ E.worldSize)
  exact Dbl.div_not_gtZero _ _
    (Dbl.mul_not_gtZero tv _ (not_lt.mp h) (roundD_nonneg _ h1)) (roundD_nonneg _ h2)

/-- The loop only appends to the trace. -/
theorem foldl_bestStep_prefix (E : Env) (h : LogHelper) (l : List (String × SSLDatasetMeters))
    (st : LoopState) : ∃ ext, (l.foldl (bestStep E h) st).trace = st.trace ++ ext := by
  induction l generalizing st with
  | nil => exact ⟨[], by simp⟩
  | cons x r ih =>
    obtain ⟨ext, he⟩ := ih (bestStep E h st x)
    simp only [List.foldl_cons]
    rw [he]
    unfold bestStep
    simp only
    split
    · exact ⟨saveModel h x.1 ++ ext, by simp⟩
    · exact ⟨ext, rfl⟩

/-! ## Two calls on one meter-set object -/

theorem mapIndex_idem {α : Type} (m : List (String × α)) (k : String) (d : α) :
    (mapIndex (mapIndex m k d).2 k d) = ((mapFind (mapIndex m k d).2 k).getD d, (mapIndex m k d).2) := by
  have h : mapFind (mapIndex m k d).2 k ≠ none := by
    rw [mapFind_mapIndex]
    cases e : mapFind m k <;> simp [e]
  have h2 := mapIndex_present (mapIndex m k d).2 k d h
  have h1 := mapIndex_fst (mapIndex m k d).2 k d
  exact Prod.ext h1 h2

/-- With the per-sample timer present, a call inserts at most the run-time timer. -/
theorem timersAfter_of_timer (E : Env) (t : List (String × ℚ))
    (h : mapFind t E.kTimer ≠ none ∨ E.kTimer = E.kRuntime) :
    timersAfter E t = (mapIndex t E.kRuntime 0).2 := by
  unfold timersAfter
  apply mapIndex_present
  rw [mapFind_mapIndex]
  rcases h with h | h
  · cases e : mapFind t E.kTimer with
    | none => exact absurd e h
    | some v => split_ifs <;> simp
  · rw [h]
    cases e : mapFind t E.kRuntime <;> simp [e]

/-- Two calls of `formatStatus` one after the other on one meter-set object give
the same field names provided the timer map holds the per-sample timer. -/
theorem statusFields_sequential (E : Env) (b : Bool) (m : SSLTrainMeters) (e1 e2 : Int)
    (lr1 lm1 lr2 lm2 : String) (v1 v2 d : Bool)
    (h : mapFind m.timer E.kTimer ≠ none ∨ E.kTimer = E.kRuntime) :
    (statusFields E b { m with timer := timersAfter E m.timer } e2 lr2 lm2 v2 d).map Prod.fst
      = (statusFields E b m e1 lr1 lm1 v1 d).map Prod.fst := by
  rw [timersAfter_of_timer E m.timer h]
  have h2 := mapIndex_idem m.timer E.kRuntime (0 : ℚ)
  cases d <;>
    simp [statusFields, cellOf, datasetFields, List.map_flatten, List.map_map,
      Function.comp_def, h2]

/-- Both extra cells are available for a header-only call and for a map that holds both keys. -/
theorem extraCell_of_ok (E : Env) (logFields : List (String × ℚ)) (headerOnly : Bool)
    (hok : headerOnly = true
      ∨ (mapFind logFields "lr" ≠ none ∧ mapFind logFields "lmcrit-t" ≠ none)) :
    ∃ lr lm, extraCell E logFields headerOnly "lr" = some lr
      ∧ extraCell E logFields headerOnly "lmcrit-t" = some lm := by
  rcases hok with h | ⟨h1, h2⟩
  · subst h
    exact ⟨_, _, rfl, rfl⟩
  · cases e1 : mapFind logFields "lr" with
    | none => exact absurd e1 h1
    | some x =>
      cases e2 : mapFind logFields "lmcrit-t" with
      | none => exact absurd e2 h2
      | some y =>
        cases headerOnly
        · exact ⟨_, _, extraCell_row_some E logFields _ x e1,
            extraCell_row_some E logFields _ y e2⟩
        · exact ⟨_, _, rfl, rfl⟩

/-! ## The tracker on every worker -/

/-- The tracker that the loop leaves does not depend on the master flag. -/
theorem foldl_bestStep_tracker (E : Env) (h1 h2 : LogHelper)
    (l : List (String × SSLDatasetMeters)) (st1 st2 : LoopState)
    (he : st1.validminerrs = st2.validminerrs) :
    (l.foldl (bestStep E h1) st1).validminerrs = (l.foldl (bestStep E h2) st2).validminerrs := by
  induction l generalizing st1 st2 with
  | nil => exact he
  | cons x r ih =>
    simp only [List.foldl_cons]
    apply ih
    unfold bestStep
    simp only [he]
    split <;> simp [he]

/-- The tracker after a call is the same on the master and on any other worker. -/
theorem logAndSaveModelAt_tracker (E : Env) (h1 h2 : LogHelper) (meters : SSLTrainMeters)
    (iter : Int) (lf : List (String × ℚ)) (he : h1.validminerrs = h2.validminerrs) :
    (logAndSaveModelAt E h1 meters iter lf).1.validminerrs
      = (logAndSaveModelAt E h2 meters iter lf).1.validminerrs := by
  unfold logAndSaveModelAt
  simp only
  rw [(logStatus_frame E h1 meters iter lf).1, (logStatus_frame E h2 meters iter lf).1]
  exact foldl_bestStep_tracker E h1 h2 _ _ _ he

/-! ## The header line of the performance file -/

/-- On the master `writeHeader` truncates the performance file and writes the
header of a call with step 0, no extra fields, the date requested and a tab as
separator, after the comment marker. -/
theorem writeHeader_master (E : Env) (h : LogHelper) (meters : SSLTrainMeters)
    (hm : h.isMaster = true) :
    ∃ a, formatStatusAcc E h.logOnEpoch meters 0 [] false true "\t" true
        = .ok (a, { meters with timer := timersAfter E meters.timer })
      ∧ a.items = statusFields E h.logOnEpoch meters 0 "" "" false true
      ∧ writeHeader E h meters
        = .ok ({ meters with timer := timersAfter E meters.timer },
            [Event.openFile File.perf false, Event.append File.perf ("# " ++ a.header)]) := by
  obtain ⟨a, h1, h2, h3⟩ := formatStatus_ok E h.logOnEpoch meters 0 [] false true "\t" true
    _ _ (extraCell_header E [] "lr") (extraCell_header E [] "lmcrit-t")
  refine ⟨a, h1, h3, ?_⟩
  simp only [if_true] at h2
  simp [writeHeader, hm, h2]

/-! ## The field order -/

/-- Assigning to a key changes no entry under another key. -/
theorem filter_mapAssign {α : Type} (p : String × α → Bool) (m : List (String × α)) (k : String)
    (v : α) (hp : ∀ x, p (k, x) = false) :
    (mapAssign m k v).filter p = m.filter p := by
  induction m with
  | nil => simp [mapAssign, hp]
  | cons x r ih =>
    obtain ⟨k1, v1⟩ := x
    unfold mapAssign
    by_cases h1 : k1 = k
    · subst h1
      simp [hp]
    · rw [if_neg h1]
      by_cases h2 : k.toList < k1.toList
      · rw [if_pos h2]
        simp [hp]
      · rw [if_neg h2]
        simp [List.filter_cons, ih]

/-- Indexing a key changes no entry under another key. -/
theorem filter_mapIndex {α : Type} (p : String × α → Bool) (m : List (String × α)) (k : String)
    (d : α) (hp : ∀ x, p (k, x) = false) :
    ((mapIndex m k d).2).filter p = m.filter p := by
  unfold mapIndex
  cases h : mapFind m k with
  | none => exact filter_mapAssign p m k d hp
  | some v => rfl

/-- The names of the fields that `formatStatus` inserts are those of the
specification, in its order. -/
theorem statusFields_fieldNames (E : Env) (b : Bool) (m : SSLTrainMeters) (e : Int)
    (lr lm : String) (v d : Bool) :
    (statusFields E b m e lr lm v d).map Prod.fst = fieldNames E b m d := by
  have key := filter_mapIndex (fun x => decide (¬ x.1 = E.kRuntime)) m.timer E.kRuntime 0
    (by simp)
  unfold statusFields fieldNames
  rw [key]
  cases d <;>
    simp [specGroupNames, cellOf, datasetFields, List.map_flatten,
      List.map_map, Function.comp_def]

/-! ## The header line and the rows -/

/-- A lookup in a map whose values were changed key by key. -/
theorem mapFind_map_values {α : Type} (f : String → α → α) (m : List (String × α)) (k : String) :
    mapFind (m.map (fun x => (x.1, f x.1 x.2))) k = (mapFind m k).map (f k) := by
  induction m with
  | nil => rfl
  | cons x r ih =>
    by_cases h : x.1 = k
    · subst h
      simp [mapFind]
    · simp [mapFind, h, ih]

/-- Synchronization changes no field name. -/
theorem fieldNames_syncMeter (E : Env) (b : Bool) (m : SSLTrainMeters) (d : Bool) :
    fieldNames E b (syncMeter E m) d = fieldNames E b m d := by
  cases d <;>
    simp [fieldNames, specGroupNames, syncMeter, syncDatasetMeters, List.filter_map,
      List.map_map, Function.comp_def]

/-- A call of `formatStatus` changes no field name of a meter set whose timer map
holds the per-sample timer. -/
theorem fieldNames_timersAfter (E : Env) (b : Bool) (m : SSLTrainMeters) (d : Bool)
    (h : mapFind m.timer E.kTimer ≠ none ∨ E.kTimer = E.kRuntime) :
    fieldNames E b { m with timer := timersAfter E m.timer } d = fieldNames E b m d := by
  rw [← statusFields_fieldNames E b { m with timer := timersAfter E m.timer } 0 "" "" false d,
    ← statusFields_fieldNames E b m 0 "" "" false d]
  exact statusFields_sequential E b m 0 0 "" "" "" "" false false d h

/-- On the master, with both extra fields and files that can be appended to, the
performance row that `logStatus` appends is the status of a call of
`formatStatus` on the synchronized meter set after the call that formats the log
line. -/
theorem logStatus_perf_row (E : Env) (h : LogHelper) (m : SSLTrainMeters) (epoch : Int)
    (lf : List (String × ℚ)) (hm : h.isMaster = true) (x y : ℚ)
    (hlr : mapFind lf "lr" = some x) (hlm : mapFind lf "lmcrit-t" = some y)
    (hio : ∀ f l, E.appendFails f l = false) :
    ∃ (logMsg : String) (b : Acc), logStatus E h m epoch lf
        = ({ syncMeter E m with
              timer := timersAfter E (timersAfter E (syncMeter E m).timer) },
            [Event.sync, Event.openFile File.log true, Event.openFile File.perf true,
              Event.info logMsg, Event.append File.log logMsg, Event.append File.perf b.status])
      ∧ b.items = statusFields E h.logOnEpoch
          { syncMeter E m with timer := timersAfter E (syncMeter E m).timer } epoch
          (E.formatF "%4.6lf" x) (E.formatF "%4.6lf" y) false true
      ∧ (E.currentDate ≠ "" → b.status = " ".intercalate (b.items.map Prod.snd)) := by
  obtain ⟨a, b, -, hb0, hb2, e⟩ := logStatusTry_ok E h (syncMeter E m) epoch lf x y hlr hlm
  refine ⟨a.status, b, ?_, hb2, ?_⟩
  · rw [logStatus_master E h m epoch lf hm, e]
    simp [hio]
  · intro hd
    exact formatStatusAcc_status E h.logOnEpoch _ epoch lf false true " " false b _
      (fun _ _ => hd) hb0

/-- For a meter set whose timer map holds the per-sample timer, and files that
can be appended to, the header that `writeHeader` writes and the performance row
that `logStatus` appends have the same field names in the same order. -/
theorem writeHeader_labels_rows (E : Env) (h : LogHelper) (m : SSLTrainMeters) (epoch : Int)
    (lf : List (String × ℚ)) (hm : h.isMaster = true) (x y : ℚ)
    (hlr : mapFind lf "lr" = some x) (hlm : mapFind lf "lmcrit-t" = some y)
    (hk : mapFind m.timer E.kTimer ≠ none ∨ E.kTimer = E.kRuntime)
    (hio : ∀ f l, E.appendFails f l = false) :
    ∃ (a : Acc) (m1 : SSLTrainMeters) (logMsg : String) (b : Acc) (m2 : SSLTrainMeters),
      writeHeader E h m
        = .ok (m1, [Event.openFile File.perf false, Event.append File.perf ("# " ++ a.header)])
      ∧ logStatus E h m epoch lf
        = (m2, [Event.sync, Event.openFile File.log true, Event.openFile File.perf true,
              Event.info logMsg, Event.append File.log logMsg, Event.append File.perf b.status])
      ∧ a.header = "\t".intercalate (a.items.map Prod.fst)
      ∧ (E.currentDate ≠ "" → b.status = " ".intercalate (b.items.map Prod.snd))
      ∧ a.items.map Prod.fst = fieldNames E h.logOnEpoch m true
      ∧ b.items.map Prod.fst = fieldNames E h.logOnEpoch m true := by
  obtain ⟨a, ha1, ha2, ha3⟩ := writeHeader_master E h m hm
  obtain ⟨logMsg, b, hb1, hb2, hb3⟩ := logStatus_perf_row E h m epoch lf hm x y hlr hlm hio
  refine ⟨a, _, logMsg, b, _, ha3, hb1,
    formatStatusAcc_header E h.logOnEpoch m 0 [] false true "\t" true a _ ha1, hb3, ?_, ?_⟩
  · rw [ha2]
    exact statusFields_fieldNames E h.logOnEpoch m 0 "" "" false true
  · rw [hb2, statusFields_fieldNames]
    have hk2 : mapFind (syncMeter E m).timer E.kTimer ≠ none ∨ E.kTimer = E.kRuntime := by
      rcases hk with hk | hk
      · left
        simp only [syncMeter]
        rw [mapFind_map_values (fun k v => E.reduce (.timer k) v)]
        cases e : mapFind m.timer E.kTimer with
        | none => exact absurd e hk
        | some v => simp
      · exact Or.inr hk
    rw [fieldNames_timersAfter E h.logOnEpoch (syncMeter E m) true hk2]
    exact fieldNames_syncMeter E h.logOnEpoch m true

/-- In the sample environment every `double` is rendered "x". -/
theorem formatDbl_env0 (fmt : String) (d : Dbl) : formatDbl env0 fmt d = "x" := by
  cases d <;> rfl

/-- The throughput cell is the sentinel for a timer value that is not positive. -/
theorem thrptCell_na (E : Env) (stats : SpeechStats) (tv : ℚ) (hw : 1 ≤ E.worldSize)
    (h : ¬ 0 < tv) : thrptCell E stats tv = "n/a" := by
  unfold thrptCell
  rw [timeTakenSec_not_gtZero E stats tv hw h]
  rfl

/-! ## The sample-size fields -/

/-- The sample-size fields on an example: three samples of total input length 300 and total target
length 30 give the averages "100" and "010"; the same totals with no sample
give "300" and "030". -/
theorem formatStatus_sample_stats_example :
    (formatStatusAcc env0 true meters125 0 [] false false " " true).map
        (fun r => ((r.1.items.map Prod.fst).drop 9, (r.1.items.map Prod.snd).drop 9 |>.take 3))
      = .ok (["avg-isz", "avg-tsz", "max-tsz", "hrs", "thrpt(sec/sec)"], ["100", "010", "012"])
    ∧ (formatStatusAcc env0 true { meters125 with stats := ⟨300, 30, 0, 12, 0⟩ } 0 [] false false
        " " true).map (fun r => ((r.1.items.map Prod.snd).drop 9).take 3)
      = .ok ["300", "030", "012"] := by
  decide

/-! ## The verbose flag -/

/-- The verbose fields are the plain fields with the name and ": " before every
value. -/
theorem statusFields_verbose (E : Env) (b : Bool) (m : SSLTrainMeters) (e : Int)
    (lr lm : String) (d : Bool) :
    statusFields E b m e lr lm true d
      = (statusFields E b m e lr lm false d).map (fun c => (c.1, c.1 ++ ": " ++ c.2)) := by
  cases d <;>
    simp [statusFields, cellOf, datasetFields, List.map_flatten, List.map_map,
      Function.comp_def]

/-! ## The calls of syncMeter -/

/-- The calls for a dataset group are those for its edit meters and its losses. -/
theorem mem_syncDatasetMetersCalls (sub : Option String) (dm : SSLDatasetMeters) (c : SyncCall) :
    c ∈ syncDatasetMetersCalls sub dm
      ↔ (∃ x ∈ dm.losses, c = SyncCall.meter (.loss sub x.1))
        ∨ (∃ x ∈ dm.edits, c = SyncCall.meter (.edit sub x.1)) := by
  unfold syncDatasetMetersCalls
  simp only [List.mem_append, List.mem_map]
  constructor
  · rintro (⟨x, hx, rfl⟩ | ⟨x, hx, rfl⟩)
    · exact Or.inr ⟨x, hx, rfl⟩
    · exact Or.inl ⟨x, hx, rfl⟩
  · rintro (⟨x, hx, rfl⟩ | ⟨x, hx, rfl⟩)
    · exact Or.inr ⟨x, hx, rfl⟩
    · exact Or.inl ⟨x, hx, rfl⟩

/-- The calls of `syncMeter` are those for the reachable meters. -/
theorem mem_syncMeterCalls (meters : SSLTrainMeters) (c : SyncCall) :
    c ∈ syncMeterCalls meters ↔ specReachable meters c := by
  unfold syncMeterCalls specReachable
  simp only [List.mem_append, List.mem_singleton, List.mem_map, List.mem_flatten,
    mem_syncDatasetMetersCalls]
  constructor
  · rintro (((h | ⟨x, hx, rfl⟩) | (h | h)) | ⟨l, ⟨v, hv, rfl⟩, h⟩)
    · exact Or.inl h
    · exact Or.inr (Or.inl ⟨x, hx, rfl⟩)
    · exact Or.inr (Or.inr (Or.inl h))
    · exact Or.inr (Or.inr (Or.inr (Or.inl h)))
    · rw [mem_syncDatasetMetersCalls] at h
      rcases h with h | h
      · exact Or.inr (Or.inr (Or.inr (Or.inr (Or.inl ⟨v, hv, h⟩))))
      · exact Or.inr (Or.inr (Or.inr (Or.inr (Or.inr ⟨v, hv, h⟩))))
  · rintro (h | ⟨x, hx, rfl⟩ | h | h | ⟨v, hv, h⟩ | ⟨v, hv, h⟩)
    · exact Or.inl (Or.inl (Or.inl h))
    · exact Or.inl (Or.inl (Or.inr ⟨x, hx, rfl⟩))
    · exact Or.inl (Or.inr (Or.inl h))
    · exact Or.inl (Or.inr (Or.inr h))
    · exact Or.inr ⟨_, ⟨v, hv, rfl⟩, (mem_syncDatasetMetersCalls _ _ _).mpr (Or.inl h)⟩
    · exact Or.inr ⟨_, ⟨v, hv, rfl⟩, (mem_syncDatasetMetersCalls _ _ _).mpr (Or.inr h)⟩

/-- With unique keys no call for a dataset group is made twice. -/
theorem nodup_syncDatasetMetersCalls (sub : Option String) (dm : SSLDatasetMeters)
    (h1 : (mapKeys dm.edits).Nodup) (h2 : (mapKeys dm.losses).Nodup) :
    (syncDatasetMetersCalls sub dm).Nodup := by
  unfold syncDatasetMetersCalls
  rw [List.nodup_append]
  refine ⟨?_, ?_, ?_⟩
  · have e : dm.edits.map (fun m => SyncCall.meter (.edit sub m.1))
        = (mapKeys dm.edits).map (fun k => SyncCall.meter (.edit sub k)) := by
      simp [mapKeys]
    rw [e]
    exact h1.map (fun a b hab => by injection hab with hab; injection hab)
  · have e : dm.losses.map (fun m => SyncCall.meter (.loss sub m.1))
        = (mapKeys dm.losses).map (fun k => SyncCall.meter (.loss sub k)) := by
      simp [mapKeys]
    rw [e]
    exact h2.map (fun a b hab => by injection hab with hab; injection hab)
  · intro c hc1 hc2
    simp only [List.mem_map] at hc1 hc2
    obtain ⟨x, -, rfl⟩ := hc1
    obtain ⟨y, -, hy⟩ := hc2
    injection hy with hy
    cases hy

/-- With unique keys `syncMeter` makes no call twice. -/
theorem nodup_syncMeterCalls (meters : SSLTrainMeters) (hu : UniqueKeys meters) :
    (syncMeterCalls meters).Nodup := by
  obtain ⟨ht, he, hl, hv, hs⟩ := hu
  unfold syncMeterCalls
  have hflat : ((meters.valid.map
      (fun m => syncDatasetMetersCalls (some m.1) m.2)).flatten).Nodup := by
    rw [List.nodup_flatten]
    constructor
    · intro l hl
      simp only [List.mem_map] at hl
      obtain ⟨v, hv1, rfl⟩ := hl
      exact nodup_syncDatasetMetersCalls _ _ (hs v hv1).1 (hs v hv1).2
    · rw [List.pairwise_map]
      unfold mapKeys at hv
      rw [List.Nodup, List.pairwise_map] at hv
      refine hv.imp ?_
      intro a b hab c hc1 hc2
      rw [mem_syncDatasetMetersCalls] at hc1 hc2
      rcases hc1 with ⟨x, -, rfl⟩ | ⟨x, -, rfl⟩ <;> rcases hc2 with ⟨y, -, hy⟩ | ⟨y, -, hy⟩ <;>
        · simp only [SyncCall.meter.injEq, MeterId.loss.injEq, MeterId.edit.injEq,
            Option.some.injEq, reduceCtorEq] at hy
          try exact hab hy.1
  rw [List.nodup_append]
  refine ⟨?_, hflat, ?_⟩
  · rw [List.nodup_append]
    refine ⟨?_, nodup_syncDatasetMetersCalls _ _ he hl, ?_⟩
    · rw [List.nodup_append]
      refine ⟨List.nodup_singleton _, ?_, ?_⟩
      · have e : meters.timer.map (fun m => SyncCall.meter (.timer m.1))
            = (mapKeys meters.timer).map (fun k => SyncCall.meter (.timer k)) := by
          simp [mapKeys]
        rw [e]
        exact ht.map (fun a b hab => by injection hab with hab; injection hab)
      · intro c hc1 hc2
        simp only [List.mem_singleton] at hc1
        subst hc1
        simp at hc2
    · intro c hc1 hc2
      rw [mem_syncDatasetMetersCalls] at hc2
      simp only [List.mem_append, List.mem_singleton, List.mem_map] at hc1
      rcases hc1 with rfl | ⟨x, -, rfl⟩ <;> rcases hc2 with ⟨y, -, hy⟩ | ⟨y, -, hy⟩ <;> cases hy
  · intro c hc1 hc2
    simp only [List.mem_flatten, List.mem_map] at hc2
    obtain ⟨l, ⟨v, -, rfl⟩, hc2⟩ := hc2
    rw [mem_syncDatasetMetersCalls] at hc2
    simp only [List.mem_append, List.mem_singleton, List.mem_map,
      mem_syncDatasetMetersCalls] at hc1
    rcases hc1 with ((rfl | ⟨x, -, rfl⟩) | (⟨x, -, rfl⟩ | ⟨x, -, rfl⟩)) <;>
      rcases hc2 with ⟨y, -, hy⟩ | ⟨y, -, hy⟩ <;> cases hy

/-- Changing the values of a map key by key changes no key. -/
theorem mapKeys_map_values {α : Type} (f : String → α → α) (m : List (String × α)) :
    mapKeys (m.map (fun x => (x.1, f x.1 x.2))) = mapKeys m := by
  simp [mapKeys, List.map_map, Function.comp_def]

/-- The group after `syncMeter<SSLDatasetMeters>`: the same keys, every value
reduced. -/
theorem syncDatasetMeters_spec (E : Env) (sub : Option String) (dm : SSLDatasetMeters) :
    mapKeys (syncDatasetMeters E sub dm).edits = mapKeys dm.edits
      ∧ mapKeys (syncDatasetMeters E sub dm).losses = mapKeys dm.losses
      ∧ (∀ n, mapFind (syncDatasetMeters E sub dm).edits n
          = (mapFind dm.edits n).map (E.reduce (.edit sub n)))
      ∧ (∀ n, mapFind (syncDatasetMeters E sub dm).losses n
          = (mapFind dm.losses n).map (E.reduce (.loss sub n))) :=
  ⟨mapKeys_map_values (fun k v => E.reduce (.edit sub k) v) dm.edits,
    mapKeys_map_values (fun k v => E.reduce (.loss sub k) v) dm.losses,
    fun n => mapFind_map_values (fun k v => E.reduce (.edit sub k) v) dm.edits n,
    fun n => mapFind_map_values (fun k v => E.reduce (.loss sub k) v) dm.losses n⟩

/-! ## Sequences of calls and the best value so far -/

/-- The running minimum is a lower bound of the values. -/
theorem foldl_min_le (r : List ℚ) (a : ℚ) : ∀ u ∈ a :: r, r.foldl min a ≤ u := by
  induction r generalizing a with
  | nil => simp
  | cons x r ih =>
    intro u hu
    simp only [List.foldl_cons]
    have h1 := ih (min a x)
    rcases List.mem_cons.mp hu with rfl | hu
    · exact (h1 _ (List.mem_cons_self _ _)).trans (min_le_left _ _)
    · rcases List.mem_cons.mp hu with rfl | hu
      · exact (h1 _ (List.mem_cons_self _ _)).trans (min_le_right _ _)
      · exact h1 _ (List.mem_cons_of_mem _ hu)

/-- The running minimum is one of the values. -/
theorem foldl_min_mem (r : List ℚ) (a : ℚ) : r.foldl min a ∈ a :: r := by
  induction r generalizing a with
  | nil => simp
  | cons x r ih =>
    simp only [List.foldl_cons]
    rcases List.mem_cons.mp (ih (min a x)) with h | h
    · rw [h]
      rcases min_choice a x with e | e <;> rw [e] <;> simp
    · exact List.mem_cons_of_mem _ (List.mem_cons_of_mem _ h)

/-- The minimum is one of the values and a lower bound of them. -/
theorem specMinimum_spec (l : List ℚ) (m : ℚ) (h : specMinimum l = some m) :
    m ∈ l ∧ ∀ v ∈ l, m ≤ v := by
  cases l with
  | nil => simp [specMinimum] at h
  | cons a r =>
    simp only [specMinimum, Option.some.injEq] at h
    subst h
    exact ⟨foldl_min_mem r a, foldl_min_le r a⟩

/-- The minimum of a sequence with one more value. -/
theorem specMinimum_snoc (seen : List ℚ) (v : ℚ) :
    specMinimum (seen ++ [v]) = if ∀ u ∈ seen, v < u then some v else specMinimum seen := by
  cases seen with
  | nil => simp [specMinimum]
  | cons a r =>
    simp only [List.cons_append, specMinimum, List.foldl_append, List.foldl_cons, List.foldl_nil]
    by_cases h : ∀ u ∈ a :: r, v < u
    · rw [if_pos h, min_eq_right (h _ (foldl_min_mem r a)).le]
    · rw [if_neg h]
      push_neg at h
      obtain ⟨u, hu, huv⟩ := h
      rw [min_eq_left ((foldl_min_le r a u hu).trans huv)]

/-- The test of the loop against a tracker entry that is the minimum of the values
seen: the value is strictly lower than all of them. -/
theorem improves_specMinimum (errs : List (String × ℚ)) (s : String) (seen : List ℚ) (v : ℚ)
    (h : mapFind errs s = specMinimum seen) :
    improves errs s v = true ↔ ∀ u ∈ seen, v < u := by
  unfold improves
  rw [h]
  cases seen with
  | nil => simp [specMinimum]
  | cons a r =>
    simp only [specMinimum, decide_eq_true_eq, gt_iff_lt]
    constructor
    · intro hlt u hu
      exact lt_of_lt_of_le hlt (foldl_min_le r a u hu)
    · intro hall
      exact hall _ (foldl_min_mem r a)

/-- A lookup that finds a value finds an entry of the map. -/
theorem mapFind_some_mem {α : Type} (m : List (String × α)) (k : String) (v : α)
    (h : mapFind m k = some v) : (k, v) ∈ m := by
  induction m with
  | nil => simp [mapFind] at h
  | cons x r ih =>
    obtain ⟨k1, v1⟩ := x
    by_cases e : k1 = k
    · subst e
      simp only [mapFind, if_true, Option.some.injEq] at h
      subst h
      exact List.mem_cons_self _ _
    · simp only [mapFind, if_neg e] at h
      exact List.mem_cons_of_mem _ (ih h)

/-- A lookup that finds nothing is for a key that the map does not hold. -/
theorem mapFind_none_not_mem {α : Type} (m : List (String × α)) (k : String)
    (h : mapFind m k = none) : k ∉ mapKeys m := by
  induction m with
  | nil => simp [mapKeys]
  | cons x r ih =>
    obtain ⟨k1, v1⟩ := x
    by_cases e : k1 = k
    · subst e
      simp [mapFind] at h
    · simp only [mapFind, if_neg e] at h
      have := ih h
      simp only [mapKeys, List.map_cons, List.mem_cons, not_or] at this ⊢
      exact ⟨fun hk => e hk.symm, this⟩

/-- A call that returns keeps the flags of the helper. -/
theorem logAndSaveModelAt_flags (E : Env) (h : LogHelper) (meters : SSLTrainMeters)
    (iter : Int) (lf : List (String × ℚ)) :
    (logAndSaveModelAt E h meters iter lf).1.isMaster = h.isMaster
      ∧ (logAndSaveModelAt E h meters iter lf).1.logOnEpoch = h.logOnEpoch :=
  ⟨rfl, rfl⟩

/-- One call that returns, for a tracker entry that is the minimum of the values
seen so far: afterwards the entry is the minimum including the value that the
call observes; on the master, for a subset that does not bear the rolling tag,
the call requests a snapshot exactly for a strict new minimum, and on any other
worker it requests none. -/
theorem logAndSaveModelAt_minimum (E : Env) (h : LogHelper) (c : Call) (iter : Int)
    (s : String) (seen : List ℚ)
    (hstep : stepNumber E h.logOnEpoch c.config = .ok iter)
    (hnd : (mapKeys c.meters.valid).Nodup)
    (hseen : mapFind h.validminerrs s = specMinimum seen) :
    mapFind (logAndSaveModelAt E h c.meters iter c.logFields).1.validminerrs s
        = specMinimum (seen ++ (callValue E h.logOnEpoch s c).toList)
      ∧ (h.isMaster = true → rollingTag E h.logOnEpoch iter ≠ s →
          snapshotCount s (logAndSaveModelAt E h c.meters iter c.logFields).2.2
            = specNewMinima seen (callValue E h.logOnEpoch s c).toList)
      ∧ (h.isMaster = false →
          snapshotCount s (logAndSaveModelAt E h c.meters iter c.logFields).2.2 = 0) := by
  unfold callValue
  rw [hstep]
  cases hf : mapFind (syncMeter E c.meters).valid s with
  | none =>
    have hs : s ∉ mapKeys c.meters.valid := by
      rw [← syncMeter_valid_keys E c.meters]
      exact mapFind_none_not_mem _ _ hf
    obtain ⟨h1, h2⟩ := logAndSaveModelAt_other E h c.meters iter c.logFields s hs
    simp only [Option.map_none', Option.toList_none, List.append_nil, specNewMinima]
    refine ⟨h1.trans hseen, ?_, ?_⟩
    · intro hm htag
      rw [h2, if_neg (fun hh => htag hh.2)]
    · intro hm
      rw [h2, if_neg (fun hh => by simp [hm] at hh)]
  | some dm =>
    have hmem := mapFind_some_mem _ _ _ hf
    obtain ⟨h1, h2⟩ := logAndSaveModelAt_subset E h c.meters iter c.logFields s dm hnd hmem
    have hi := improves_specMinimum h.validminerrs s seen (targetErr E dm) hseen
    simp only [Option.map_some', Option.toList_some, specNewMinima, specMinimum_snoc]
    refine ⟨?_, ?_, ?_⟩
    · rw [h1]
      by_cases hb : improves h.validminerrs s (targetErr E dm) = true
      · rw [if_pos hb, if_pos (hi.mp hb)]
      · rw [if_neg hb, if_neg (fun hh => hb (hi.mpr hh)), hseen]
    · intro hm htag
      rw [h2, if_neg (fun hh => htag hh.2)]
      by_cases hb : improves h.validminerrs s (targetErr E dm) = true
      · rw [if_pos ⟨hb, hm⟩, if_pos (hi.mp hb)]
      · rw [if_neg (fun hh => hb hh.1), if_neg (fun hh => hb (hi.mpr hh))]
    · intro hm
      rw [h2, if_neg (fun hh => by simp [hm] at hh), if_neg (fun hh => by simp [hm] at hh)]

/-- Unfolding of a sequence of calls at a first call that raises. -/
theorem runCalls_cons_error (E : Env) (h : LogHelper) (c : Call) (r : List Call) (e : Exn)
    (hstep : stepNumber E h.logOnEpoch c.config = .error e) :
    runCalls E h (c :: r) = runCalls E h r := by
  simp only [runCalls, logAndSaveModel_error E h c.meters c.config c.logFields e hstep]

/-- Unfolding of a sequence of calls at a first call that returns. -/
theorem runCalls_cons_ok (E : Env) (h : LogHelper) (c : Call) (r : List Call) (iter : Int)
    (hstep : stepNumber E h.logOnEpoch c.config = .ok iter) :
    runCalls E h (c :: r)
      = ((runCalls E (logAndSaveModelAt E h c.meters iter c.logFields).1 r).1,
          (logAndSaveModelAt E h c.meters iter c.logFields).2.2
            ++ (runCalls E (logAndSaveModelAt E h c.meters iter c.logFields).1 r).2) := by
  simp only [runCalls, logAndSaveModel_ok E h c.meters c.config c.logFields iter hstep]

/-- A sequence of calls keeps the flags of the helper. -/
theorem runCalls_flags (E : Env) (calls : List Call) (h : LogHelper) :
    (runCalls E h calls).1.isMaster = h.isMaster
      ∧ (runCalls E h calls).1.logOnEpoch = h.logOnEpoch := by
  induction calls generalizing h with
  | nil => exact ⟨rfl, rfl⟩
  | cons c r ih =>
    cases hstep : stepNumber E h.logOnEpoch c.config with
    | error e =>
      rw [runCalls_cons_error E h c r e hstep]
      exact ih h
    | ok iter =>
      rw [runCalls_cons_ok E h c r iter hstep]
      exact ih _

/-- The strict new minima of a sequence that starts with the value of one call. -/
theorem specNewMinima_toList (seen : List ℚ) (cv : Option ℚ) (rest : List ℚ) :
    specNewMinima seen (cv.toList ++ rest)
      = specNewMinima seen cv.toList + specNewMinima (seen ++ cv.toList) rest := by
  cases cv with
  | none => simp [specNewMinima]
  | some v => simp [specNewMinima]

/-- A sequence of calls, for a tracker entry that is the minimum of the values
seen before it: afterwards the entry is the minimum including the values
observed in the sequence; on the master, for a subset that never bears the
rolling tag, the snapshots requested are as many as the strict new minima, and
on any other worker there are none. -/
theorem runCalls_minimum (E : Env) (calls : List Call) (h : LogHelper) (s : String)
    (seen : List ℚ) (hnd : ∀ c ∈ calls, (mapKeys c.meters.valid).Nodup)
    (hseen : mapFind h.validminerrs s = specMinimum seen) :
    mapFind (runCalls E h calls).1.validminerrs s
        = specMinimum (seen ++ observed E h.logOnEpoch s calls)
      ∧ (h.isMaster = true → (∀ iter, rollingTag E h.logOnEpoch iter ≠ s) →
          snapshotCount s (runCalls E h calls).2
            = specNewMinima seen (observed E h.logOnEpoch s calls))
      ∧ (h.isMaster = false → snapshotCount s (runCalls E h calls).2 = 0) := by
  induction calls generalizing h seen with
  | nil =>
    simp only [runCalls, observed, List.filterMap_nil, List.append_nil, specNewMinima]
    exact ⟨hseen, fun _ _ => rfl, fun _ => rfl⟩
  | cons c r ih =>
    have hndr : ∀ c ∈ r, (mapKeys c.meters.valid).Nodup :=
      fun x hx => hnd x (List.mem_cons_of_mem _ hx)
    cases hstep : stepNumber E h.logOnEpoch c.config with
    | error e =>
      rw [runCalls_cons_error E h c r e hstep]
      have hcv : callValue E h.logOnEpoch s c = none := by
        simp [callValue, hstep]
      have hobs : observed E h.logOnEpoch s (c :: r) = observed E h.logOnEpoch s r := by
        simp [observed, List.filterMap_cons, hcv]
      rw [hobs]
      exact ih h seen hndr hseen
    | ok iter =>
      rw [runCalls_cons_ok E h c r iter hstep]
      have hobs : observed E h.logOnEpoch s (c :: r)
          = (callValue E h.logOnEpoch s c).toList ++ observed E h.logOnEpoch s r := by
        unfold observed
        cases hcv : callValue E h.logOnEpoch s c <;> simp [List.filterMap_cons, hcv]
      obtain ⟨a1, a2, a3⟩ := logAndSaveModelAt_minimum E h c iter s seen hstep
        (hnd c (List.mem_cons_self _ _)) hseen
      obtain ⟨f1, f2⟩ := logAndSaveModelAt_flags E h c.meters iter c.logFields
      obtain ⟨b1, b2, b3⟩ := ih (logAndSaveModelAt E h c.meters iter c.logFields).1
        (seen ++ (callValue E h.logOnEpoch s c).toList) hndr a1
      rw [f1] at b2 b3
      rw [f2] at b1 b2
      rw [hobs, ← List.append_assoc]
      refine ⟨b1, ?_, ?_⟩
      · intro hm htag
        simp only [snapshotCount_append]
        rw [a2 hm (htag iter), b2 hm htag, specNewMinima_toList]
      · intro hm
        simp only [snapshotCount_append]
        rw [a3 hm, b3 hm]

/-- The values observed in a sequence of calls that is continued. -/
theorem observed_append (E : Env) (b : Bool) (s : String) (p q : List Call) :
    observed E b s (p ++ q) = observed E b s p ++ observed E b s q := by
  simp [observed, List.filterMap_append]

/-- The minimum of a continued sequence is not above the minimum so far. -/
theorem specMinimum_append_le (l1 l2 : List ℚ) (b : ℚ) (h : specMinimum l1 = some b) :
    ∃ b', specMinimum (l1 ++ l2) = some b' ∧ b' ≤ b := by
  cases l1 with
  | nil => simp [specMinimum] at h
  | cons a r =>
    refine ⟨(r ++ l2).foldl min a, rfl, ?_⟩
    obtain ⟨hmem, -⟩ := specMinimum_spec _ _ h
    refine foldl_min_le (r ++ l2) a b ?_
    rcases List.mem_cons.mp hmem with e | e
    · rw [e]
      exact List.mem_cons_self _ _
    · exact List.mem_cons_of_mem _ (List.mem_append_left _ e)

/-! ## Reading the step number -/

/-- The outcome of `std::stoi` by the digits that the text begins with. -/
theorem stoi_eq (s : String) :
    stoi s = if leadingDigits s = [] then .error .invalidArgument
      else if -2147483648 ≤ leadingValue s ∧ leadingValue s ≤ 2147483647 then
        .ok (leadingValue s)
      else .error .outOfRange := by
  have e : stoi s = if (leadingDigits s).isEmpty then .error .invalidArgument
      else if -2147483648 ≤ leadingValue s ∧ leadingValue s ≤ 2147483647 then
        .ok (leadingValue s)
      else .error .outOfRange := rfl
  rw [e]
  cases h : leadingDigits s <;> rfl

/-- The `%0<w>d` conversion of a number that is not negative: zeros, then the
decimal digits. -/
theorem formatD_zero_nonneg (w : Nat) (n : Int) (h : 0 ≤ n) :
    formatD true w n
      = String.mk (List.replicate (w - (Nat.repr n.toNat).length) '0') ++ Nat.repr n.toNat := by
  obtain ⟨k, rfl⟩ := Int.eq_ofNat_of_zero_le h
  have hk : ¬ ((k : Int) < 0) := by omega
  simp [formatD, hk]

/-- On the master the trace of a call holds the request for the rolling snapshot,
and on every worker it starts with the synchronization. -/
theorem logAndSaveModelAt_rolling (E : Env) (h : LogHelper) (meters : SSLTrainMeters)
    (iter : Int) (lf : List (String × ℚ)) :
    (h.isMaster = true →
        Event.save (File.model (rollingTag E h.logOnEpoch iter))
          ∈ (logAndSaveModelAt E h meters iter lf).2.2)
      ∧ (logAndSaveModelAt E h meters iter lf).2.2.head? = some Event.sync := by
  unfold logAndSaveModelAt
  simp only
  obtain ⟨ext, he⟩ := foldl_bestStep_prefix E h (logStatus E h meters iter lf).1.valid
    { validminerrs := h.validminerrs, valid := [],
      trace := (logStatus E h meters iter lf).2 ++ saveModel h (rollingTag E h.logOnEpoch iter) }
  rw [he]
  constructor
  · intro hm
    simp [saveModel, hm]
  · have hs : ∃ r, (logStatus E h meters iter lf).2 = Event.sync :: r := by
      cases hm : h.isMaster
      · rw [logStatus_worker E h meters iter lf hm]
        exact ⟨_, rfl⟩
      · rw [logStatus_master E h meters iter lf hm]
        exact ⟨_, rfl⟩
    obtain ⟨r, hr⟩ := hs
    rw [hr]
    rfl

/-! ## Underflow, and the division by the sample rate -/

/-- Rounding to an integer does not go below the floor. -/
theorem roundHalfEven_ge_floor (x : ℚ) : ⌊x⌋ ≤ roundHalfEven x := by
  unfold roundHalfEven
  split_ifs <;> omega

/-- A value of at least the least subnormal rounds to at least half of itself, or
to the positive infinity. -/
theorem roundD_lower (q : ℚ) (h : (2 : ℚ) ^ (-1074 : Int) ≤ q) :
    roundD q = .inf false ∨ ∃ r, roundD q = .fin r ∧ q / 2 ≤ r := by
  have hq : 0 < q := lt_of_lt_of_le (by positivity) h
  have hu : (0 : ℚ) < (2 : ℚ) ^ (max (Int.log 2 |q|) (-1022) - 52) := by positivity
  have hx : 1 ≤ q / (2 : ℚ) ^ (max (Int.log 2 |q|) (-1022) - 52) := by
    rw [le_div_iff₀ hu, one_mul]
    rcases le_total (-1022) (Int.log 2 |q|) with hl | hl
    · rw [max_eq_left hl]
      have h1 : (2 : ℚ) ^ (Int.log 2 |q|) ≤ q := by
        have := Int.zpow_log_le_self (R := ℚ) (b := 2) (r := |q|) (by norm_num) (abs_pos.mpr hq.ne')
        rw [abs_of_pos hq] at this
        rw [abs_of_pos hq]
        exact_mod_cast this
      exact le_trans (zpow_le_zpow_right₀ (by norm_num) (by omega)) h1
    · rw [max_eq_right hl]
      exact le_trans (le_of_eq (by norm_num)) h
  have hf1 : 1 ≤ ⌊q / (2 : ℚ) ^ (max (Int.log 2 |q|) (-1022) - 52)⌋ := Int.le_floor.mpr (by exact_mod_cast hx)
  have hf2 : q / (2 : ℚ) ^ (max (Int.log 2 |q|) (-1022) - 52)
      < (⌊q / (2 : ℚ) ^ (max (Int.log 2 |q|) (-1022) - 52)⌋ : ℚ) + 1 := Int.lt_floor_add_one _
  have hk : q / (2 : ℚ) ^ (max (Int.log 2 |q|) (-1022) - 52) / 2
      ≤ (roundHalfEven (q / (2 : ℚ) ^ (max (Int.log 2 |q|) (-1022) - 52)) : ℚ) := by
    have h1 : (⌊q / (2 : ℚ) ^ (max (Int.log 2 |q|) (-1022) - 52)⌋ : ℚ)
        ≤ (roundHalfEven (q / (2 : ℚ) ^ (max (Int.log 2 |q|) (-1022) - 52)) : ℚ) := by
      exact_mod_cast roundHalfEven_ge_floor _
    have h2 : (1 : ℚ) ≤ (⌊q / (2 : ℚ) ^ (max (Int.log 2 |q|) (-1022) - 52)⌋ : ℚ) := by
      exact_mod_cast hf1
    linarith
  have hr : q / 2 ≤ (roundHalfEven (q / (2 : ℚ) ^ (max (Int.log 2 |q|) (-1022) - 52)) : ℚ)
      * (2 : ℚ) ^ (max (Int.log 2 |q|) (-1022) - 52) := by
    have := mul_le_mul_of_nonneg_right hk hu.le
    calc q / 2 = q / (2 : ℚ) ^ (max (Int.log 2 |q|) (-1022) - 52) / 2
          * (2 : ℚ) ^ (max (Int.log 2 |q|) (-1022) - 52) := by
            field_simp
            ring
      _ ≤ _ := this
  unfold roundD
  rw [if_neg hq.ne']
  split_ifs with h2
  · left
    simp [not_lt.mpr hq.le]
  · right
    exact ⟨_, rfl, hr⟩

/-- A positive value that does not round to zero is above zero after rounding. -/
theorem roundD_gtZero (q : ℚ) (h : (2 : ℚ) ^ (-1074 : Int) ≤ q) : (roundD q).gtZero = true := by
  have hq : 0 < q := lt_of_lt_of_le (by positivity) h
  rcases roundD_lower q h with e | ⟨r, e, hr⟩
  · rw [e]
    rfl
  · rw [e]
    simp only [Dbl.gtZero, decide_eq_true_eq]
    linarith

/-- With a world size between 1 and 2^53, the measured time is above zero for
every timer value of at least 2^-1072 times the world size. -/
theorem timeTakenSec_gtZero (E : Env) (stats : SpeechStats) (tv : ℚ) (hw : 1 ≤ E.worldSize)
    (hw2 : E.worldSize < 2 ^ 53) (ht : (2 : ℚ) ^ (-1072 : Int) * (E.worldSize : ℚ) ≤ tv) :
    (timeTakenSec E stats tv).gtZero = true := by
  have he : (0 : ℚ) < (2 : ℚ) ^ (-1074 : Int) := by positivity
  have he1 : (2 : ℚ) ^ (-1074 : Int) ≤ 1 :=
    zpow_le_one_of_nonpos₀ (by norm_num) (by norm_num)
  have h4 : (2 : ℚ) ^ (-1072 : Int) = 4 * (2 : ℚ) ^ (-1074 : Int) := by
    rw [show (-1072 : Int) = 2 + (-1074) by norm_num, zpow_add₀ (by norm_num : (2 : ℚ) ≠ 0)]
    norm_num
  have hwq : (1 : ℚ) ≤ (E.worldSize : ℚ) := by exact_mod_cast hw
  have hw0 : (E.worldSize : ℚ) ≠ 0 := by linarith
  have htv : 4 * (2 : ℚ) ^ (-1074 : Int) * (E.worldSize : ℚ) ≤ tv := by
    rw [← h4]
    exact ht
  have htv4 : 4 * (2 : ℚ) ^ (-1074 : Int) ≤ tv := by nlinarith
  have htv0 : 0 < tv := by linarith
  have hW : roundD ((E.worldSize : Int) : ℚ) = .fin (E.worldSize : ℚ) :=
    roundD_intCast _ (by rw [abs_of_nonneg (by omega)]; exact hw2)
  have hn : (1 : ℚ) ≤ ((max stats.v4 1 : Int) : ℚ) := by
    have : (1 : Int) ≤ max stats.v4 1 := le_max_right _ _
    exact_mod_cast this
  have hdiv : ∀ p : ℚ, tv / 4 ≤ p → (Dbl.div (.fin p) (.fin (E.worldSize : ℚ))).gtZero = true := by
    intro p hp
    simp only [Dbl.div, if_neg hw0]
    apply roundD_gtZero
    rw [le_div_iff₀ (by linarith)]
    linarith
  have hinf : (Dbl.div (.inf false) (.fin (E.worldSize : ℚ))).gtZero = true := by
    simp only [Dbl.div, Dbl.gtZero]
    simp [not_lt.mpr (by linarith : (0 : ℚ) ≤ (E.worldSize : ℚ))]
  unfold timeTakenSec
  rw [hW]
  rcases roundD_lower _ (le_trans (by linarith) hn) with e | ⟨n', e, hn'⟩
  · rw [e]
    simp only [Dbl.mul, if_neg htv0.ne']
    simp only [not_lt.mpr htv0.le, decide_False, Bool.xor_false]
    exact hinf
  · rw [e]
    simp only [Dbl.mul]
    have hn2 : (1 : ℚ) / 2 ≤ n' := by linarith
    have hprod : tv / 2 ≤ tv * n' := by nlinarith
    rcases roundD_lower (tv * n') (by linarith) with e2 | ⟨p, e2, hp⟩
    · rw [e2]
      exact hinf
    · rw [e2]
      exact hdiv p (by linarith)

/-- Without a spectral front end and with a sample rate of 0, a positive number of
processed frames gives infinitely many processed-audio seconds: the division by
the sample rate is not guarded. -/
theorem audioProcSec_samplerate_zero (E : Env) (stats : SpeechStats)
    (hf : (E.pow || E.mfcc || E.mfsc) = false) (hs : E.samplerate = 0)
    (hp : 0 < wrap64 (stats.v0 * E.batchsize)) :
    audioProcSec E stats = .inf false := by
  unfold audioProcSec
  simp only [hf, Bool.false_eq_true, if_false, hs]
  have h0 : roundD ((0 : Int) : ℚ) = .fin 0 := by simp [roundD]
  rw [h0]
  have h1 : (2 : ℚ) ^ (-1074 : Int) ≤ ((wrap64 (stats.v0 * E.batchsize) : Int) : ℚ) := by
    have : (1 : ℚ) ≤ ((wrap64 (stats.v0 * E.batchsize) : Int) : ℚ) := by
      exact_mod_cast (by omega : (1 : Int) ≤ wrap64 (stats.v0 * E.batchsize))
    refine le_trans ?_ this
    exact zpow_le_one_of_nonpos₀ (by norm_num) (by norm_num)
  rcases roundD_lower _ h1 with e | ⟨r, e, hr⟩
  · rw [e]
    rfl
  · rw [e]
    have hr0 : 0 < r := by
      have : (0 : ℚ) < (2 : ℚ) ^ (-1074 : Int) := by positivity
      linarith
    simp [Dbl.div, hr0.ne', not_lt.mpr hr0.le]

/-- The product of two finite values is the rounded exact product. -/
theorem Dbl.mul_fin (a b : ℚ) : Dbl.mul (.fin a) (.fin b) = roundD (a * b) := rfl

/-- The quotient of two finite values, the divisor not zero, is the rounded exact quotient. -/
theorem Dbl.div_fin (a b : ℚ) (hb : b ≠ 0) : Dbl.div (.fin a) (.fin b) = roundD (a / b) := by
  simp [Dbl.div, hb]

/-- The measured time of the least positive timer value over one sample on two
workers underflows to zero. -/
theorem timeTakenSec_underflow :
    timeTakenSec env2 metersTiny.stats ((2 : ℚ) ^ (-1074 : Int)) = .fin 0 := by
  have c1 : roundD (((max metersTiny.stats.v4 1 : Int)) : ℚ) = .fin 1 := by
    have := roundD_intCast 1 (by norm_num)
    simpa [metersTiny] using this
  have c2 : roundD ((env2.worldSize : Int) : ℚ) = .fin 2 := by
    have := roundD_intCast 2 (by norm_num)
    simpa [env2] using this
  have e : (2 : ℚ) ^ (-1074 : Int) / 2 = (2 : ℚ) ^ (-1075 : Int) := by
    rw [show (-1075 : Int) = -1074 - 1 by norm_num, zpow_sub₀ (by norm_num : (2 : ℚ) ≠ 0)]
    norm_num
  unfold timeTakenSec
  rw [c1, c2, Dbl.mul_fin, mul_one, roundD_two_zpow (-1074) (by norm_num) (by norm_num),
    Dbl.div_fin _ _ two_ne_zero, e]
  exact roundD_underflow

/-! ## The field names of the specification -/

/-- The two lists of field names agree for a map whose keys are "lr" and
"lmcrit-t", in this order. -/
theorem specFieldNames_eq (E : Env) (b : Bool) (m : SSLTrainMeters) (lf : List (String × ℚ))
    (d : Bool) (h : mapKeys lf = ["lr", "lmcrit-t"]) :
    specFieldNames E b m lf d = fieldNames E b m d := by
  unfold specFieldNames fieldNames
  rw [h]

/-! ## Claims -/

/-- C1 (counterexample): the claim fails on a worker that is not the master and
for a subset that bears the rolling tag. On a non-master worker the tracker has
no entry for "dev"; the call sets the entry to 5 and requests no snapshot. On the
master, the entry 3 of the subset "last" is not greater than the new value 5 and
is kept, yet a snapshot tagged "last" is requested: the rolling one. -/
theorem logAndSaveModel_policy_counterexample :
    (mapFind (LogHelper.mk false true []).validminerrs "dev" = none
      ∧ logAndSaveModel env0 ⟨false, true, []⟩ (metersOf "dev" 5) [("epoch", "3")] []
        = .ok (⟨false, true, [("dev", 5)]⟩, metersOf "dev" 5, [Event.sync]))
    ∧ (improves [("last", 3)] "last" 5 = false
      ∧ logAndSaveModel env0 ⟨true, true, [("last", 3)]⟩ (metersOf "last" 5) [("epoch", "3")] []
        = .ok (⟨true, true, [("last", 3)]⟩, metersOf "last" 5,
            [Event.sync, Event.openFile File.log true, Event.openFile File.perf true,
              Event.error, Event.save (File.model "last")])) := by
  decide

/-- C1 (amended): when the step number can be read, for every validation subset
`s` of the synchronized meter set whose name is not the rolling tag, with
target-unit error value `v`: if the tracker had no entry for `s` or its entry
was strictly greater than `v`, the entry is set to `v` and, on the master, exactly
one snapshot tagged `s` is requested; otherwise the entry is left unchanged and
no snapshot tagged `s` is requested. A worker that is not the master updates the
tracker by the same rule and requests no snapshot. -/
theorem logAndSaveModel_best_policy (E : Env) (h : LogHelper) (meters : SSLTrainMeters)
    (config : List (String × String)) (lf : List (String × ℚ)) (iter : Int)
    (hstep : stepNumber E h.logOnEpoch config = .ok iter)
    (hnd : (mapKeys meters.valid).Nodup)
    (s : String) (dm : SSLDatasetMeters) (hmem : (s, dm) ∈ (syncMeter E meters).valid)
    (hne : rollingTag E h.logOnEpoch iter ≠ s) :
    ∃ h1 m1 tr, logAndSaveModel E h meters config lf = .ok (h1, m1, tr)
      ∧ ((mapFind h.validminerrs s = none
            ∨ ∃ b, mapFind h.validminerrs s = some b ∧ b > targetErr E dm) →
          mapFind h1.validminerrs s = some (targetErr E dm)
            ∧ snapshotCount s tr = (if h.isMaster = true then 1 else 0))
      ∧ (¬ (mapFind h.validminerrs s = none
            ∨ ∃ b, mapFind h.validminerrs s = some b ∧ b > targetErr E dm) →
          mapFind h1.validminerrs s = mapFind h.validminerrs s
            ∧ snapshotCount s tr = 0) := by
  refine ⟨(logAndSaveModelAt E h meters iter lf).1, (logAndSaveModelAt E h meters iter lf).2.1,
    (logAndSaveModelAt E h meters iter lf).2.2,
    logAndSaveModel_ok E h meters config lf iter hstep, ?_, ?_⟩
  · intro hi
    have hi2 := (improves_iff h.validminerrs s (targetErr E dm)).mpr hi
    obtain ⟨k1, k2⟩ := logAndSaveModelAt_subset E h meters iter lf s dm hnd hmem
    rw [hi2] at k1 k2
    refine ⟨by simpa using k1, k2.trans ?_⟩
    cases h.isMaster <;> simp [hne]
  · intro hi
    have hi2 : improves h.validminerrs s (targetErr E dm) = false := by
      cases e : improves h.validminerrs s (targetErr E dm)
      · rfl
      · exact absurd ((improves_iff _ _ _).mp e) hi
    obtain ⟨k1, k2⟩ := logAndSaveModelAt_subset E h meters iter lf s dm hnd hmem
    rw [hi2] at k1 k2
    refine ⟨by simpa using k1, k2.trans ?_⟩
    cases h.isMaster <;> simp [hne]

/-- C1 (witness): the amended claim at a master whose tracker holds 9 for "dev"
and a meter set that reports 5 for it: the entry becomes 5 and one snapshot
tagged "dev" is requested. -/
theorem logAndSaveModel_best_policy_witness :
    ∃ h1 m1 tr, logAndSaveModel env0 ⟨true, true, [("dev", 9)]⟩ (metersOf "dev" 5)
        [("epoch", "3")] [] = .ok (h1, m1, tr)
      ∧ mapFind h1.validminerrs "dev" = some 5 ∧ snapshotCount "dev" tr = 1 := by
  obtain ⟨h1, m1, tr, e, k, -⟩ :=
    logAndSaveModel_best_policy env0 ⟨true, true, [("dev", 9)]⟩ (metersOf "dev" 5)
      [("epoch", "3")] [] 3 (by decide) (by decide) "dev" ⟨[("tkn", 5)], []⟩ (by decide)
      (by decide)
  exact ⟨h1, m1, tr, e, k (Or.inr ⟨9, by decide, by decide⟩)⟩

/-- C2 (counterexample): in the four calls with the values 10, 8, 9 and 7.5 the
master requests a snapshot tagged "dev-clean" after the value 8 as well, since 8
is strictly lower than 10; the requests are three, not two. -/
theorem four_calls_counterexample :
    logAndSaveModel env0 ⟨true, true, []⟩ (metersOf "dev-clean" 10) [("epoch", "1")] []
        = .ok devCleanRun1
      ∧ logAndSaveModel env0 devCleanRun1.1 (metersOf "dev-clean" 8) [("epoch", "2")] []
        = .ok devCleanRun2
      ∧ logAndSaveModel env0 devCleanRun2.1 (metersOf "dev-clean" 9) [("epoch", "3")] []
        = .ok devCleanRun3
      ∧ logAndSaveModel env0 devCleanRun3.1 (metersOf "dev-clean" 7.5) [("epoch", "4")] []
        = .ok devCleanRun4
      ∧ snapshotCount "dev-clean" devCleanRun2.2.2 = 1
      ∧ snapshotCount "dev-clean" devCleanRun1.2.2 + snapshotCount "dev-clean" devCleanRun2.2.2
          + snapshotCount "dev-clean" devCleanRun3.2.2
          + snapshotCount "dev-clean" devCleanRun4.2.2 = 3 := by
  have e : (7.5 : ℚ) = Rat.divInt 15 2 := by norm_num [Rat.divInt_eq_div]
  unfold devCleanRun4
  rw [e]
  decide

/-- C2 (amended): starting from a tracker with no entry for "dev-clean", four
sequential calls on the master in which the subset "dev-clean" reports the
target-unit error values 10, 8, 9 and 7.5 request a snapshot tagged "dev-clean"
exactly three times: once in the first, in the second and in the fourth call,
and not in the third; the tracker ends at 7.5. -/
theorem four_calls_three_snapshots (E : Env) (h0 : LogHelper)
    (m1 m2 m3 m4 : SSLTrainMeters) (d1 d2 d3 d4 : SSLDatasetMeters)
    (c1 c2 c3 c4 : List (String × String)) (l1 l2 l3 l4 : List (String × ℚ))
    (i1 i2 i3 i4 : Int)
    (hm : h0.isMaster = true) (hnone : mapFind h0.validminerrs "dev-clean" = none)
    (hs1 : stepNumber E h0.logOnEpoch c1 = .ok i1) (hs2 : stepNumber E h0.logOnEpoch c2 = .ok i2)
    (hs3 : stepNumber E h0.logOnEpoch c3 = .ok i3) (hs4 : stepNumber E h0.logOnEpoch c4 = .ok i4)
    (hn1 : (mapKeys m1.valid).Nodup) (hn2 : (mapKeys m2.valid).Nodup)
    (hn3 : (mapKeys m3.valid).Nodup) (hn4 : (mapKeys m4.valid).Nodup)
    (hd1 : ("dev-clean", d1) ∈ (syncMeter E m1).valid)
    (hd2 : ("dev-clean", d2) ∈ (syncMeter E m2).valid)
    (hd3 : ("dev-clean", d3) ∈ (syncMeter E m3).valid)
    (hd4 : ("dev-clean", d4) ∈ (syncMeter E m4).valid)
    (hv1 : targetErr E d1 = 10) (hv2 : targetErr E d2 = 8) (hv3 : targetErr E d3 = 9)
    (hv4 : targetErr E d4 = 7.5) :
    ∃ r1 r2 r3 r4 : LogHelper × SSLTrainMeters × List Event,
      logAndSaveModel E h0 m1 c1 l1 = .ok r1 ∧ logAndSaveModel E r1.1 m2 c2 l2 = .ok r2
      ∧ logAndSaveModel E r2.1 m3 c3 l3 = .ok r3 ∧ logAndSaveModel E r3.1 m4 c4 l4 = .ok r4
      ∧ snapshotCount "dev-clean" r1.2.2 = 1 ∧ snapshotCount "dev-clean" r2.2.2 = 1
      ∧ snapshotCount "dev-clean" r3.2.2 = 0 ∧ snapshotCount "dev-clean" r4.2.2 = 1
      ∧ mapFind r4.1.validminerrs "dev-clean" = some 7.5 := by
  have htag : ∀ b i, rollingTag E b i ≠ "dev-clean" := fun b i =>
    rollingTag_ne_of_head E b i "dev-clean" 'd' _ rfl (by decide) (by decide) (by decide)
  obtain ⟨a1, b1⟩ := logAndSaveModelAt_master E h0 m1 i1 l1 "dev-clean" d1 hm (htag _ _) hn1 hd1
  have e1 : improves h0.validminerrs "dev-clean" (targetErr E d1) = true := by
    simp [improves, hnone]
  rw [e1] at a1 b1
  simp only [if_true] at a1 b1
  obtain ⟨a2, b2⟩ := logAndSaveModelAt_master E (logAndSaveModelAt E h0 m1 i1 l1).1 m2 i2 l2
    "dev-clean" d2 hm (htag _ _) hn2 hd2
  have e2 : improves (logAndSaveModelAt E h0 m1 i1 l1).1.validminerrs "dev-clean"
      (targetErr E d2) = true := by
    simp only [improves, a1, hv1, hv2]
    norm_num
  rw [e2] at a2 b2
  simp only [if_true] at a2 b2
  obtain ⟨a3, b3⟩ := logAndSaveModelAt_master E
    (logAndSaveModelAt E (logAndSaveModelAt E h0 m1 i1 l1).1 m2 i2 l2).1 m3 i3 l3
    "dev-clean" d3 hm (htag _ _) hn3 hd3
  have e3 : improves (logAndSaveModelAt E (logAndSaveModelAt E h0 m1 i1 l1).1 m2 i2 l2).1.validminerrs
      "dev-clean" (targetErr E d3) = false := by
    simp only [improves, a2, hv2, hv3]
    norm_num
  rw [e3] at a3 b3
  simp only [Bool.false_eq_true, if_false] at a3 b3
  obtain ⟨a4, b4⟩ := logAndSaveModelAt_master E
    (logAndSaveModelAt E (logAndSaveModelAt E (logAndSaveModelAt E h0 m1 i1 l1).1 m2 i2 l2).1
      m3 i3 l3).1 m4 i4 l4 "dev-clean" d4 hm (htag _ _) hn4 hd4
  have e4 : improves (logAndSaveModelAt E (logAndSaveModelAt E (logAndSaveModelAt E h0 m1 i1 l1).1
      m2 i2 l2).1 m3 i3 l3).1.validminerrs "dev-clean" (targetErr E d4) = true := by
    simp only [improves, a3, a2, hv2, hv4]
    norm_num
  rw [e4] at a4 b4
  simp only [if_true] at a4 b4
  exact ⟨_, _, _, _, logAndSaveModel_ok E h0 m1 c1 l1 i1 hs1,
    logAndSaveModel_ok E _ m2 c2 l2 i2 hs2, logAndSaveModel_ok E _ m3 c3 l3 i3 hs3,
    logAndSaveModel_ok E _ m4 c4 l4 i4 hs4, b1, b2, b3, b4, a4.trans (by rw [hv4])⟩

/-- C2 (witness): the amended claim at four meter sets that hold the subset
"dev-clean" alone. -/
theorem four_calls_three_snapshots_witness :
    ∃ r1 r2 r3 r4 : LogHelper × SSLTrainMeters × List Event,
      logAndSaveModel env0 ⟨true, true, []⟩ (metersOf "dev-clean" 10) [("epoch", "1")] [] = .ok r1
      ∧ logAndSaveModel env0 r1.1 (metersOf "dev-clean" 8) [("epoch", "2")] [] = .ok r2
      ∧ logAndSaveModel env0 r2.1 (metersOf "dev-clean" 9) [("epoch", "3")] [] = .ok r3
      ∧ logAndSaveModel env0 r3.1 (metersOf "dev-clean" 7.5) [("epoch", "4")] [] = .ok r4
      ∧ snapshotCount "dev-clean" r1.2.2 = 1 ∧ snapshotCount "dev-clean" r2.2.2 = 1
      ∧ snapshotCount "dev-clean" r3.2.2 = 0 ∧ snapshotCount "dev-clean" r4.2.2 = 1
      ∧ mapFind r4.1.validminerrs "dev-clean" = some 7.5 :=
  four_calls_three_snapshots env0 ⟨true, true, []⟩ (metersOf "dev-clean" 10)
    (metersOf "dev-clean" 8) (metersOf "dev-clean" 9) (metersOf "dev-clean" 7.5)
    ⟨[("tkn", 10)], []⟩ ⟨[("tkn", 8)], []⟩ ⟨[("tkn", 9)], []⟩ ⟨[("tkn", 7.5)], []⟩
    [("epoch", "1")] [("epoch", "2")] [("epoch", "3")] [("epoch", "4")] [] [] [] [] 1 2 3 4
    rfl rfl (by decide) (by decide) (by decide) (by decide)
    (by decide) (by decide) (by decide) (by decide)
    (List.mem_singleton.mpr rfl) (List.mem_singleton.mpr rfl) (List.mem_singleton.mpr rfl)
    (List.mem_singleton.mpr rfl) rfl rfl rfl rfl

/-- C3 (counterexample): with the flag `itersave` set, a call on the master at
epoch 3 saves the rolling snapshot under the tag "epoch_0003" and never invokes
`saveModel` with the tag "last". -/
theorem rolling_counterexample :
    logAndSaveModel env1 ⟨true, true, []⟩ (metersOf "dev" 5) [("epoch", "3")] []
        = .ok (⟨true, true, [("dev", 5)]⟩, metersOf "dev" 5,
            [Event.sync, Event.openFile File.log true, Event.openFile File.perf true,
              Event.error, Event.save (File.model "epoch_0003"),
              Event.save (File.model "dev")])
      ∧ snapshotCount "last" [Event.sync, Event.openFile File.log true,
              Event.openFile File.perf true, Event.error,
              Event.save (File.model "epoch_0003"), Event.save (File.model "dev")] = 0 := by
  decide

/-- C3 (amended): for every meter set, cadence and set of validation subset names
that does not contain the rolling tag, one call to `logAndSaveModel` on the
master whose step number can be read invokes `saveModel` with the rolling tag
exactly once, however many validation subsets improve. The rolling tag is "last"
when `itersave` is unset; when it is set, "last" is saved by no call whose
validation subsets do not include that name. -/
theorem rolling_snapshot_once (E : Env) (h : LogHelper) (meters : SSLTrainMeters)
    (config : List (String × String)) (lf : List (String × ℚ)) (iter : Int)
    (hm : h.isMaster = true) (hstep : stepNumber E h.logOnEpoch config = .ok iter)
    (hfresh : rollingTag E h.logOnEpoch iter ∉ mapKeys meters.valid) :
    ∃ h1 m1 tr, logAndSaveModel E h meters config lf = .ok (h1, m1, tr)
      ∧ snapshotCount (rollingTag E h.logOnEpoch iter) tr = 1
      ∧ (E.itersave = false → rollingTag E h.logOnEpoch iter = "last"
          ∧ snapshotCount "last" tr = 1)
      ∧ (E.itersave = true → "last" ∉ mapKeys meters.valid → snapshotCount "last" tr = 0) := by
  refine ⟨(logAndSaveModelAt E h meters iter lf).1, (logAndSaveModelAt E h meters iter lf).2.1,
    (logAndSaveModelAt E h meters iter lf).2.2,
    logAndSaveModel_ok E h meters config lf iter hstep, ?_, ?_, ?_⟩
  · exact (logAndSaveModelAt_other E h meters iter lf _ hfresh).2.trans (by simp [hm])
  · intro hi
    have e := rollingTag_last E h.logOnEpoch iter hi
    refine ⟨e, ?_⟩
    rw [e] at hfresh
    exact (logAndSaveModelAt_other E h meters iter lf _ hfresh).2.trans (by simp [hm, e])
  · intro hi hl
    exact (logAndSaveModelAt_other E h meters iter lf _ hl).2.trans
      (by simp [hm, rollingTag_ne_last E h.logOnEpoch iter hi])

/-- C3 (witness): the amended claim at a per-iteration master with `itersave`
unset and one improving validation subset. -/
theorem rolling_snapshot_once_witness :
    ∃ h1 m1 tr, logAndSaveModel env0 ⟨true, false, []⟩ (metersOf "dev" 5) [("iteration", "12")] []
        = .ok (h1, m1, tr)
      ∧ snapshotCount (rollingTag env0 false 12) tr = 1
      ∧ (env0.itersave = false → rollingTag env0 false 12 = "last"
          ∧ snapshotCount "last" tr = 1)
      ∧ (env0.itersave = true → "last" ∉ mapKeys (metersOf "dev" 5).valid
          → snapshotCount "last" tr = 0) :=
  rolling_snapshot_once env0 ⟨true, false, []⟩ (metersOf "dev" 5) [("iteration", "12")] [] 12
    rfl (by decide) (by decide)

/-- C4 (counterexample): with an empty extra-field map the header-only call
returns and the row call raises, so there is no status row to compare with. And
on a meter set without timers the header-only call records 10 fields and leaves
both timers inserted; the row call on the meter set so left records 11. -/
theorem formatStatus_field_parity_counterexample :
    ((formatStatus env0 true (metersOf "dev" 5) 3 [] false false " " true).map
          (fun r => r.1) = .ok ("epoch lr lmcrit-t runtime dev-tknER avg-isz avg-tsz max-tsz "
            ++ "hrs thrpt(sec/sec)")
      ∧ formatStatus env0 true (metersOf "dev" 5) 3 [] false false " " false
          = .error .outOfRange)
    ∧ ((formatStatusAcc env0 true (metersOf "dev" 5) 3 [("lmcrit-t", 1), ("lr", 2)]
          false false " " true).map (fun r => (r.1.items.length, r.2))
        = .ok (10, { metersOf "dev" 5 with timer := [("bch", 0), ("runtime", 0)] })
      ∧ (formatStatusAcc env0 true
          { metersOf "dev" 5 with timer := [("bch", 0), ("runtime", 0)] } 3
          [("lmcrit-t", 1), ("lr", 2)] false false " " false).map
            (fun r => r.1.items.length) = .ok 11) := by
  decide

/-- C4 (amended): for every meter set, step number, verbose, date and separator,
the header-only call of `formatStatus` returns the field names joined by the
separator, and for every extra-field map that holds "lr" and "lmcrit-t" the
row call on the same meter set returns a status row with as many fields as the
header, under the same names in the same order; when the map lacks one of the
two keys the row call raises. -/
theorem formatStatus_field_parity (E : Env) (logOnEpoch : Bool) (meters : SSLTrainMeters)
    (epoch : Int) (logFields : List (String × ℚ)) (verbose date : Bool) (separator : String) :
    ∃ a m,
      formatStatusAcc E logOnEpoch meters epoch logFields verbose date separator true = .ok (a, m)
      ∧ formatStatus E logOnEpoch meters epoch logFields verbose date separator true
          = .ok (a.header, m)
      ∧ a.header = separator.intercalate (a.items.map Prod.fst)
      ∧ ((mapFind logFields "lr" = none ∨ mapFind logFields "lmcrit-t" = none) →
          formatStatus E logOnEpoch meters epoch logFields verbose date separator false
            = .error .outOfRange)
      ∧ (∀ x y, mapFind logFields "lr" = some x → mapFind logFields "lmcrit-t" = some y →
          ∃ b, formatStatusAcc E logOnEpoch meters epoch logFields verbose date separator false
              = .ok (b, m)
            ∧ formatStatus E logOnEpoch meters epoch logFields verbose date separator false
              = .ok (b.status, m)
            ∧ ((date = true → verbose = false → E.currentDate ≠ "") →
                b.status = separator.intercalate (b.items.map Prod.snd))
            ∧ (a.items.map Prod.fst).length = (b.items.map Prod.snd).length
            ∧ a.items.map Prod.fst = b.items.map Prod.fst) := by
  obtain ⟨a, ha1, ha2, ha3⟩ := formatStatus_ok E logOnEpoch meters epoch logFields verbose date
    separator true _ _ (extraCell_header E logFields "lr") (extraCell_header E logFields "lmcrit-t")
  refine ⟨a, _, ha1, by simpa using ha2,
    formatStatusAcc_header E logOnEpoch meters epoch logFields verbose date separator true a _ ha1,
    ?_, ?_⟩
  · intro hf
    exact formatStatus_error E logOnEpoch meters epoch logFields verbose date separator false
      (hf.imp (extraCell_row_none E logFields _) (extraCell_row_none E logFields _))
  · intro x y hlr hlm
    obtain ⟨b, hb1, hb2, hb3⟩ := formatStatus_ok E logOnEpoch meters epoch logFields verbose date
      separator false _ _ (extraCell_row_some E logFields "lr" x hlr)
      (extraCell_row_some E logFields "lmcrit-t" y hlm)
    have hn : a.items.map Prod.fst = b.items.map Prod.fst := by
      rw [ha3, hb3]
      exact statusFields_names E logOnEpoch meters epoch epoch _ _ _ _ verbose verbose date
    refine ⟨b, hb1, by simpa using hb2,
      fun hd => formatStatusAcc_status E logOnEpoch meters epoch logFields verbose date separator
        false b _ hd hb1, ?_, hn⟩
    rw [hn]
    simp

/-- C4 (witness): the amended claim at a meter set with two timers, one loss and one
edit meter per group, the date requested and both extra fields present. -/
theorem formatStatus_field_parity_witness :
    ∃ (a b : Acc) (m : SSLTrainMeters),
      formatStatus env0 true meters125 3 [("lmcrit-t", 1), ("lr", 2)] false true " " true
          = .ok (a.header, m)
      ∧ formatStatus env0 true meters125 3 [("lmcrit-t", 1), ("lr", 2)] false true " " false
          = .ok (b.status, m)
      ∧ a.header = " ".intercalate (a.items.map Prod.fst)
      ∧ (a.items.map Prod.fst).length = (b.items.map Prod.snd).length
      ∧ a.items.map Prod.fst = b.items.map Prod.fst := by
  obtain ⟨a, m, -, h2, h3, -, h5⟩ :=
    formatStatus_field_parity env0 true meters125 3 [("lmcrit-t", 1), ("lr", 2)] false true " "
  obtain ⟨b, -, k2, -, k4, k5⟩ := h5 2 1 (by decide) (by decide)
  exact ⟨a, b, m, h2, k2, h3, k4, k5⟩

/-- C5 (counterexample): on a meter set whose timer map is empty, a call of
`formatStatus` leaves a timer map that holds the per-sample timer and the
run-time timer, both at 0. -/
theorem formatStatus_frame_counterexample :
    mapKeys (metersOf "dev" 5).timer = []
      ∧ (formatStatus env0 true (metersOf "dev" 5) 0 [] false false " " true).map
          (fun r => r.2.timer) = .ok [("bch", 0), ("runtime", 0)] := by
  decide

/-- C5 (amended): a call of `formatStatus` that returns leaves the stats meter,
every loss and edit meter and every timer already present as they were, and adds
a timer of value 0 under the run-time name and under the per-sample name when
the timer map lacks them; when the map holds both, the meter set is unchanged.
A header-only call always returns, a row call when the extra fields hold "lr"
and "lmcrit-t". -/
theorem formatStatus_frame (E : Env) (logOnEpoch : Bool) (meters : SSLTrainMeters)
    (epoch : Int) (logFields : List (String × ℚ)) (verbose date : Bool) (separator : String)
    (headerOnly : Bool) :
    (∀ s m, formatStatus E logOnEpoch meters epoch logFields verbose date separator headerOnly
        = .ok (s, m) →
      m.stats = meters.stats ∧ m.train = meters.train ∧ m.valid = meters.valid
        ∧ (∀ k v, mapFind meters.timer k = some v → mapFind m.timer k = some v)
        ∧ (∀ k, mapFind meters.timer k = none →
            mapFind m.timer k = if k = E.kRuntime ∨ k = E.kTimer then some 0 else none)
        ∧ (mapFind meters.timer E.kRuntime ≠ none → mapFind meters.timer E.kTimer ≠ none →
            m = meters))
    ∧ ((headerOnly = true
          ∨ (mapFind logFields "lr" ≠ none ∧ mapFind logFields "lmcrit-t" ≠ none)) →
        ∃ s m, formatStatus E logOnEpoch meters epoch logFields verbose date separator headerOnly
          = .ok (s, m)) := by
  constructor
  · intro s m h
    have hm : m = { meters with timer := timersAfter E meters.timer } := by
      cases hlr : extraCell E logFields headerOnly "lr" with
      | none =>
        rw [formatStatus_error E logOnEpoch meters epoch logFields verbose date separator
          headerOnly (Or.inl hlr)] at h
        cases h
      | some lr =>
        cases hlm : extraCell E logFields headerOnly "lmcrit-t" with
        | none =>
          rw [formatStatus_error E logOnEpoch meters epoch logFields verbose date separator
            headerOnly (Or.inr hlm)] at h
          cases h
        | some lm =>
          obtain ⟨a, -, ha, -⟩ := formatStatus_ok E logOnEpoch meters epoch logFields verbose
            date separator headerOnly lr lm hlr hlm
          rw [ha] at h
          injection h with h
          injection h with h1 h2
          exact h2.symm
    subst hm
    refine ⟨rfl, rfl, rfl, ?_, ?_, ?_⟩
    · intro k v hk
      simp [mapFind_timersAfter, hk]
    · intro k hk
      simp [mapFind_timersAfter, hk]
    · intro h1 h2
      simp [timersAfter_present E meters.timer h1 h2]
  · intro hok
    obtain ⟨lr, lm, h1, h2⟩ := extraCell_of_ok E logFields headerOnly hok
    obtain ⟨a, -, ha, -⟩ := formatStatus_ok E logOnEpoch meters epoch logFields verbose
      date separator headerOnly lr lm h1 h2
    exact ⟨_, _, ha⟩

/-- C5 (witness): the amended claim at the header-only call on a meter set that
holds both timers, which the call returns unchanged. -/
theorem formatStatus_frame_witness :
    ∃ s m, formatStatus env0 true meters125 3 [] false false " " true = .ok (s, m)
      ∧ m.stats = meters125.stats ∧ m.train = meters125.train ∧ m.valid = meters125.valid
      ∧ m = meters125 := by
  obtain ⟨hA, hB⟩ := formatStatus_frame env0 true meters125 3 [] false false " " true
  obtain ⟨s, m, h⟩ := hB (Or.inl rfl)
  obtain ⟨h1, h2, h3, -, -, h6⟩ := hA s m h
  exact ⟨s, m, h, h1, h2, h3, h6 (by decide) (by decide)⟩

/-- C6 (counterexample): a row call whose map holds the single key "foo" raises,
and a row call whose map holds "foo" beside "lr" and "lmcrit-t" emits no field
named "foo". -/
theorem formatStatus_extra_counterexample :
    formatStatus env0 true meters125 3 [("foo", 1)] false false " " false = .error .outOfRange
      ∧ (formatStatusAcc env0 true meters125 3 [("foo", 3), ("lmcrit-t", 1), ("lr", 2)]
          false false " " false).map (fun r => r.1.items.map Prod.fst)
        = .ok ["epoch", "lr", "lmcrit-t", "runtime", "bch(ms)", "train-loss-ctc",
            "train-tknER", "dev-loss-ctc", "dev-tknER", "avg-isz", "avg-tsz", "max-tsz",
            "hrs", "thrpt(sec/sec)"] := by
  decide

/-- C6 (amended): whatever the keys of the extra-field map, `formatStatus` emits
exactly the two extra fields "lr" and "lmcrit-t", right after the step counter.
A header-only call emits both names with an empty value and returns for every
map, the empty one included. A row call renders the map's values under the two
keys with the format "%4.6lf" and raises when either key is absent. Any other key
of the map is ignored. -/
theorem formatStatus_extra_fields (E : Env) (logOnEpoch : Bool) (meters : SSLTrainMeters)
    (epoch : Int) (logFields : List (String × ℚ)) (verbose date : Bool) (separator : String) :
    (∃ a m, formatStatusAcc E logOnEpoch meters epoch logFields verbose date separator true
          = .ok (a, m)
        ∧ formatStatus E logOnEpoch meters epoch logFields verbose date separator true
          = .ok (a.header, m)
        ∧ (a.items.drop (if date then 3 else 1)).take 2
          = [cellOf verbose "lr" "", cellOf verbose "lmcrit-t" ""])
    ∧ (∀ x y, mapFind logFields "lr" = some x → mapFind logFields "lmcrit-t" = some y →
        ∃ b m, formatStatusAcc E logOnEpoch meters epoch logFields verbose date separator false
            = .ok (b, m)
          ∧ formatStatus E logOnEpoch meters epoch logFields verbose date separator false
            = .ok (b.status, m)
          ∧ (b.items.drop (if date then 3 else 1)).take 2
            = [cellOf verbose "lr" (E.formatF "%4.6lf" x),
                cellOf verbose "lmcrit-t" (E.formatF "%4.6lf" y)])
    ∧ ((mapFind logFields "lr" = none ∨ mapFind logFields "lmcrit-t" = none) →
        formatStatus E logOnEpoch meters epoch logFields verbose date separator false
          = .error .outOfRange)
    ∧ (∀ (other : List (String × ℚ)) (headerOnly : Bool),
        mapFind other "lr" = mapFind logFields "lr" →
        mapFind other "lmcrit-t" = mapFind logFields "lmcrit-t" →
        formatStatusAcc E logOnEpoch meters epoch other verbose date separator headerOnly
          = formatStatusAcc E logOnEpoch meters epoch logFields verbose date separator
              headerOnly) := by
  refine ⟨?_, ?_, ?_, ?_⟩
  · obtain ⟨a, ha1, ha2, ha3⟩ := formatStatus_ok E logOnEpoch meters epoch logFields verbose date
      separator true _ _ (extraCell_header E logFields "lr")
      (extraCell_header E logFields "lmcrit-t")
    refine ⟨a, _, ha1, by simpa using ha2, ?_⟩
    rw [ha3]
    exact statusFields_extra E logOnEpoch meters epoch "" "" verbose date
  · intro x y hx hy
    obtain ⟨b, hb1, hb2, hb3⟩ := formatStatus_ok E logOnEpoch meters epoch logFields verbose date
      separator false _ _ (extraCell_row_some E logFields "lr" x hx)
      (extraCell_row_some E logFields "lmcrit-t" y hy)
    refine ⟨b, _, hb1, by simpa using hb2, ?_⟩
    rw [hb3]
    exact statusFields_extra E logOnEpoch meters epoch _ _ verbose date
  · intro hf
    exact formatStatus_error E logOnEpoch meters epoch logFields verbose date separator false
      (hf.imp (extraCell_row_none E logFields _) (extraCell_row_none E logFields _))
  · intro other headerOnly h1 h2
    unfold formatStatusAcc extraCell
    rw [h1, h2]

/-- C6 (witness): the amended claim at a row call whose map holds a third key
beside "lr" and "lmcrit-t". -/
theorem formatStatus_extra_fields_witness :
    ∃ b m, formatStatusAcc env0 true meters125 3 [("foo", 3), ("lmcrit-t", 1), ("lr", 2)]
            false false " " false = .ok (b, m)
          ∧ formatStatus env0 true meters125 3 [("foo", 3), ("lmcrit-t", 1), ("lr", 2)]
            false false " " false = .ok (b.status, m)
          ∧ (b.items.drop (if false then 3 else 1)).take 2
            = [cellOf false "lr" (env0.formatF "%4.6lf" 2),
                cellOf false "lmcrit-t" (env0.formatF "%4.6lf" 1)] :=
  (formatStatus_extra_fields env0 true meters125 3 [("foo", 3), ("lmcrit-t", 1), ("lr", 2)]
    false false " ").2.1 2 1 (by decide) (by decide)

/-- C7: on the master, for every meter set, every extra-field map and every
outcome of the writes, `logStatus` returns: whatever exception leaves its `try`
block is caught and reported with `LOG(ERROR)`. The block is left by
`out_of_range` when the map lacks "lr" or "lmcrit-t", so that `formatStatus`
raises, and nothing is then appended; with both keys it is left by the
`runtime_error` of `appendToLog` at the first append that fails, the log file or
the performance file, and by no exception when both appends succeed. In every
case the enclosing `logAndSaveModel` call then requests the rolling snapshot and
applies the best-metric policy to every validation subset. -/
theorem logStatus_failure_contained (E : Env) (h : LogHelper) (meters : SSLTrainMeters)
    (logFields : List (String × ℚ)) (config : List (String × String)) (iter : Int)
    (hm : h.isMaster = true)
    (hstep : stepNumber E h.logOnEpoch config = .ok iter)
    (hnd : (mapKeys meters.valid).Nodup) :
    logStatus E h meters iter logFields
        = ((logStatusTry E h (syncMeter E meters) iter logFields).1,
            Event.sync :: (logStatusTry E h (syncMeter E meters) iter logFields).2.1
              ++ (if (logStatusTry E h (syncMeter E meters) iter logFields).2.2 = none then []
                  else [Event.error]))
      ∧ ((mapFind logFields "lr" = none ∨ mapFind logFields "lmcrit-t" = none) →
          formatStatus E h.logOnEpoch (syncMeter E meters) iter logFields true false " | " false
            = .error .outOfRange
          ∧ (logStatusTry E h (syncMeter E meters) iter logFields).2.2 = some .outOfRange
          ∧ logStatus E h meters iter logFields
            = (syncMeter E meters, [Event.sync, Event.openFile File.log true,
                Event.openFile File.perf true, Event.error]))
      ∧ (∀ x y, mapFind logFields "lr" = some x → mapFind logFields "lmcrit-t" = some y →
          ∃ logMsg perfMsg,
            (E.appendFails File.log logMsg = true →
              (logStatusTry E h (syncMeter E meters) iter logFields).2.2 = some .runtimeError
              ∧ (logStatus E h meters iter logFields).2
                = [Event.sync, Event.openFile File.log true, Event.openFile File.perf true,
                    Event.info logMsg, Event.error])
            ∧ (E.appendFails File.log logMsg = false →
                E.appendFails File.perf perfMsg = true →
              (logStatusTry E h (syncMeter E meters) iter logFields).2.2 = some .runtimeError
              ∧ (logStatus E h meters iter logFields).2
                = [Event.sync, Event.openFile File.log true, Event.openFile File.perf true,
                    Event.info logMsg, Event.append File.log logMsg, Event.error])
            ∧ (E.appendFails File.log logMsg = false →
                E.appendFails File.perf perfMsg = false →
              (logStatusTry E h (syncMeter E meters) iter logFields).2.2 = none
              ∧ (logStatus E h meters iter logFields).2
                = [Event.sync, Event.openFile File.log true, Event.openFile File.perf true,
                    Event.info logMsg, Event.append File.log logMsg,
                    Event.append File.perf perfMsg]))
      ∧ ∃ h1 m1 tr ext, logAndSaveModel E h meters config logFields = .ok (h1, m1, tr)
        ∧ tr = (logStatus E h meters iter logFields).2
            ++ [Event.save (File.model (rollingTag E h.logOnEpoch iter))] ++ ext
        ∧ ∀ s dm, (s, dm) ∈ (syncMeter E meters).valid →
            mapFind h1.validminerrs s
                = (if improves h.validminerrs s (targetErr E dm) = true
                    then some (targetErr E dm) else mapFind h.validminerrs s)
              ∧ snapshotCount s tr = (if rollingTag E h.logOnEpoch iter = s then 1 else 0)
                + (if improves h.validminerrs s (targetErr E dm) = true then 1 else 0) := by
  refine ⟨logStatus_master E h meters iter logFields hm, ?_, ?_, ?_⟩
  · intro hf
    refine ⟨formatStatus_error E h.logOnEpoch (syncMeter E meters) iter logFields true false
      " | " false (hf.imp (extraCell_row_none E logFields _) (extraCell_row_none E logFields _)),
      ?_, logStatus_master_fail E h meters iter logFields hm hf⟩
    rw [logStatusTry_fail E h _ iter logFields hf]
  · intro x y hx hy
    obtain ⟨a, b, -, -, -, e⟩ := logStatusTry_ok E h (syncMeter E meters) iter logFields x y hx hy
    refine ⟨a.status, b.status, ?_, ?_, ?_⟩
    · intro c1
      rw [logStatus_master E h meters iter logFields hm, e]
      simp [c1]
    · intro c1 c2
      rw [logStatus_master E h meters iter logFields hm, e]
      simp [c1, c2]
    · intro c1 c2
      rw [logStatus_master E h meters iter logFields hm, e]
      simp [c1, c2]
  · obtain ⟨ext, he⟩ := foldl_bestStep_prefix E h
      (logStatus E h meters iter logFields).1.valid
      { validminerrs := h.validminerrs, valid := [],
        trace := (logStatus E h meters iter logFields).2
          ++ saveModel h (rollingTag E h.logOnEpoch iter) }
    refine ⟨(logAndSaveModelAt E h meters iter logFields).1,
      (logAndSaveModelAt E h meters iter logFields).2.1,
      (logAndSaveModelAt E h meters iter logFields).2.2, ext,
      logAndSaveModel_ok E h meters config logFields iter hstep, ?_, ?_⟩
    · have e2 : (logAndSaveModelAt E h meters iter logFields).2.2
          = ((logStatus E h meters iter logFields).2
            ++ saveModel h (rollingTag E h.logOnEpoch iter)) ++ ext := he
      rw [e2]
      simp [saveModel, hm]
    · intro s dm hmem
      obtain ⟨k1, k2⟩ := logAndSaveModelAt_subset E h meters iter logFields s dm hnd hmem
      refine ⟨k1, k2.trans ?_⟩
      simp [hm]

/-- C7 (witness): a master whose performance file cannot be appended to: the log
line is appended, the failure is reported, and the call is completed with the
rolling snapshot "last" and the snapshot of the improving subset "dev"; a master
whose log file cannot be appended to: the failure is reported after the line
went to the log sink; and a master whose extra-field map lacks "lmcrit-t": the
formatting failure is reported and nothing is appended. -/
theorem logStatus_failure_contained_witness :
    (∃ logMsg, (logStatus envPerfFails ⟨true, true, [("dev", 9)]⟩ (metersOf "dev" 5) 3
        [("lmcrit-t", 1), ("lr", 2)]).2
      = [Event.sync, Event.openFile File.log true, Event.openFile File.perf true,
          Event.info logMsg, Event.append File.log logMsg, Event.error])
      ∧ (∃ h1 m1 tr ext, logAndSaveModel envPerfFails ⟨true, true, [("dev", 9)]⟩ (metersOf "dev" 5)
            [("epoch", "3")] [("lmcrit-t", 1), ("lr", 2)] = .ok (h1, m1, tr)
          ∧ tr = (logStatus envPerfFails ⟨true, true, [("dev", 9)]⟩ (metersOf "dev" 5) 3
              [("lmcrit-t", 1), ("lr", 2)]).2 ++ [Event.save (File.model "last")] ++ ext
          ∧ mapFind h1.validminerrs "dev" = some 5
          ∧ snapshotCount "dev" tr = 1)
      ∧ (∃ logMsg, (logStatus envLogFails ⟨true, true, [("dev", 9)]⟩ (metersOf "dev" 5) 3
          [("lmcrit-t", 1), ("lr", 2)]).2
        = [Event.sync, Event.openFile File.log true, Event.openFile File.perf true,
            Event.info logMsg, Event.error])
      ∧ logStatus env0 ⟨true, true, [("dev", 9)]⟩ (metersOf "dev" 5) 3 [("lr", 1)]
        = (syncMeter env0 (metersOf "dev" 5), [Event.sync, Event.openFile File.log true,
            Event.openFile File.perf true, Event.error]) := by
  obtain ⟨-, -, k2, h1, m1, tr, ext, e1, e2, e3⟩ :=
    logStatus_failure_contained envPerfFails ⟨true, true, [("dev", 9)]⟩ (metersOf "dev" 5)
      [("lmcrit-t", 1), ("lr", 2)] [("epoch", "3")] 3 rfl (by decide) (by decide)
  obtain ⟨logMsg, perfMsg, -, k3, -⟩ := k2 2 1 (by decide) (by decide)
  obtain ⟨logMsg2, -, k4, -, -⟩ :=
    (logStatus_failure_contained envLogFails ⟨true, true, [("dev", 9)]⟩ (metersOf "dev" 5)
      [("lmcrit-t", 1), ("lr", 2)] [("epoch", "3")] 3 rfl (by decide) (by decide)).2.2.1
      2 1 (by decide) (by decide)
  refine ⟨⟨logMsg, (k3 rfl rfl).2⟩, ⟨h1, m1, tr, ext, e1, e2, ?_, ?_⟩,
    ⟨logMsg2, (k4 rfl).2⟩,
    ((logStatus_failure_contained env0 ⟨true, true, [("dev", 9)]⟩ (metersOf "dev" 5) [("lr", 1)]
      [("epoch", "3")] 3 rfl (by decide) (by decide)).2.1 (Or.inr (by decide))).2.2⟩
  · exact (e3 "dev" ⟨[("tkn", 5)], []⟩ (by decide)).1.trans (by decide)
  · exact (e3 "dev" ⟨[("tkn", 5)], []⟩ (by decide)).2.trans (by decide)

/-- C8 (counterexample): a run-time timer that reads 3 000 000 000 s, a
non-negative value: the conversion to `int` is out of range, `rt` is the least
`int`, and the field is "-596523:-14:-8", with negative minutes and seconds. -/
theorem formatStatus_runtime_counterexample :
    mapFind metersLong.timer env0.kRuntime = some 3000000000
      ∧ (0 : ℚ) ≤ 3000000000
      ∧ toInt 3000000000 = -2147483648
      ∧ (formatStatusAcc env0 true metersLong 0 [] false false " " true).map
          (fun r => r.1.items[3]?) = .ok (some ("runtime", "-596523:-14:-8")) := by
  decide

/-- C8 (amended): for every non-negative value `v` of the run-time timer (0 when
the timer is absent), a call of `formatStatus` that returns renders the run-time
field from `rt`, the conversion of `v` to `int`, as `rt / 60 / 60`,
`(rt / 60) % 60` and `rt % 60`, each printed with "%02d" and separated by
colons. For `v` below 2^31, `rt` is `v` truncated to whole seconds, the three
parts are `rt / 3600`, `(rt / 60) mod 60` and `rt mod 60`, minutes and seconds
are below 60 and take two characters, hours take at least two, the parts add up
to `rt`, and 125 s is rendered "00:02:05". For `v` of 2^31 or more the
conversion is out of range and the field is "-596523:-14:-8". -/
theorem formatStatus_runtime (E : Env) (logOnEpoch : Bool) (meters : SSLTrainMeters)
    (epoch : Int) (logFields : List (String × ℚ)) (verbose date : Bool) (separator : String)
    (headerOnly : Bool) (v : ℚ)
    (hv : (mapFind meters.timer E.kRuntime).getD 0 = v) (h0 : 0 ≤ v)
    (hok : headerOnly = true
      ∨ (mapFind logFields "lr" ≠ none ∧ mapFind logFields "lmcrit-t" ≠ none)) :
    ∃ a m, formatStatusAcc E logOnEpoch meters epoch logFields verbose date separator headerOnly
        = .ok (a, m)
      ∧ a.items[if date then 5 else 3]?
        = some (cellOf verbose E.kRuntime
            (formatD true 2 (((toInt v).tdiv 60).tdiv 60) ++ ":"
              ++ formatD true 2 (((toInt v).tdiv 60).tmod 60)
              ++ ":" ++ formatD true 2 ((toInt v).tmod 60)))
      ∧ (v < 2147483648 →
          ((toInt v).tdiv 60).tdiv 60 = toInt v / 3600
          ∧ ((toInt v).tdiv 60).tmod 60 = toInt v / 60 % 60
          ∧ (toInt v).tmod 60 = toInt v % 60
          ∧ 0 ≤ toInt v ∧ (toInt v : ℚ) ≤ v ∧ v < (toInt v : ℚ) + 1
          ∧ 0 ≤ toInt v / 60 % 60 ∧ toInt v / 60 % 60 < 60
          ∧ 0 ≤ toInt v % 60 ∧ toInt v % 60 < 60
          ∧ toInt v / 3600 * 3600 + toInt v / 60 % 60 * 60 + toInt v % 60 = toInt v
          ∧ 2 ≤ (formatD true 2 (toInt v / 3600)).length
          ∧ (formatD true 2 (toInt v / 60 % 60)).length = 2
          ∧ (formatD true 2 (toInt v % 60)).length = 2)
      ∧ (v = 125 →
          formatD true 2 (((toInt v).tdiv 60).tdiv 60) ++ ":"
            ++ formatD true 2 (((toInt v).tdiv 60).tmod 60)
            ++ ":" ++ formatD true 2 ((toInt v).tmod 60) = "00:02:05")
      ∧ (2147483648 ≤ v →
          toInt v = -2147483648
          ∧ formatD true 2 (((toInt v).tdiv 60).tdiv 60) ++ ":"
              ++ formatD true 2 (((toInt v).tdiv 60).tmod 60)
              ++ ":" ++ formatD true 2 ((toInt v).tmod 60) = "-596523:-14:-8") := by
  obtain ⟨lr, lm, h1, h2⟩ := extraCell_of_ok E logFields headerOnly hok
  obtain ⟨a, ha1, ha2⟩ := formatStatusAcc_ok E logOnEpoch meters epoch logFields verbose date
    separator headerOnly lr lm h1 h2
  refine ⟨a, _, ha1, ?_, ?_, ?_, ?_⟩
  · rw [ha2, statusFields_runtime, hv]
    rfl
  · intro hb
    have hfl := toInt_of_nonneg v h0 hb
    have hnn : 0 ≤ toInt v := by
      rw [hfl]
      exact Int.floor_nonneg.mpr h0
    have hq : (toInt v).tdiv 60 = toInt v / 60 := Int.tdiv_eq_ediv hnn (by decide)
    have hq2 : (toInt v / 60).tdiv 60 = toInt v / 60 / 60 :=
      Int.tdiv_eq_ediv (by omega) (by decide)
    have hq3 : (toInt v / 60).tmod 60 = toInt v / 60 % 60 :=
      Int.tmod_eq_emod (by omega) (by decide)
    have hq4 : (toInt v).tmod 60 = toInt v % 60 := Int.tmod_eq_emod hnn (by decide)
    have hq5 : toInt v / 60 / 60 = toInt v / 3600 := by omega
    refine ⟨by rw [hq, hq2, hq5], by rw [hq, hq3], hq4, hnn, ?_, ?_, by omega, by omega,
      by omega, by omega, by omega, formatD_length true 2 _,
      formatD_two_digits _ (by omega) (by omega), formatD_two_digits _ (by omega) (by omega)⟩
    · rw [hfl]
      exact Int.floor_le v
    · rw [hfl]
      exact Int.lt_floor_add_one v
  · intro e
    subst e
    decide
  · intro hb
    have e := toInt_of_large v hb
    refine ⟨e, ?_⟩
    rw [e]
    decide

/-- C8 (witness): the status row of a meter set whose run-time timer reads 125 s
holds "00:02:05" in its fourth field. -/
theorem formatStatus_runtime_witness :
    ∃ a m, formatStatusAcc env0 true meters125 3 [("lmcrit-t", 1), ("lr", 2)] false false " " false
        = .ok (a, m)
      ∧ a.items[3]? = some ("runtime", "00:02:05") := by
  obtain ⟨a, m, h1, h2, -, h3, -⟩ :=
    formatStatus_runtime env0 true meters125 3 [("lmcrit-t", 1), ("lr", 2)] false false " "
      false 125 (by decide) (by decide) (Or.inr ⟨by decide, by decide⟩)
  refine ⟨a, m, h1, ?_⟩
  rw [h3 rfl] at h2
  exact h2

/-- C9 (counterexample): on two workers, a per-sample timer that reads the least
positive `double`, 2^-1074 s, over one sample: the measured time 2^-1074 * 1 / 2
is a tie between zero and the least positive `double` and rounds to 0.0, so the
throughput field is the sentinel "n/a" although the timer value is not 0.0. -/
theorem formatStatus_throughput_counterexample :
    mapFind metersTiny.timer env2.kTimer = some ((2 : ℚ) ^ (-1074 : Int))
      ∧ (0 : ℚ) < (2 : ℚ) ^ (-1074 : Int)
      ∧ roundD ((2 : ℚ) ^ (-1074 : Int)) = .fin ((2 : ℚ) ^ (-1074 : Int))
      ∧ 1 ≤ env2.worldSize
      ∧ timeTakenSec env2 metersTiny.stats ((2 : ℚ) ^ (-1074 : Int)) = .fin 0
      ∧ (formatStatusAcc env2 true metersTiny 3 [] false false " " true).map
          (fun r => r.1.items.getLast?) = .ok (some ("thrpt(sec/sec)", "n/a")) := by
  refine ⟨rfl, by positivity, roundD_two_zpow (-1074) (by norm_num) (by norm_num), by decide,
    timeTakenSec_underflow, ?_⟩
  obtain ⟨a, ha1, ha2⟩ := formatStatusAcc_ok env2 true metersTiny 3 [] false false " " true
    "" "" rfl rfl
  rw [ha1]
  simp only [Except.map]
  rw [ha2, statusFields_last]
  have hk : (mapFind metersTiny.timer env2.kTimer).getD 0 = (2 : ℚ) ^ (-1074 : Int) := rfl
  rw [hk]
  unfold thrptCell
  rw [timeTakenSec_underflow]
  simp [Dbl.gtZero, cellOf]

/-- C9 (amended): for every meter set and configuration with a world size of at
least 1, a call of `formatStatus` that returns ends with the field
"thrpt(sec/sec)". With `tv` the per-sample timer's value (0 when the timer is
absent), the measured time is `tv` times the sample count floored at 1, divided
by the world size, in the arithmetic of doubles. The field is the sentinel "n/a"
exactly when that measured time is not above zero, and otherwise the "%.2f"
rendering of the processed-audio seconds divided by it, a division whose divisor
is above zero. The measured time is not above zero for every `tv` that is zero
or negative, and it is above zero for every `tv` of at least 2^-1072 times the
world size; a smaller positive `tv` may underflow. The processed-audio seconds
are themselves divided by the sample rate when no spectral front end is set, and
a sample rate of 0 makes them infinite. -/
theorem formatStatus_throughput (E : Env) (logOnEpoch : Bool) (meters : SSLTrainMeters)
    (epoch : Int) (logFields : List (String × ℚ)) (verbose date : Bool) (separator : String)
    (headerOnly : Bool) (tv : ℚ)
    (hw : 1 ≤ E.worldSize) (htv : (mapFind meters.timer E.kTimer).getD 0 = tv)
    (hok : headerOnly = true
      ∨ (mapFind logFields "lr" ≠ none ∧ mapFind logFields "lmcrit-t" ≠ none)) :
    ∃ a m, formatStatusAcc E logOnEpoch meters epoch logFields verbose date separator headerOnly
        = .ok (a, m)
      ∧ a.items.getLast? = some (cellOf verbose "thrpt(sec/sec)"
          (if (timeTakenSec E meters.stats tv).gtZero = true then
            formatDbl E "%.2f" (Dbl.div (audioProcSec E meters.stats)
              (timeTakenSec E meters.stats tv))
          else "n/a"))
      ∧ timeTakenSec E meters.stats tv
        = Dbl.div (Dbl.mul (.fin tv) (roundD ((max meters.stats.v4 1 : Int) : ℚ)))
            (roundD ((E.worldSize : Int) : ℚ))
      ∧ (tv ≤ 0 → (timeTakenSec E meters.stats tv).gtZero = false)
      ∧ ((timeTakenSec E meters.stats tv).gtZero = true →
          0 < tv ∧ timeTakenSec E meters.stats tv ≠ .fin 0)
      ∧ (E.worldSize < 2 ^ 53 → (2 : ℚ) ^ (-1072 : Int) * (E.worldSize : ℚ) ≤ tv →
          (timeTakenSec E meters.stats tv).gtZero = true)
      ∧ ((∀ fmt d, formatDbl E fmt d ≠ "n/a") →
          ((if (timeTakenSec E meters.stats tv).gtZero = true then
              formatDbl E "%.2f" (Dbl.div (audioProcSec E meters.stats)
                (timeTakenSec E meters.stats tv))
            else "n/a") = "n/a" ↔ (timeTakenSec E meters.stats tv).gtZero = false))
      ∧ ((E.pow || E.mfcc || E.mfsc) = false → E.samplerate = 0 →
          0 < wrap64 (meters.stats.v0 * E.batchsize) →
          audioProcSec E meters.stats = .inf false) := by
  obtain ⟨lr, lm, h1, h2⟩ := extraCell_of_ok E logFields headerOnly hok
  obtain ⟨a, ha1, ha2⟩ := formatStatusAcc_ok E logOnEpoch meters epoch logFields verbose date
    separator headerOnly lr lm h1 h2
  have hna : tv ≤ 0 → (timeTakenSec E meters.stats tv).gtZero = false :=
    fun h => timeTakenSec_not_gtZero E meters.stats tv hw (not_lt.mpr h)
  refine ⟨a, _, ha1, ?_, rfl, hna, ?_, timeTakenSec_gtZero E meters.stats tv hw, ?_,
    audioProcSec_samplerate_zero E meters.stats⟩
  · rw [ha2, statusFields_last, htv]
    rfl
  · intro hg
    constructor
    · by_contra hn
      rw [hna (not_lt.mp hn)] at hg
      exact absurd hg (by decide)
    · intro e
      rw [e] at hg
      simp [Dbl.gtZero] at hg
  · intro hf
    cases hg : (timeTakenSec E meters.stats tv).gtZero
    · simp
    · simp only [if_true]
      exact ⟨fun e => absurd e (hf _ _), fun e => absurd e (by decide)⟩

/-- C9 (witness): the amended claim at a meter set whose per-sample timer reads
2 s over three samples on one worker: the measured time is above zero and the
field is the rendering of the ratio. -/
theorem formatStatus_throughput_witness :
    ∃ a m, formatStatusAcc env0 true meters125 3 [] false false " " true = .ok (a, m)
      ∧ a.items.getLast? = some ("thrpt(sec/sec)", "x")
      ∧ (timeTakenSec env0 meters125.stats 2).gtZero = true := by
  obtain ⟨a, m, h1, h2, -, -, -, h3, -, -⟩ :=
    formatStatus_throughput env0 true meters125 3 [] false false " " true 2
      (by decide) (by decide) (Or.inl rfl)
  have hg : (timeTakenSec env0 meters125.stats 2).gtZero = true := by
    refine h3 (by decide) ?_
    simp only [env0]
    norm_num
  refine ⟨a, m, h1, ?_, hg⟩
  rw [h2, hg]
  simp [cellOf, formatDbl_env0]

/-- C10: for a `LogHelper` that is not the master, `saveConfig`, `writeHeader`,
`saveModel` and `saveProposalModel` have no effect at all, `logStatus` performs
the meter synchronization and nothing else, and `logAndSaveModel` either fails
on reading the step number, before any effect, or performs the synchronization
and nothing else: no file is opened or appended to and no snapshot is requested.
Constructing a non-master helper opens no file. The method
`saveWorkerProposalModel`, which is not gated, writes the per-worker proposal
file and touches neither the log file, the performance file nor a model
snapshot. -/
theorem worker_writes_nothing (E : Env) (h : LogHelper) (meters : SSLTrainMeters)
    (epoch : Int) (logFields : List (String × ℚ)) (config : List (String × String))
    (tag : String) (hm : h.isMaster = false) :
    saveConfig h = [] ∧ writeHeader E h meters = .ok (meters, [])
      ∧ logStatus E h meters epoch logFields = (syncMeter E meters, [Event.sync])
      ∧ saveModel h tag = [] ∧ saveProposalModel h = []
      ∧ (∀ iter, stepNumber E h.logOnEpoch config = .ok iter →
          ∃ h1 m1, logAndSaveModel E h meters config logFields = .ok (h1, m1, [Event.sync]))
      ∧ (∀ e, stepNumber E h.logOnEpoch config = .error e →
          logAndSaveModel E h meters config logFields = .error e)
      ∧ (∀ logOnEpoch, (LogHelper.new false logOnEpoch).1.isMaster = false
          ∧ (LogHelper.new false logOnEpoch).2 = [])
      ∧ (∀ worldRank, ∀ ev ∈ saveWorkerProposalModel worldRank, ev.onMasterFile = false) := by
  refine ⟨by simp [saveConfig, hm], by simp [writeHeader, hm],
    logStatus_worker E h meters epoch logFields hm, by simp [saveModel, hm],
    by simp [saveProposalModel, hm], ?_, ?_, fun _ => ⟨rfl, rfl⟩, ?_⟩
  · intro iter hstep
    refine ⟨(logAndSaveModelAt E h meters iter logFields).1,
      (logAndSaveModelAt E h meters iter logFields).2.1, ?_⟩
    rw [logAndSaveModel_ok E h meters config logFields iter hstep,
      ← logAndSaveModelAt_worker E h hm meters iter logFields]
  · intro e hstep
    exact logAndSaveModel_error E h meters config logFields e hstep
  · intro worldRank ev hev
    simp only [saveWorkerProposalModel, List.mem_singleton] at hev
    subst hev
    rfl

/-- C10 (witness): a non-master helper at epoch 3: every operation leaves an empty
trace, except for the synchronization of `logStatus` and `logAndSaveModel`. -/
theorem worker_writes_nothing_witness :
    saveConfig ⟨false, true, []⟩ = []
      ∧ writeHeader env0 ⟨false, true, []⟩ meters125 = .ok (meters125, [])
      ∧ logStatus env0 ⟨false, true, []⟩ meters125 3 [] = (syncMeter env0 meters125, [Event.sync])
      ∧ saveModel ⟨false, true, []⟩ "last" = [] ∧ saveProposalModel ⟨false, true, []⟩ = []
      ∧ (∃ h1 m1, logAndSaveModel env0 ⟨false, true, []⟩ meters125 [("epoch", "3")] []
            = .ok (h1, m1, [Event.sync])) := by
  obtain ⟨h1, h2, h3, h4, h5, h6, -, -, -⟩ :=
    worker_writes_nothing env0 ⟨false, true, []⟩ meters125 3 [] [("epoch", "3")] "last" rfl
  exact ⟨h1, h2, h3, h4, h5, h6 3 (by decide)⟩

/-- C11 (counterexample): a `LogHelper` constructed with `isMaster = false` starts
with an empty tracker; after one call on a meter set whose subset "dev" reports
5, its tracker holds 5 for "dev". -/
theorem worker_tracker_counterexample :
    (LogHelper.new false true).1 = ⟨false, true, []⟩
      ∧ logAndSaveModel env0 (LogHelper.new false true).1 (metersOf "dev" 5) [("epoch", "3")] []
        = .ok (⟨false, true, [("dev", 5)]⟩, metersOf "dev" 5, [Event.sync]) := by
  decide

/-- C11 (amended): a call to `logAndSaveModel` on a worker that is not the master
requests no snapshot but updates the best-metric tracker by the same rule as the
master: the entry of a validation subset is set to its target-unit error value
when there was no entry or the entry was strictly greater, and is left unchanged
otherwise; entries of names that are no validation subset of the meter set are
left unchanged. The tracker after the call is the one the master would hold. -/
theorem worker_tracker_policy (E : Env) (h : LogHelper) (meters : SSLTrainMeters)
    (config : List (String × String)) (lf : List (String × ℚ)) (iter : Int)
    (hm : h.isMaster = false)
    (hstep : stepNumber E h.logOnEpoch config = .ok iter)
    (hnd : (mapKeys meters.valid).Nodup) :
    ∃ h1 m1, logAndSaveModel E h meters config lf = .ok (h1, m1, [Event.sync])
      ∧ h1.isMaster = false
      ∧ (∀ s dm, (s, dm) ∈ (syncMeter E meters).valid →
          ((mapFind h.validminerrs s = none
              ∨ ∃ b, mapFind h.validminerrs s = some b ∧ b > targetErr E dm) →
            mapFind h1.validminerrs s = some (targetErr E dm))
          ∧ (¬ (mapFind h.validminerrs s = none
              ∨ ∃ b, mapFind h.validminerrs s = some b ∧ b > targetErr E dm) →
            mapFind h1.validminerrs s = mapFind h.validminerrs s))
      ∧ (∀ s, s ∉ mapKeys meters.valid → mapFind h1.validminerrs s = mapFind h.validminerrs s)
      ∧ h1.validminerrs
          = (logAndSaveModelAt E { h with isMaster := true } meters iter lf).1.validminerrs := by
  refine ⟨(logAndSaveModelAt E h meters iter lf).1, (logAndSaveModelAt E h meters iter lf).2.1,
    ?_, hm, ?_, ?_, ?_⟩
  · rw [logAndSaveModel_ok E h meters config lf iter hstep,
      ← logAndSaveModelAt_worker E h hm meters iter lf]
  · intro s dm hmem
    have k := (logAndSaveModelAt_subset E h meters iter lf s dm hnd hmem).1
    constructor
    · intro hi
      rw [k, if_pos ((improves_iff _ _ _).mpr hi)]
    · intro hi
      rw [k, if_neg (fun hh => hi ((improves_iff _ _ _).mp hh))]
  · intro s hs
    exact (logAndSaveModelAt_other E h meters iter lf s hs).1
  · exact logAndSaveModelAt_tracker E h _ meters iter lf rfl

/-- C11 (witness): the amended claim at a non-master worker whose tracker holds 9
for "dev" and a meter set that reports 5 for it: the entry becomes 5 and nothing
but the synchronization happens. -/
theorem worker_tracker_policy_witness :
    ∃ h1 m1, logAndSaveModel env0 ⟨false, true, [("dev", 9)]⟩ (metersOf "dev" 5)
        [("epoch", "3")] [] = .ok (h1, m1, [Event.sync])
      ∧ mapFind h1.validminerrs "dev" = some 5
      ∧ mapFind h1.validminerrs "test" = none := by
  obtain ⟨h1, m1, e, -, k1, k2, -⟩ :=
    worker_tracker_policy env0 ⟨false, true, [("dev", 9)]⟩ (metersOf "dev" 5)
      [("epoch", "3")] [] 3 rfl (by decide) (by decide)
  exact ⟨h1, m1, e,
    (k1 "dev" ⟨[("tkn", 5)], []⟩ (by decide)).1 (Or.inr ⟨9, by decide, by decide⟩),
    k2 "test" (by decide)⟩

/-- C12 (counterexample): on the master, with the per-epoch cadence, the header
that `writeHeader` writes for a meter set with one validation subset starts with
the columns "date" and "time". -/
theorem writeHeader_counterexample :
    writeHeader env0 ⟨true, true, []⟩ (metersOf "dev" 5)
      = .ok ({ metersOf "dev" 5 with timer := [("bch", 0), ("runtime", 0)] },
          [Event.openFile File.perf false,
            Event.append File.perf ("# date\ttime\tepoch\tlr\tlmcrit-t\truntime\tdev-tknER\t"
              ++ "avg-isz\tavg-tsz\tmax-tsz\thrs\tthrpt(sec/sec)")]) := by
  decide

/-- C12 (amended): `writeHeader` on the master formats a header-only performance
row with step 0, an empty extra-field map, the date requested and a tab as
separator, and writes it to the freshly opened performance file after the comment
marker "# ". The header is the field names joined by tabs; it starts with "date"
and "time", followed by the step counter, "lr", "lmcrit-t" and the run-time
timer. -/
theorem writeHeader_schema (E : Env) (h : LogHelper) (meters : SSLTrainMeters)
    (hm : h.isMaster = true) :
    ∃ a m1,
      formatStatusAcc E h.logOnEpoch meters 0 [] false true "\t" true = .ok (a, m1)
      ∧ formatStatus E h.logOnEpoch meters 0 [] false true "\t" true = .ok (a.header, m1)
      ∧ writeHeader E h meters
        = .ok (m1, [Event.openFile File.perf false, Event.append File.perf ("# " ++ a.header)])
      ∧ a.header = "\t".intercalate (a.items.map Prod.fst)
      ∧ (a.items.map Prod.fst).take 6
        = ["date", "time", if h.logOnEpoch then "epoch" else "iter", "lr", "lmcrit-t",
            E.kRuntime] := by
  obtain ⟨a, h1, h2, h3⟩ := writeHeader_master E h meters hm
  refine ⟨a, _, h1, ?_, h3,
    formatStatusAcc_header E h.logOnEpoch meters 0 [] false true "\t" true a _ h1, ?_⟩
  · unfold formatStatus
    rw [h1]
    rfl
  · rw [h2]
    simp [statusFields, cellOf]

/-- C12 (witness): the amended claim at a per-iteration master and a meter set
with two timers. -/
theorem writeHeader_schema_witness :
    ∃ (a : Acc) (m1 : SSLTrainMeters),
      writeHeader env0 ⟨true, false, []⟩ meters125
        = .ok (m1, [Event.openFile File.perf false, Event.append File.perf ("# " ++ a.header)])
      ∧ (a.items.map Prod.fst).take 6
        = ["date", "time", "iter", "lr", "lmcrit-t", "runtime"] := by
  obtain ⟨a, m1, -, -, h3, -, h5⟩ := writeHeader_schema env0 ⟨true, false, []⟩ meters125 rfl
  exact ⟨a, m1, h3, h5⟩

/-- C13 (counterexample): a header call whose extra-field map holds the single
key "foo": the header names "lr" and "lmcrit-t" after the step counter and does
not name "foo", where the order of the claim has the extra scalar fields of the
map, here "foo" alone. The same header is produced for the empty map, for which
the claim has no extra field. -/
theorem formatStatus_field_order_counterexample :
    formatStatus env0 true (metersOf "dev" 5) 0 [("foo", 1)] false false " " true
        = .ok ("epoch lr lmcrit-t runtime dev-tknER avg-isz avg-tsz max-tsz hrs thrpt(sec/sec)",
            { metersOf "dev" 5 with timer := [("bch", 0), ("runtime", 0)] })
      ∧ " ".intercalate (specFieldNames env0 true (metersOf "dev" 5) [("foo", 1)] false)
        = "epoch foo runtime dev-tknER avg-isz avg-tsz max-tsz hrs thrpt(sec/sec)"
      ∧ formatStatus env0 true (metersOf "dev" 5) 0 [] false false " " true
        = .ok ("epoch lr lmcrit-t runtime dev-tknER avg-isz avg-tsz max-tsz hrs thrpt(sec/sec)",
            { metersOf "dev" 5 with timer := [("bch", 0), ("runtime", 0)] })
      ∧ " ".intercalate (specFieldNames env0 true (metersOf "dev" 5) [] false)
        = "epoch runtime dev-tknER avg-isz avg-tsz max-tsz hrs thrpt(sec/sec)" := by
  decide

/-- C13 (amended): for every meter set and every extra-field map the header that
`formatStatus` produces is the separator-joined list of these field names, in
this order: "date" and "time" only when the date is requested; "epoch" or
"iter"; the two fixed extra fields "lr" and "lmcrit-t", whatever the keys of the
map; the run-time timer; every other timer in map order with the suffix "(ms)"
and never the run-time timer again; the train group and then each validation
subset in map order, losses before edit meters; the five closing fields. This is
the order of the claim exactly for a map whose keys are "lr" and "lmcrit-t". A
status row, which is produced when the map holds both keys, inserts its fields
under the same names in the same order, and is the value cells of these fields
joined by the separator. -/
theorem formatStatus_field_order (E : Env) (logOnEpoch : Bool) (meters : SSLTrainMeters)
    (epoch : Int) (logFields : List (String × ℚ)) (verbose date : Bool) (separator : String) :
    (∃ a m, formatStatusAcc E logOnEpoch meters epoch logFields verbose date separator true
          = .ok (a, m)
        ∧ formatStatus E logOnEpoch meters epoch logFields verbose date separator true
          = .ok (a.header, m)
        ∧ a.items.map Prod.fst = fieldNames E logOnEpoch meters date
        ∧ a.header = separator.intercalate (fieldNames E logOnEpoch meters date))
      ∧ (mapKeys logFields = ["lr", "lmcrit-t"] →
          specFieldNames E logOnEpoch meters logFields date = fieldNames E logOnEpoch meters date)
      ∧ fieldNames E logOnEpoch meters date
        = specFieldNames E logOnEpoch meters [("lr", 0), ("lmcrit-t", 0)] date
      ∧ (∀ x y, mapFind logFields "lr" = some x → mapFind logFields "lmcrit-t" = some y →
          ∃ b m, formatStatusAcc E logOnEpoch meters epoch logFields verbose date separator false
              = .ok (b, m)
            ∧ formatStatus E logOnEpoch meters epoch logFields verbose date separator false
              = .ok (b.status, m)
            ∧ b.items.map Prod.fst = fieldNames E logOnEpoch meters date
            ∧ b.header = separator.intercalate (fieldNames E logOnEpoch meters date)
            ∧ b.items = statusFields E logOnEpoch meters epoch (E.formatF "%4.6lf" x)
                (E.formatF "%4.6lf" y) verbose date
            ∧ ((date = true → verbose = false → E.currentDate ≠ "") →
                b.status = separator.intercalate (b.items.map Prod.snd))) := by
  refine ⟨?_, specFieldNames_eq E logOnEpoch meters logFields date, rfl, ?_⟩
  · obtain ⟨a, h1, h2, h3⟩ := formatStatus_ok E logOnEpoch meters epoch logFields verbose date
      separator true _ _ (extraCell_header E logFields "lr")
      (extraCell_header E logFields "lmcrit-t")
    have hn : a.items.map Prod.fst = fieldNames E logOnEpoch meters date := by
      rw [h3]
      exact statusFields_fieldNames E logOnEpoch meters epoch _ _ verbose date
    refine ⟨a, _, h1, h2, hn, ?_⟩
    rw [← hn]
    exact formatStatusAcc_header E logOnEpoch meters epoch logFields verbose date separator true
      a _ h1
  · intro x y hx hy
    obtain ⟨b, h1, h2, h3⟩ := formatStatus_ok E logOnEpoch meters epoch logFields verbose date
      separator false _ _ (extraCell_row_some E logFields "lr" x hx)
      (extraCell_row_some E logFields "lmcrit-t" y hy)
    have hn : b.items.map Prod.fst = fieldNames E logOnEpoch meters date := by
      rw [h3]
      exact statusFields_fieldNames E logOnEpoch meters epoch _ _ verbose date
    refine ⟨b, _, h1, h2, hn, ?_, h3, ?_⟩
    · rw [← hn]
      exact formatStatusAcc_header E logOnEpoch meters epoch logFields verbose date separator
        false b _ h1
    · intro hd
      exact formatStatusAcc_status E logOnEpoch meters epoch logFields verbose date separator
        false b _ hd h1

/-- C14 (failing input): a master with the per-epoch cadence and a meter set whose
timer map holds no per-sample timer. `writeHeader` writes twelve column names,
none of them for the per-sample timer, and inserts that timer. The performance
row that `logStatus` appends, for the meter set as it was given and for the
meter set as `writeHeader` left it, has thirteen values: the column "bch(ms)"
stands between the run time and the first meter, so every header name from
"dev-tknER" on labels the value before its own. -/
theorem writeHeader_schema_drift :
    writeHeader env0 ⟨true, true, []⟩ (metersOf "dev" 5)
        = .ok ({ metersOf "dev" 5 with timer := [("bch", 0), ("runtime", 0)] },
            [Event.openFile File.perf false,
              Event.append File.perf ("# date\ttime\tepoch\tlr\tlmcrit-t\truntime\tdev-tknER\t"
                ++ "avg-isz\tavg-tsz\tmax-tsz\thrs\tthrpt(sec/sec)")])
      ∧ (formatStatusAcc env0 true (metersOf "dev" 5) 0 [] false true "\t" true).map
            (fun r => r.1.items.map Prod.fst)
        = .ok ["date", "time", "epoch", "lr", "lmcrit-t", "runtime", "dev-tknER", "avg-isz",
            "avg-tsz", "max-tsz", "hrs", "thrpt(sec/sec)"]
      ∧ (∃ (logMsg : String) (b : Acc),
          logStatus env0 ⟨true, true, []⟩ (metersOf "dev" 5) 3 [("lmcrit-t", 1), ("lr", 2)]
            = ({ metersOf "dev" 5 with timer := [("bch", 0), ("runtime", 0)] },
                [Event.sync, Event.openFile File.log true, Event.openFile File.perf true,
                  Event.info logMsg, Event.append File.log logMsg,
                  Event.append File.perf b.status])
          ∧ b.items.map Prod.fst
            = ["date", "time", "epoch", "lr", "lmcrit-t", "runtime", "bch(ms)", "dev-tknER",
                "avg-isz", "avg-tsz", "max-tsz", "hrs", "thrpt(sec/sec)"]
          ∧ b.status = "2020-01-01 00:00:00        3 x x 00:00:00 x x 000 000 000 x n/a")
      ∧ (∃ (logMsg : String) (b : Acc),
          logStatus env0 ⟨true, true, []⟩
              { metersOf "dev" 5 with timer := [("bch", 0), ("runtime", 0)] } 3
              [("lmcrit-t", 1), ("lr", 2)]
            = ({ metersOf "dev" 5 with timer := [("bch", 0), ("runtime", 0)] },
                [Event.sync, Event.openFile File.log true, Event.openFile File.perf true,
                  Event.info logMsg, Event.append File.log logMsg,
                  Event.append File.perf b.status])
          ∧ b.items.map Prod.fst
            = ["date", "time", "epoch", "lr", "lmcrit-t", "runtime", "bch(ms)", "dev-tknER",
                "avg-isz", "avg-tsz", "max-tsz", "hrs", "thrpt(sec/sec)"]
          ∧ b.status = "2020-01-01 00:00:00        3 x x 00:00:00 x x 000 000 000 x n/a") := by
  refine ⟨by decide, by decide, ?_, ?_⟩
  · obtain ⟨logMsg, b, h1, h2, h3⟩ := logStatus_perf_row env0 ⟨true, true, []⟩
      (metersOf "dev" 5) 3 [("lmcrit-t", 1), ("lr", 2)] rfl 2 1 (by decide) (by decide) (fun _ _ => rfl)
    refine ⟨logMsg, b, ?_, ?_, ?_⟩
    · rw [h1]
      have e : ({ syncMeter env0 (metersOf "dev" 5) with
          timer := timersAfter env0 (timersAfter env0 (syncMeter env0 (metersOf "dev" 5)).timer) }
            : SSLTrainMeters)
          = { metersOf "dev" 5 with timer := [("bch", 0), ("runtime", 0)] } := by decide
      rw [e]
    · rw [h2, statusFields_fieldNames]
      decide
    · rw [h3 (by decide), h2]
      unfold statusFields
      rw [thrptCell_na env0 _ _ (by decide) (by decide)]
      simp only [formatDbl_env0]
      decide
  · obtain ⟨logMsg, b, h1, h2, h3⟩ := logStatus_perf_row env0 ⟨true, true, []⟩
      { metersOf "dev" 5 with timer := [("bch", 0), ("runtime", 0)] } 3
      [("lmcrit-t", 1), ("lr", 2)] rfl 2 1 (by decide) (by decide) (fun _ _ => rfl)
    refine ⟨logMsg, b, ?_, ?_, ?_⟩
    · rw [h1]
      have e : ({ syncMeter env0 { metersOf "dev" 5 with timer := [("bch", 0), ("runtime", 0)] }
          with timer := timersAfter env0 (timersAfter env0 (syncMeter env0
            { metersOf "dev" 5 with timer := [("bch", 0), ("runtime", 0)] }).timer) }
            : SSLTrainMeters)
          = { metersOf "dev" 5 with timer := [("bch", 0), ("runtime", 0)] } := by decide
      rw [e]
    · rw [h2, statusFields_fieldNames]
      decide
    · rw [h3 (by decide), h2]
      unfold statusFields
      rw [thrptCell_na env0 _ _ (by decide) (by decide)]
      simp only [formatDbl_env0]
      decide

/-- C15: for every stats vector the divisor is the sample count floored at 1,
which is at least 1, so that the division is defined; every call of
`formatStatus` that returns has, before the two throughput fields, the fields
"avg-isz" and "avg-tsz", the total input and target lengths divided by that
divisor with the integer division of the language, and "max-tsz", the maximal
target length, all printed with "%03d"; with a sample count of 0 or less the two
averages are the totals. -/
theorem formatStatus_sample_stats (E : Env) (logOnEpoch : Bool) (meters : SSLTrainMeters)
    (epoch : Int) (logFields : List (String × ℚ)) (verbose date : Bool) (separator : String)
    (headerOnly : Bool) :
    1 ≤ max meters.stats.v4 1
      ∧ max meters.stats.v4 1 ≠ 0
      ∧ (meters.stats.v4 ≤ 0 →
          meters.stats.v0.tdiv (max meters.stats.v4 1) = meters.stats.v0
            ∧ meters.stats.v1.tdiv (max meters.stats.v4 1) = meters.stats.v1)
      ∧ ((headerOnly = true
            ∨ (mapFind logFields "lr" ≠ none ∧ mapFind logFields "lmcrit-t" ≠ none)) →
          ∃ a m pre hrs thr,
            formatStatusAcc E logOnEpoch meters epoch logFields verbose date separator headerOnly
              = .ok (a, m)
            ∧ a.items = pre ++
              [cellOf verbose "avg-isz"
                  (formatD true 3 (meters.stats.v0.tdiv (max meters.stats.v4 1))),
                cellOf verbose "avg-tsz"
                  (formatD true 3 (meters.stats.v1.tdiv (max meters.stats.v4 1))),
                cellOf verbose "max-tsz" (formatD true 3 meters.stats.v3),
                cellOf verbose "hrs" hrs, cellOf verbose "thrpt(sec/sec)" thr]) := by
  have h1 : (1 : Int) ≤ max meters.stats.v4 1 := le_max_right _ _
  refine ⟨h1, by omega, ?_, ?_⟩
  · intro h
    rw [max_eq_right (by omega : meters.stats.v4 ≤ 1)]
    exact ⟨Int.tdiv_one _, Int.tdiv_one _⟩
  · intro hok
    obtain ⟨lr, lm, e1, e2⟩ := extraCell_of_ok E logFields headerOnly hok
    obtain ⟨a, ha1, ha2⟩ := formatStatusAcc_ok E logOnEpoch meters epoch logFields verbose date
      separator headerOnly lr lm e1 e2
    exact ⟨a, _, _, _, _, ha1, ha2⟩

/-- C16: for every input the header that `formatStatus` returns is the same for
verbose=true and verbose=false, and so is the meter set after the call. A row
call raises for both settings or for none; when it returns, the verbose call
inserts the same field names in the same order, each value cell being the field
name, ": " and the cell of the plain call at the same position, and the verbose
row is these cells joined by the separator (so is the plain row, the current
date being a non-empty string when the date is requested). -/
theorem formatStatus_verbose (E : Env) (logOnEpoch : Bool) (meters : SSLTrainMeters)
    (epoch : Int) (logFields : List (String × ℚ)) (date : Bool) (separator : String) :
    (∃ hdr m,
        formatStatus E logOnEpoch meters epoch logFields false date separator true = .ok (hdr, m)
        ∧ formatStatus E logOnEpoch meters epoch logFields true date separator true
          = .ok (hdr, m))
      ∧ ((formatStatus E logOnEpoch meters epoch logFields false date separator false
            = .error .outOfRange
          ∧ formatStatus E logOnEpoch meters epoch logFields true date separator false
            = .error .outOfRange)
        ∨ (∃ p v m,
            formatStatusAcc E logOnEpoch meters epoch logFields false date separator false
              = .ok (p, m)
            ∧ formatStatusAcc E logOnEpoch meters epoch logFields true date separator false
              = .ok (v, m)
            ∧ formatStatus E logOnEpoch meters epoch logFields false date separator false
              = .ok (p.status, m)
            ∧ formatStatus E logOnEpoch meters epoch logFields true date separator false
              = .ok (v.status, m)
            ∧ v.header = p.header
            ∧ v.items = p.items.map (fun c => (c.1, c.1 ++ ": " ++ c.2))
            ∧ v.status = separator.intercalate (v.items.map Prod.snd)
            ∧ ((date = true → E.currentDate ≠ "") →
                p.status = separator.intercalate (p.items.map Prod.snd)))) := by
  constructor
  · obtain ⟨a, ha1, ha2, ha3⟩ := formatStatus_ok E logOnEpoch meters epoch logFields false date
      separator true _ _ (extraCell_header E logFields "lr")
      (extraCell_header E logFields "lmcrit-t")
    obtain ⟨b, hb1, hb2, hb3⟩ := formatStatus_ok E logOnEpoch meters epoch logFields true date
      separator true _ _ (extraCell_header E logFields "lr")
      (extraCell_header E logFields "lmcrit-t")
    refine ⟨a.header, _, ha2, ?_⟩
    rw [hb2]
    have e1 := formatStatusAcc_header E logOnEpoch meters epoch logFields false date separator
      true a _ ha1
    have e2 := formatStatusAcc_header E logOnEpoch meters epoch logFields true date separator
      true b _ hb1
    have e3 : b.items.map Prod.fst = a.items.map Prod.fst := by
      rw [ha3, hb3]
      exact statusFields_names E logOnEpoch meters epoch epoch _ _ _ _ true false date
    simp only [if_true]
    rw [e2, e3, ← e1]
  · cases hlr : mapFind logFields "lr" with
    | none =>
      left
      exact ⟨formatStatus_error E logOnEpoch meters epoch logFields false date separator false
          (Or.inl (extraCell_row_none E logFields "lr" hlr)),
        formatStatus_error E logOnEpoch meters epoch logFields true date separator false
          (Or.inl (extraCell_row_none E logFields "lr" hlr))⟩
    | some x =>
      cases hlm : mapFind logFields "lmcrit-t" with
      | none =>
        left
        exact ⟨formatStatus_error E logOnEpoch meters epoch logFields false date separator false
            (Or.inr (extraCell_row_none E logFields "lmcrit-t" hlm)),
          formatStatus_error E logOnEpoch meters epoch logFields true date separator false
            (Or.inr (extraCell_row_none E logFields "lmcrit-t" hlm))⟩
      | some y =>
        right
        have h1 := extraCell_row_some E logFields _ x hlr
        have h2 := extraCell_row_some E logFields _ y hlm
        obtain ⟨p, hp1, hp2, hp3⟩ := formatStatus_ok E logOnEpoch meters epoch logFields false
          date separator false _ _ h1 h2
        obtain ⟨v, hv1, hv2, hv3⟩ := formatStatus_ok E logOnEpoch meters epoch logFields true
          date separator false _ _ h1 h2
        have e1 := formatStatusAcc_header E logOnEpoch meters epoch logFields false date
          separator false p _ hp1
        have e2 := formatStatusAcc_header E logOnEpoch meters epoch logFields true date
          separator false v _ hv1
        have e3 : v.items.map Prod.fst = p.items.map Prod.fst := by
          rw [hp3, hv3]
          exact statusFields_names E logOnEpoch meters epoch epoch _ _ _ _ true false date
        refine ⟨p, v, _, hp1, hv1, hp2, hv2, ?_, ?_, ?_, ?_⟩
        · rw [e2, e3, ← e1]
        · rw [hv3, hp3]
          exact statusFields_verbose E logOnEpoch meters epoch _ _ date
        · exact formatStatusAcc_status E logOnEpoch meters epoch logFields true date separator
            false v _ (fun _ hh => absurd hh (by decide)) hv1
        · intro hd
          exact formatStatusAcc_status E logOnEpoch meters epoch logFields false date separator
            false p _ (fun hh _ => hd hh) hp1

/-- C17: for a meter set whose maps hold every key once, `syncMeter` makes a call
of the per-meter reduction for a meter exactly when the meter is reachable in
the set (the stats meter, a timer, a loss or an edit meter of the train group or
of a validation subset); it makes that call once, and no call for anything
else. Afterwards every map has the keys it had, and every meter holds the
reduction of the value it held. -/
theorem syncMeter_reduces_each_once (E : Env) (meters : SSLTrainMeters)
    (hu : UniqueKeys meters) :
    (∀ c, c ∈ syncMeterCalls meters ↔ specReachable meters c)
      ∧ (∀ c, specReachable meters c → (syncMeterCalls meters).count c = 1)
      ∧ (∀ c, ¬ specReachable meters c → (syncMeterCalls meters).count c = 0)
      ∧ (syncMeter E meters).stats = E.reduceStats meters.stats
      ∧ mapKeys (syncMeter E meters).timer = mapKeys meters.timer
      ∧ (∀ n, mapFind (syncMeter E meters).timer n
          = (mapFind meters.timer n).map (E.reduce (.timer n)))
      ∧ (syncMeter E meters).train = syncDatasetMeters E none meters.train
      ∧ mapKeys (syncMeter E meters).valid = mapKeys meters.valid
      ∧ (∀ s, mapFind (syncMeter E meters).valid s
          = (mapFind meters.valid s).map (syncDatasetMeters E (some s)))
      ∧ (∀ sub dm,
          mapKeys (syncDatasetMeters E sub dm).edits = mapKeys dm.edits
          ∧ mapKeys (syncDatasetMeters E sub dm).losses = mapKeys dm.losses
          ∧ (∀ n, mapFind (syncDatasetMeters E sub dm).edits n
              = (mapFind dm.edits n).map (E.reduce (.edit sub n)))
          ∧ (∀ n, mapFind (syncDatasetMeters E sub dm).losses n
              = (mapFind dm.losses n).map (E.reduce (.loss sub n)))) := by
  refine ⟨mem_syncMeterCalls meters, ?_, ?_, rfl, ?_, ?_, rfl, ?_, ?_,
    syncDatasetMeters_spec E⟩
  · intro c hc
    exact List.count_eq_one_of_mem (nodup_syncMeterCalls meters hu)
      ((mem_syncMeterCalls meters c).mpr hc)
  · intro c hc
    exact List.count_eq_zero_of_not_mem (fun h => hc ((mem_syncMeterCalls meters c).mp h))
  · exact mapKeys_map_values (fun k v => E.reduce (.timer k) v) meters.timer
  · exact fun n => mapFind_map_values (fun k v => E.reduce (.timer k) v) meters.timer n
  · exact mapKeys_map_values (fun k v => syncDatasetMeters E (some k) v) meters.valid
  · exact fun s => mapFind_map_values (fun k v => syncDatasetMeters E (some k) v) meters.valid s

/-- C17 (witness): the meter set with two timers, a train group and one validation
subset, each with one loss and one edit meter, has unique keys; `syncMeter`
makes seven calls, one for each of these meters and for the stats meter, and
none for a timer that the set does not hold. -/
theorem syncMeter_reduces_each_once_witness :
    UniqueKeys meters125
      ∧ syncMeterCalls meters125
        = [SyncCall.stats, SyncCall.meter (.timer "bch"), SyncCall.meter (.timer "runtime"),
            SyncCall.meter (.edit none "tkn"), SyncCall.meter (.loss none "ctc"),
            SyncCall.meter (.edit (some "dev") "tkn"), SyncCall.meter (.loss (some "dev") "ctc")]
      ∧ (syncMeterCalls meters125).count (SyncCall.meter (.loss (some "dev") "ctc")) = 1
      ∧ (syncMeterCalls meters125).count (SyncCall.meter (.timer "fwd")) = 0
      ∧ mapKeys (syncMeter env0 meters125).timer = ["bch", "runtime"] := by
  have h := syncMeter_reduces_each_once env0 meters125 (by decide)
  refine ⟨by decide, by decide, ?_, ?_, ?_⟩
  · exact h.2.1 _ ((h.1 _).mp (by decide))
  · exact h.2.2.1 _ (fun hc => absurd ((h.1 _).mpr hc) (by decide))
  · rw [h.2.2.2.2.1]
    decide

/-- C18 (counterexample): on a worker that is not the master, one call with the
value 5 for the subset "dev" records 5 in the tracker, a first value and so a
strict new minimum, and requests no snapshot. -/
theorem best_so_far_counterexample :
    runCalls env0 ⟨false, true, []⟩ [⟨metersOf "dev" 5, [("epoch", "3")], []⟩]
        = (⟨false, true, [("dev", 5)]⟩, [Event.sync])
      ∧ observed env0 true "dev" [⟨metersOf "dev" 5, [("epoch", "3")], []⟩] = [5]
      ∧ specNewMinima [] [5] = 1
      ∧ snapshotCount "dev" [Event.sync] = 0 := by
  decide

/-- C18 (amended): after any sequence of calls of `logAndSaveModel` on a helper
whose tracker was empty, the tracker entry of every subset name is the minimum
of the target-unit error values observed for that subset so far: one of these
values, not above any of them, and present as soon as the subset has appeared;
an entry is never removed and never increases when the sequence is continued. On
the master, for a subset whose name is never the rolling tag, the number of
snapshots requested for the subset is the number of strict new minima in its
sequence of values, the first value counting as one; on a worker that is not the
master no snapshot is requested. -/
theorem best_so_far_invariant (E : Env) (h0 : LogHelper) (calls : List Call)
    (hfresh : h0.validminerrs = [])
    (hnd : ∀ c ∈ calls, (mapKeys c.meters.valid).Nodup) :
    (∀ s, mapFind (runCalls E h0 calls).1.validminerrs s
        = specMinimum (observed E h0.logOnEpoch s calls))
      ∧ (∀ s m, specMinimum (observed E h0.logOnEpoch s calls) = some m →
          m ∈ observed E h0.logOnEpoch s calls ∧ ∀ v ∈ observed E h0.logOnEpoch s calls, m ≤ v)
      ∧ (∀ s, observed E h0.logOnEpoch s calls ≠ [] →
          ∃ m, mapFind (runCalls E h0 calls).1.validminerrs s = some m)
      ∧ (∀ p q s b, calls = p ++ q → mapFind (runCalls E h0 p).1.validminerrs s = some b →
          ∃ b', mapFind (runCalls E h0 calls).1.validminerrs s = some b' ∧ b' ≤ b)
      ∧ (h0.isMaster = true → ∀ s, (∀ iter, rollingTag E h0.logOnEpoch iter ≠ s) →
          snapshotCount s (runCalls E h0 calls).2
            = specNewMinima [] (observed E h0.logOnEpoch s calls))
      ∧ (h0.isMaster = false → ∀ s, snapshotCount s (runCalls E h0 calls).2 = 0) := by
  have hseen : ∀ s, mapFind h0.validminerrs s = specMinimum [] := by
    intro s
    rw [hfresh]
    rfl
  have key := fun s => runCalls_minimum E calls h0 s [] hnd (hseen s)
  simp only [List.nil_append] at key
  refine ⟨fun s => (key s).1, fun s m hm => specMinimum_spec _ m hm, ?_, ?_,
    fun hm s htag => (key s).2.1 hm htag, fun hm s => (key s).2.2 hm⟩
  · intro s hne
    rw [(key s).1]
    cases hobs : observed E h0.logOnEpoch s calls with
    | nil => exact absurd hobs hne
    | cons a r => exact ⟨_, rfl⟩
  · intro p q s b hpq hb
    subst hpq
    have hp := (runCalls_minimum E p h0 s [] (fun c hc => hnd c (List.mem_append_left _ hc))
      (hseen s)).1
    simp only [List.nil_append] at hp
    rw [hp] at hb
    rw [(key s).1, observed_append]
    exact specMinimum_append_le _ _ b hb

/-- C18 (witness): four calls on the master with the values 10, 8, 9 and 7 for the
subset "dev" leave 7 in the tracker and request three snapshots tagged "dev". -/
theorem best_so_far_invariant_witness :
    observed env0 true "dev"
        [⟨metersOf "dev" 10, [("epoch", "1")], []⟩, ⟨metersOf "dev" 8, [("epoch", "2")], []⟩,
          ⟨metersOf "dev" 9, [("epoch", "3")], []⟩, ⟨metersOf "dev" 7, [("epoch", "4")], []⟩]
        = [10, 8, 9, 7]
      ∧ mapFind (runCalls env0 ⟨true, true, []⟩
          [⟨metersOf "dev" 10, [("epoch", "1")], []⟩, ⟨metersOf "dev" 8, [("epoch", "2")], []⟩,
            ⟨metersOf "dev" 9, [("epoch", "3")], []⟩,
            ⟨metersOf "dev" 7, [("epoch", "4")], []⟩]).1.validminerrs "dev" = some 7
      ∧ snapshotCount "dev" (runCalls env0 ⟨true, true, []⟩
          [⟨metersOf "dev" 10, [("epoch", "1")], []⟩, ⟨metersOf "dev" 8, [("epoch", "2")], []⟩,
            ⟨metersOf "dev" 9, [("epoch", "3")], []⟩,
            ⟨metersOf "dev" 7, [("epoch", "4")], []⟩]).2 = 3 := by
  have h := best_so_far_invariant env0 ⟨true, true, []⟩
    [⟨metersOf "dev" 10, [("epoch", "1")], []⟩, ⟨metersOf "dev" 8, [("epoch", "2")], []⟩,
      ⟨metersOf "dev" 9, [("epoch", "3")], []⟩, ⟨metersOf "dev" 7, [("epoch", "4")], []⟩]
    rfl (by decide)
  refine ⟨by decide, (h.1 "dev").trans (by decide), ?_⟩
  exact (h.2.2.2.2.1 rfl "dev" (fun iter => by simp [rollingTag, env0])).trans (by decide)

/-- C19 (counterexample): under the epoch key the configuration holds "12abc",
which is no integer; `std::stoi` reads the number it begins with, and the call on
the master goes through at step 12: it synchronizes, opens the log files,
requests the rolling snapshot and the snapshot of the subset, and records the
subset in the tracker. -/
theorem step_number_counterexample :
    stoi "12abc" = .ok 12
      ∧ logAndSaveModel env0 ⟨true, true, []⟩ (metersOf "dev" 5) [("epoch", "12abc")] []
        = .ok (⟨true, true, [("dev", 5)]⟩, metersOf "dev" 5,
            [Event.sync, Event.openFile File.log true, Event.openFile File.perf true,
              Event.error, Event.save (File.model "last"), Event.save (File.model "dev")]) := by
  decide

/-- C19 (amended): `logAndSaveModel` reads the step number from the configuration
key that the cadence selects, the epoch key when logging per epoch and the
iteration key otherwise. It fails before any effect, the helper and the trace
being as before the call, when the key is absent (out_of_range), when the value
does not begin, after white space and an optional sign, with a decimal digit
(invalid_argument), and when the number it begins with is outside the range of
`int` (out_of_range). Otherwise the step is the number that the value begins
with, whatever follows it; the call then starts with the synchronization, and
the rolling tag, under which the master requests a snapshot, is "last" unless
`itersave` is set, in which case it is "epoch_" plus the step printed with
"%04d" or "iter_" plus the step printed with "%08d": for a step that is not
negative, its decimal digits after the zeros that fill the width. -/
theorem logAndSaveModel_step_number (E : Env) (h : LogHelper) (meters : SSLTrainMeters)
    (config : List (String × String)) (lf : List (String × ℚ)) :
    (mapFind config (if h.logOnEpoch then E.kEpoch else E.kIteration) = none →
        logAndSaveModel E h meters config lf = .error .outOfRange
          ∧ runCalls E h [⟨meters, config, lf⟩] = (h, []))
      ∧ (∀ v, mapFind config (if h.logOnEpoch then E.kEpoch else E.kIteration) = some v →
          (leadingDigits v = [] →
            logAndSaveModel E h meters config lf = .error .invalidArgument
              ∧ runCalls E h [⟨meters, config, lf⟩] = (h, []))
          ∧ (leadingDigits v ≠ [] →
              ¬ (-2147483648 ≤ leadingValue v ∧ leadingValue v ≤ 2147483647) →
            logAndSaveModel E h meters config lf = .error .outOfRange
              ∧ runCalls E h [⟨meters, config, lf⟩] = (h, []))
          ∧ (leadingDigits v ≠ [] →
              -2147483648 ≤ leadingValue v ∧ leadingValue v ≤ 2147483647 →
            logAndSaveModel E h meters config lf
                = .ok (logAndSaveModelAt E h meters (leadingValue v) lf)
              ∧ (logAndSaveModelAt E h meters (leadingValue v) lf).2.2.head? = some Event.sync
              ∧ (h.isMaster = true →
                  Event.save (File.model (rollingTag E h.logOnEpoch (leadingValue v)))
                    ∈ (logAndSaveModelAt E h meters (leadingValue v) lf).2.2)
              ∧ rollingTag E h.logOnEpoch (leadingValue v)
                = (if E.itersave = true then
                    (if h.logOnEpoch = true then "epoch_" ++ formatD true 4 (leadingValue v)
                      else "iter_" ++ formatD true 8 (leadingValue v))
                  else "last")))
      ∧ (∀ (w : Nat) (n : Int), 0 ≤ n →
          formatD true w n
            = String.mk (List.replicate (w - (Nat.repr n.toNat).length) '0')
              ++ Nat.repr n.toNat) := by
  have hstep : ∀ v, mapFind config (if h.logOnEpoch then E.kEpoch else E.kIteration) = some v →
      stepNumber E h.logOnEpoch config = stoi v := by
    intro v hv
    unfold stepNumber
    rw [hv]
  refine ⟨?_, ?_, formatD_zero_nonneg⟩
  · intro hk
    have e : stepNumber E h.logOnEpoch config = .error .outOfRange := by
      unfold stepNumber
      rw [hk]
    exact ⟨logAndSaveModel_error E h meters config lf _ e,
      runCalls_cons_error E h ⟨meters, config, lf⟩ [] _ e⟩
  · intro v hv
    refine ⟨?_, ?_, ?_⟩
    · intro hd
      have e : stepNumber E h.logOnEpoch config = .error .invalidArgument := by
        rw [hstep v hv, stoi_eq, if_pos hd]
      exact ⟨logAndSaveModel_error E h meters config lf _ e,
        runCalls_cons_error E h ⟨meters, config, lf⟩ [] _ e⟩
    · intro hd hr
      have e : stepNumber E h.logOnEpoch config = .error .outOfRange := by
        rw [hstep v hv, stoi_eq, if_neg hd, if_neg hr]
      exact ⟨logAndSaveModel_error E h meters config lf _ e,
        runCalls_cons_error E h ⟨meters, config, lf⟩ [] _ e⟩
    · intro hd hr
      have e : stepNumber E h.logOnEpoch config = .ok (leadingValue v) := by
        rw [hstep v hv, stoi_eq, if_neg hd, if_pos hr]
      obtain ⟨r1, r2⟩ := logAndSaveModelAt_rolling E h meters (leadingValue v) lf
      refine ⟨logAndSaveModel_ok E h meters config lf _ e, r2, r1, ?_⟩
      unfold rollingTag
      cases E.itersave <;> cases h.logOnEpoch <;> rfl

/-- C19 (witness): with `itersave` set, a master logging per epoch that finds "3"
under the epoch key requests the rolling snapshot under "epoch_0003"; one
logging per iteration that finds " +12abc" under the iteration key requests it
under "iter_00000012"; a value "abc" and an absent key make the call fail with
the helper and the trace as they were. -/
theorem logAndSaveModel_step_number_witness :
    Event.save (File.model "epoch_0003")
        ∈ (logAndSaveModelAt env1 ⟨true, true, []⟩ meters125 3 []).2.2
      ∧ Event.save (File.model "iter_00000012")
        ∈ (logAndSaveModelAt env1 ⟨true, false, []⟩ meters125 12 []).2.2
      ∧ logAndSaveModel env1 ⟨true, false, []⟩ meters125 [("iteration", " +12abc")] []
        = .ok (logAndSaveModelAt env1 ⟨true, false, []⟩ meters125 12 [])
      ∧ runCalls env1 ⟨true, true, [("dev", 4)]⟩ [⟨meters125, [("epoch", "abc")], []⟩]
        = (⟨true, true, [("dev", 4)]⟩, [])
      ∧ runCalls env1 ⟨true, true, [("dev", 4)]⟩ [⟨meters125, [("iteration", "7")], []⟩]
        = (⟨true, true, [("dev", 4)]⟩, []) := by
  have a := logAndSaveModel_step_number env1 ⟨true, true, []⟩ meters125 [("epoch", "3")] []
  have b := logAndSaveModel_step_number env1 ⟨true, false, []⟩ meters125
    [("iteration", " +12abc")] []
  have c := logAndSaveModel_step_number env1 ⟨true, true, [("dev", 4)]⟩ meters125
    [("epoch", "abc")] []
  have d := logAndSaveModel_step_number env1 ⟨true, true, [("dev", 4)]⟩ meters125
    [("iteration", "7")] []
  have a3 := (a.2.1 "3" (by decide)).2.2 (by decide) (by decide)
  have b3 := (b.2.1 " +12abc" (by decide)).2.2 (by decide) (by decide)
  exact ⟨a3.2.2.1 rfl, b3.2.2.1 rfl, b3.1, ((c.2.1 "abc" (by decide)).1 (by decide)).2,
    (d.1 (by decide)).2⟩

end W2l
